import Mathlib

/-!
# The OpenCS filter-expression parser (`apps/opencs/model/filter/parser.cpp`)

A shallow embedding of the tokenizer and the recursive-descent parser of
`CSMFilter::Parser`, followed by the properties established about it.

Conventions of the embedding

* `std::string` is `List Char`; the parser fields `mInput`, `mIndex`, `mError`
  and `mFilter` are the fields of `Parser`, and every member function is a
  function from a `Parser` to a result and the updated `Parser`.
* `boost::shared_ptr<Node>` is `Option Node` (`none` is the null pointer).
* The scanning loops `for (; mIndex<size; ++mIndex)` run over the unread part
  `mInput.drop mIndex` and report how many characters they consumed.
* The mutually recursive `parseImp` / `parseNAry` take a recursion budget and
  return `none` only when the budget is used up; `parse` supplies a budget
  that is shown to be sufficient for every input.
* A `double` is a finite decimal number (`Decimal`).  The tokenizer reads a
  number into a `float`; that conversion is the correctly rounded one of
  IEEE 754 single precision (`roundFloat`), and `static_cast<int>` is
  truncation into the range of a 32-bit `int` (`Decimal.toInt`).
-/

namespace CSMFilter

/-! ## Tokens -/

/-- The enumeration `Token::Type` (parser.cpp lines 25-44), in declaration order. -/
inductive TokenType
  | Type_EOS
  | Type_None
  | Type_String
  | Type_Number
  | Type_Open
  | Type_Close
  | Type_OpenSquare
  | Type_CloseSquare
  | Type_Comma
  | Type_OneShot
  | Type_Keyword_True
  | Type_Keyword_False
  | Type_Keyword_And
  | Type_Keyword_Or
  | Type_Keyword_Not
  | Type_Keyword_Text
  | Type_Keyword_Value
  deriving DecidableEq, Repr

open TokenType

/-- The integer value of an enumerator of `Token::Type`. -/
def TokenType.toCode : TokenType → Nat
  | Type_EOS => 0
  | Type_None => 1
  | Type_String => 2
  | Type_Number => 3
  | Type_Open => 4
  | Type_Close => 5
  | Type_OpenSquare => 6
  | Type_CloseSquare => 7
  | Type_Comma => 8
  | Type_OneShot => 9
  | Type_Keyword_True => 10
  | Type_Keyword_False => 11
  | Type_Keyword_And => 12
  | Type_Keyword_Or => 13
  | Type_Keyword_Not => 14
  | Type_Keyword_Text => 15
  | Type_Keyword_Value => 16

/-- The cast `static_cast<Token::Type> (n)` for the values the enumeration has
(any other value is sent to `Type_None`; the parser never produces one). -/
def TokenType.ofCode : Nat → TokenType
  | 0 => Type_EOS
  | 1 => Type_None
  | 2 => Type_String
  | 3 => Type_Number
  | 4 => Type_Open
  | 5 => Type_Close
  | 6 => Type_OpenSquare
  | 7 => Type_CloseSquare
  | 8 => Type_Comma
  | 9 => Type_OneShot
  | 10 => Type_Keyword_True
  | 11 => Type_Keyword_False
  | 12 => Type_Keyword_And
  | 13 => Type_Keyword_Or
  | 14 => Type_Keyword_Not
  | 15 => Type_Keyword_Text
  | 16 => Type_Keyword_Value
  | _ => Type_None

/-- The numeric payload of a token and of a value-match bound: the decimal
number `mant / 10 ^ scale`.  The source holds it in a `double` whose value
always comes from a `float` (lines 164-168); every such value is a finite
decimal, and the tokenizer produces it in lowest terms (`roundFloat`), so that
equal numbers are equal structures. -/
structure Decimal where
  mant : Int
  scale : Nat
  deriving DecidableEq, Repr

/-- An integer as a `Decimal`. -/
def Decimal.ofInt (a : Int) : Decimal := ⟨a, 0⟩

/-- The cast `static_cast<int> (x)` of a `double` to a 32-bit `int` (lines 351-352
and 415-416): truncation towards zero.  When the truncated value lies outside
the range of `int` the result is not defined by the language; the value
`-2^31` of the x86 conversion is taken.  The choice does not matter to the test
`Decimal.isInt`, since no `int` equals such a number. -/
def Decimal.toInt (x : Decimal) : Int :=
  let t := Int.tdiv x.mant ((10 : Int) ^ x.scale)
  if -2147483648 ≤ t ∧ t < 2147483648 then t else -2147483648

/-- The test `static_cast<int> (x)==x` (lines 351 and 415): the cast value,
converted back to `double`, equals the number. -/
def Decimal.isInt (x : Decimal) : Bool := x.toInt * (10 : Int) ^ x.scale == x.mant

/-- The struct `Token` (lines 23-57).  A payload that the constructor in use
leaves unset is the empty string, respectively zero. -/
structure Token where
  mType : TokenType
  mString : List Char
  mNumber : Decimal
  deriving DecidableEq, Repr

/-- The constructor `Token (Type type = Type_None)` (line 59). -/
def Token.ofType (type : TokenType) : Token := ⟨type, [], ⟨0, 0⟩⟩

/-- The constructor `Token (const std::string& string)` (line 61). -/
def Token.ofString (string : List Char) : Token := ⟨Type_String, string, ⟨0, 0⟩⟩

/-- The constructor `Token (double number)` (line 63). -/
def Token.ofNumber (number : Decimal) : Token := ⟨Type_Number, [], number⟩

/-- The conversion `Token::operator bool` (lines 65-68). -/
def Token.toBool (t : Token) : Bool := t.mType != Type_None

/-- The comparison `operator== (const Token&, const Token&)` (lines 70-82). -/
def Token.eq (left right : Token) : Bool :=
  if left.mType != right.mType then false
  else
    match left.mType with
    | Type_String => left.mString == right.mString
    | Type_Number => left.mNumber == right.mNumber
    | _ => true

/-- The expression `left!=right` on two tokens.  The translation unit declares
`operator==` (lines 70-82) and the implicit conversion `operator bool`
(lines 56, 65-68) for `Token`, and no `operator!=`; `Token` is defined in
parser.cpp itself, so no other file can supply one.  In the C++ dialect of this
code base (it predates C++20, where `!=` would be rewritten through
`operator==`), overload resolution therefore picks the built-in `!=` after
converting both operands with `operator bool`: the two truth values are
compared, not the token types. -/
def Token.ne (left right : Token) : Bool := left.toBool != right.toBool

/-! ## Expression nodes -/

/-- The enumeration `ValueNode::Type`. -/
inductive ValueType
  | Type_Closed
  | Type_Open
  deriving DecidableEq, Repr

/-- The expression tree: the node classes constructed by the parser
(`BooleanNode`, `AndNode`, `OrNode`, `NotNode`, `TextNode`, `ValueNode`), with
the constructor arguments the parser passes.  A child is a shared pointer and
may be null. -/
inductive Node
  | BooleanNode (value : Bool)
  | AndNode (nodes : List (Option Node))
  | OrNode (nodes : List (Option Node))
  | NotNode (child : Option Node)
  | TextNode (columnId : Int) (text : List Char)
  | ValueNode (columnId : Int) (lowerType upperType : ValueType) (lower upper : Decimal)

open Node

/-! ## Collaborators -/

/-- A record of the named-filter collection, `CSMWorld::Record<CSMFilter::Filter>`:
what the parser reads from it, `isDeleted ()` and `get().mFilter`. -/
structure FilterRecord where
  isDeleted : Bool
  mFilter : List Char

/-- The collaborators of the parser, whose code is outside the parser:
`getId` is `CSMWorld::Columns::getId` (column name to column id, negative for an
unknown name), `searchId` is `mData.getFilters().searchId` (index of the record
with the given id, `-1` if there is none) and `getRecord` is
`mData.getFilters().getRecord`. -/
structure Data where
  getId : List Char → Int
  searchId : List Char → Int
  getRecord : Int → FilterRecord

/-! ## Parser state -/

/-- The data members of `CSMFilter::Parser` (`mData` is passed separately). -/
structure Parser where
  mFilter : Option Node
  mInput : List Char
  mIndex : Nat
  mError : Bool

/-- The constructor `Parser::Parser` (lines 517-518). -/
def Parser.new : Parser := ⟨none, [], 0, false⟩

/-- The member `Parser::error` (lines 512-515). -/
def Parser.error (p : Parser) : Parser := { p with mError := true }

/-- The unread part of the input, `mInput` from offset `mIndex` on. -/
def Parser.unread (p : Parser) : List Char := p.mInput.drop p.mIndex

/-- Advance the cursor: `mIndex += n`. -/
def Parser.advance (p : Parser) (n : Nat) : Parser := { p with mIndex := p.mIndex + n }

/-! ## Tokenizer -/

/-- The double-quote character. -/
def quote : Char := Char.ofNat 34

/-- The function `Misc::StringUtils::lowerCase`: ASCII lower-casing of each
character. -/
def lowerCase (s : List Char) : List Char := s.map Char.toLower

/-- The table `sKeywords` of `checkKeywords` (lines 173-179), without its
terminating null entry. -/
def sKeywords : List (List Char) :=
  [['t', 'r', 'u', 'e'], ['f', 'a', 'l', 's', 'e'], ['a', 'n', 'd'], ['o', 'r'],
   ['n', 'o', 't'], ['s', 't', 'r', 'i', 'n', 'g'], ['v', 'a', 'l', 'u', 'e']]

/-- The loop of `checkKeywords` (lines 183-185) from table position `i` on, over
the remaining table entries: the type of the first matching entry, if any. -/
def checkKeywordsLoop (string : List Char) : List (List Char) → Nat → Option TokenType
  | [], _ => none
  | k :: ks, i =>
    if k == string || (string.length == 1 && k.head? == string.head?) then
      some (TokenType.ofCode (i + Type_Keyword_True.toCode))
    else checkKeywordsLoop string ks (i + 1)

/-- The member `Parser::checkKeywords` (lines 171-188). -/
def checkKeywords (token : Token) : Token :=
  match checkKeywordsLoop (lowerCase token.mString) sKeywords 0 with
  | some type => Token.ofType type
  | none => token

/-- The scanning loop of `getStringToken` (lines 91-106) over the unread input,
started with the characters accumulated so far: the accumulated string and the
number of characters by which `mIndex` is advanced. -/
def getStringLoop : List Char → List Char → List Char × Nat
  | [], string => (string, 0)
  | c :: cs, string =>
    if c.isAlpha || c == ':' || c == '_' || (!string.isEmpty && c.isDigit) || c == quote ||
        (!string.isEmpty && string.head? == some quote) then
      if c == quote && (string ++ [c]).length > 1 then (string ++ [c], 1)
      else
        let r := getStringLoop cs (string ++ [c])
        (r.1, r.2 + 1)
    else (string, 0)

/-- The member `Parser::getStringToken` (lines 85-127). -/
def getStringToken (p : Parser) : Token × Parser :=
  let r := getStringLoop p.unread []
  let string := r.1
  let p := p.advance r.2
  if !string.isEmpty then
    if string.head? == some quote && (string.getLast? != some quote || string.length < 2) then
      (Token.ofType Type_None, p.error)
    else if string.head? != some quote && string.getLast? == some quote then
      (Token.ofType Type_None, p.error)
    else if string.head? == some quote then
      (Token.ofString ((string.drop 1).take (string.length - 2)), p)
    else (checkKeywords (Token.ofString string), p)
  else (checkKeywords (Token.ofString string), p)

/-- The scanning loop of `getNumberToken` (lines 138-156) over the unread input:
the accumulated string, `hasDecimalPoint`, `hasDigit`, and the number of
characters by which `mIndex` is advanced. -/
def getNumberLoop : List Char → List Char → Bool → Bool → List Char × Bool × Bool × Nat
  | [], string, hasDecimalPoint, hasDigit => (string, hasDecimalPoint, hasDigit, 0)
  | c :: cs, string, hasDecimalPoint, hasDigit =>
    if c.isDigit then
      let r := getNumberLoop cs (string ++ [c]) hasDecimalPoint true
      (r.1, r.2.1, r.2.2.1, r.2.2.2 + 1)
    else if c == '.' && !hasDecimalPoint then
      let r := getNumberLoop cs (string ++ [c]) true hasDigit
      (r.1, r.2.1, r.2.2.1, r.2.2.2 + 1)
    else if string.isEmpty && c == '-' then
      let r := getNumberLoop cs (string ++ [c]) hasDecimalPoint hasDigit
      (r.1, r.2.1, r.2.2.1, r.2.2.2 + 1)
    else (string, hasDecimalPoint, hasDigit, 0)

/-- The digits of an accumulated number text, read left to right: the integer
made of all digits seen and the count of digits after the decimal point. -/
def readDigits : List Char → Nat → Nat → Bool → Nat × Nat
  | [], m, s, _ => (m, s)
  | c :: cs, m, s, afterPoint =>
    if c.isDigit then readDigits cs (m * 10 + (c.toNat - 48)) (if afterPoint then s + 1 else s) afterPoint
    else readDigits cs m s true

/-- The decimal number that an accumulated number text (an optional `-`,
digits, at most one `.`) denotes. -/
def readDecimal (string : List Char) : Decimal :=
  match string with
  | '-' :: cs => let r := readDigits cs 0 0 false; ⟨-(r.1 : Int), r.2⟩
  | cs => let r := readDigits cs 0 0 false; ⟨(r.1 : Int), r.2⟩

/-- The quotient `a / b` rounded to the nearest natural number, a tie going to
the even neighbour. -/
def roundDiv (a b : Nat) : Nat :=
  if 2 * (a % b) < b then a / b
  else if b < 2 * (a % b) then a / b + 1
  else if a / b % 2 == 0 then a / b else a / b + 1

/-- The number of binary digits of `n`: the least `b` with `n < 2 ^ b`.  The
first argument bounds the recursion. -/
def bitLength : Nat → Nat → Nat
  | 0, _ => 0
  | fuel + 1, n => if n = 0 then 0 else bitLength fuel (n / 2) + 1

/-- The binary exponent of `n / d` (both not zero) in single precision, counted
from `-126` and kept within `0 .. 253`: the largest `k` with
`2 ^ (k - 126) ≤ n / d`, and `0` when there is none.  With `b`
the difference of the numbers of binary digits of `n` and `d`, the quotient
lies between `2 ^ (b - 1)` and `2 ^ (b + 1)`, so that its exponent is `b` or
`b - 1`.  All numbers below `2 ^ (-125)` share the exponent `-126`. -/
def floatExponent (n d : Nat) : Nat :=
  let k := bitLength n n + 126 - bitLength d d
  min 253 (if 2 ^ (k - 126) * d ≤ n * 2 ^ (126 - k) then k else k - 1)

/-- The number `n / 2 ^ s` as a decimal in lowest terms. -/
def dyadic : Nat → Nat → Decimal
  | n, 0 => ⟨(n : Int), 0⟩
  | n, s + 1 => if n % 2 == 0 then dyadic (n / 2) s else ⟨((n * 5 ^ (s + 1) : Nat) : Int), s + 1⟩

/-- The `float` nearest to `n / d`: IEEE 754 single precision has 24 significant
bits and exponents `-126` to `127`, so that the numbers with exponent `k - 126`
are the multiples of `2 ^ (k - 149)`; rounding is to nearest, ties to even.  A
number that rounds to `2 ^ 128` or beyond overflows: the extraction fails and
the library stores the largest finite `float`, `(2 ^ 24 - 1) * 2 ^ 104`. -/
def roundFloatNat (n d : Nat) : Decimal :=
  if n = 0 then ⟨0, 0⟩
  else
    let k := floatExponent n d
    if k ≤ 149 then dyadic (roundDiv (n * 2 ^ (149 - k)) d) (149 - k)
    else
      let m := roundDiv n (d * 2 ^ (k - 149))
      if 2 ^ 24 ≤ m ∧ k = 253 then ⟨(((2 ^ 24 - 1) * 2 ^ 104 : Nat) : Int), 0⟩
      else ⟨((m * 2 ^ (k - 149) : Nat) : Int), 0⟩

/-- The conversion of a decimal number to `float`, done by the library behind
`stream >> value`: the nearest `float`, with the sign of the number. -/
def roundFloat (x : Decimal) : Decimal :=
  let r := roundFloatNat x.mant.natAbs (10 ^ x.scale)
  if x.mant < 0 then ⟨-r.mant, r.scale⟩ else r

/-- The extraction `float value; stream >> value` and the conversion of `value`
to the `double` of the token (lines 164-168), applied to the text that
`getNumberLoop` accumulates: the number the text denotes, rounded to single
precision. -/
def readNumber (string : List Char) : Decimal := roundFloat (readDecimal string)

/-- The member `Parser::getNumberToken` (lines 129-169). -/
def getNumberToken (p : Parser) : Token × Parser :=
  let r := getNumberLoop p.unread [] false false
  let string := r.1
  let hasDigit := r.2.2.1
  let p := p.advance r.2.2.2
  if !hasDigit then (Token.ofType Type_None, p.error)
  else (Token.ofNumber (readNumber string), p)

/-- The loop of `getNextToken` that skips spaces (lines 196-202): the number of
leading space characters of the unread input. -/
def skipSpaces : List Char → Nat
  | [] => 0
  | c :: cs => if c != ' ' then 0 else skipSpaces cs + 1

/-- The member `Parser::getNextToken` (lines 190-225). -/
def getNextToken (p : Parser) : Token × Parser :=
  let p := p.advance (skipSpaces p.unread)
  match p.unread with
  | [] => (Token.ofType Type_EOS, p)
  | c :: _ =>
    if c == '(' then (Token.ofType Type_Open, p.advance 1)
    else if c == ')' then (Token.ofType Type_Close, p.advance 1)
    else if c == '[' then (Token.ofType Type_OpenSquare, p.advance 1)
    else if c == ']' then (Token.ofType Type_CloseSquare, p.advance 1)
    else if c == ',' then (Token.ofType Type_Comma, p.advance 1)
    else if c == '!' then (Token.ofType Type_OneShot, p.advance 1)
    else if c == quote || c == '_' || c.isAlpha || c == ':' then getStringToken p
    else if c == '-' || c == '.' || c.isDigit then getNumberToken p
    else (Token.ofType Type_None, p.error)

/-! ## Parser -/

/-- The column id that `parseText` and `parseValue` compute from the column
token (lines 346-357 and 410-421): `-1` unless the token is an integer-valued
number or a string, which is resolved through `Columns::getId`. -/
def columnIdOf (d : Data) (token : Token) : Int :=
  if token.mType == Type_Number then
    if token.mNumber.isInt then token.mNumber.toInt else -1
  else if token.mType == Type_String then d.getId token.mString
  else -1

/-- The member `Parser::parseText` (lines 331-393). -/
def parseText (d : Data) (p : Parser) : Option Node × Parser :=
  let r := getNextToken p
  if r.1.mType != Type_Open then (none, r.2.error)
  else
    let r := getNextToken r.2
    if !r.1.toBool then (none, r.2)
    else
      let columnId := columnIdOf d r.1
      if columnId < 0 then (none, r.2.error)
      else
        let r := getNextToken r.2
        if r.1.mType != Type_Comma then (none, r.2.error)
        else
          let r := getNextToken r.2
          if r.1.mType != Type_String then (none, r.2.error)
          else
            let text := r.1.mString
            let r := getNextToken r.2
            if r.1.mType != Type_Close then (none, r.2.error)
            else (some (TextNode columnId text), r.2)

/-- The interval branch of `parseValue` (lines 453-498), entered with the token
read at line 443 when that token is not a number: on success the lower and
upper bound types and values. -/
def parseInterval (token : Token) (p : Parser) :
    Option (ValueType × ValueType × Decimal × Decimal) × Parser :=
  if token.mType != Type_OpenSquare && (token.mType != Type_CloseSquare && token.mType != Type_Open) then
    (none, p.error)
  else
    let lowerType :=
      if token.mType == Type_OpenSquare then ValueType.Type_Closed else ValueType.Type_Open
    let r := getNextToken p
    if r.1.mType != Type_Number then (none, r.2.error)
    else
      let lower := r.1.mNumber
      let r := getNextToken r.2
      if r.1.mType != Type_Comma then (none, r.2.error)
      else
        let r := getNextToken r.2
        if r.1.mType != Type_Number then (none, r.2.error)
        else
          let upper := r.1.mNumber
          let r := getNextToken r.2
          if r.1.mType != Type_CloseSquare && (r.1.mType != Type_OpenSquare && r.1.mType != Type_Close) then
            (none, r.2.error)
          else
            let upperType :=
              if r.1.mType == Type_CloseSquare then ValueType.Type_Closed else ValueType.Type_Open
            (some (lowerType, upperType, lower, upper), r.2)

/-- The member `Parser::parseValue` (lines 395-510). -/
def parseValue (d : Data) (p : Parser) : Option Node × Parser :=
  let r := getNextToken p
  if r.1.mType != Type_Open then (none, r.2.error)
  else
    let r := getNextToken r.2
    if !r.1.toBool then (none, r.2)
    else
      let columnId := columnIdOf d r.1
      if columnId < 0 then (none, r.2.error)
      else
        let r := getNextToken r.2
        if r.1.mType != Type_Comma then (none, r.2.error)
        else
          let r := getNextToken r.2
          let b :=
            if r.1.mType == Type_Number then
              (some (ValueType.Type_Closed, ValueType.Type_Closed, r.1.mNumber, r.1.mNumber), r.2)
            else parseInterval r.1 r.2
          match b.1 with
          | none => (none, b.2)
          | some (lowerType, upperType, lower, upper) =>
            let r := getNextToken b.2
            if r.1.mType != Type_Close then (none, r.2.error)
            else (some (ValueNode columnId lowerType upperType lower upper), r.2)

mutual

/-- The member `Parser::parseImp` (lines 227-282).  The first argument is the
recursion budget; the result is `none` only when it is used up. -/
def parseImp (d : Data) : Nat → Bool → Bool → Parser → Option (Option Node × Parser)
  | 0, _, _, _ => none
  | fuel + 1, allowEmpty, _, p =>
    let r := getNextToken p
    if r.1.toBool then
      let r := if r.1.eq (Token.ofType Type_OneShot) then getNextToken r.2 else r
      if r.1.toBool then
        match r.1.mType with
        | Type_Keyword_True => some (some (BooleanNode true), r.2)
        | Type_Keyword_False => some (some (BooleanNode false), r.2)
        | Type_Keyword_And => parseNAry d fuel r.1 r.2
        | Type_Keyword_Or => parseNAry d fuel r.1 r.2
        | Type_Keyword_Not =>
          match parseImp d fuel false false r.2 with
          | none => none
          | some s => if s.2.mError then some (none, s.2) else some (some (NotNode s.1), s.2)
        | Type_Keyword_Text => some (parseText d r.2)
        | Type_Keyword_Value => some (parseValue d r.2)
        | Type_EOS => some (none, if !allowEmpty then r.2.error else r.2)
        | _ => some (none, r.2.error)
      else some (none, r.2)
    else some (none, r.2)

/-- The member `Parser::parseNAry` (lines 284-329); its `for (;;)` loop is
`parseNAryLoop`, which yields the collected nodes, or nothing when the loop is
left through one of its `return` statements. -/
def parseNAry (d : Data) : Nat → Token → Parser → Option (Option Node × Parser)
  | 0, _, _ => none
  | fuel + 1, keyword, p =>
    let r := getNextToken p
    if r.1.mType != Type_Open then some (none, r.2.error)
    else
      match parseNAryLoop d fuel [] r.2 with
      | none => none
      | some (none, q) => some (none, q)
      | some (some nodes, q) =>
        if nodes.isEmpty then some (none, q.error)
        else
          match keyword.mType with
          | Type_Keyword_And => some (some (AndNode nodes), q)
          | Type_Keyword_Or => some (some (OrNode nodes), q)
          | _ => some (none, q.error)

/-- The loop `for (;;)` of `parseNAry` (lines 296-315), entered with the nodes
collected so far. -/
def parseNAryLoop (d : Data) : Nat → List (Option Node) → Parser →
    Option (Option (List (Option Node)) × Parser)
  | 0, _, _ => none
  | fuel + 1, nodes, p =>
    match parseImp d fuel false false p with
    | none => none
    | some s =>
      if s.2.mError then some (none, s.2)
      else
        let r := getNextToken s.2
        if !r.1.toBool || (r.1.mType != Type_Close && r.1.mType != Type_Comma) then
          some (none, r.2.error)
        else if r.1.mType == Type_Close then some (some (nodes ++ [s.1]), r.2)
        else parseNAryLoop d fuel (nodes ++ [s.1]) r.2

end

/-- The recursion budget that `parse` gives to `parseImp` for an input of the
given length. -/
def parseBudget (filter : List Char) : Nat := 2 * filter.length + 2

/-- The member `Parser::parse` (lines 520-587).  The first argument bounds the
nesting of `parse` inside itself (line 580); the result is `none` only when
that bound or the budget of `parseImp` is used up. -/
def parseDepth (d : Data) : Nat → Parser → List Char → Bool → Option (Bool × Parser)
  | 0, _, _, _ => none
  | depth + 1, p, filter, allowPredefined =>
    let p : Parser := { p with mFilter := none, mError := false, mInput := filter, mIndex := 0 }
    let r := if allowPredefined then getNextToken p else (Token.ofType Type_None, p)
    let token := r.1
    if !allowPredefined || token.eq (Token.ofType Type_OneShot) then
      match parseImp d (parseBudget filter) true (token.ne (Token.ofType Type_OneShot)) r.2 with
      | none => none
      | some s =>
        if s.2.mError then some (false, s.2)
        else
          let e := getNextToken s.2
          if e.1.ne (Token.ofType Type_EOS) then some (false, e.2.error)
          else
            match s.1 with
            | some node => some (true, { e.2 with mFilter := some node })
            | none => some (true, { e.2 with mFilter := some (BooleanNode true) })
    else if token.mType == Type_String && allowPredefined then
      let e := getNextToken r.2
      if e.1.ne (Token.ofType Type_EOS) then some (false, e.2.error)
      else
        let index := d.searchId token.mString
        if index == -1 then some (false, e.2.error)
        else
          let record := d.getRecord index
          if record.isDeleted then some (false, e.2.error)
          else parseDepth d depth e.2 record.mFilter false
    else some (false, r.2.error)

/-- The member `Parser::parse`: `parse` nests inside itself at most once, so a
nesting bound of two is never reached. -/
def parse (d : Data) (p : Parser) (filter : List Char) (allowPredefined : Bool) :
    Option (Bool × Parser) :=
  parseDepth d 2 p filter allowPredefined

/-- The member `Parser::getFilter` (lines 589-595); the exception
`std::logic_error` is the error result. -/
def getFilter (p : Parser) : Except String (Option Node) :=
  if p.mError then Except.error "No filter available" else Except.ok p.mFilter

/-! ## Auxiliary definitions for the proofs -/

/-- Advance the cursor by `n` and raise the error flag if `e`. -/
def Parser.step (p : Parser) (n : Nat) (e : Bool) : Parser :=
  { p with mIndex := p.mIndex + n, mError := p.mError || e }

/-- The parser state that has only the text `l` to read, with error flag `e`. -/
def Parser.onText (l : List Char) (e : Bool) : Parser := ⟨none, l, 0, e⟩

/-- The token read from unread input `l`, the number of characters consumed and
whether the tokenizer reports an error: `getNextToken` run on `l` alone. -/
def lex (l : List Char) : Token × Nat × Bool :=
  let r := getNextToken ⟨none, l, 0, false⟩
  (r.1, r.2.mIndex, r.2.mError)

/-- The string scan `getStringToken` run on unread text `u` alone. -/
def lexString (u : List Char) : Token × Nat × Bool :=
  let r := getStringToken ⟨none, u, 0, false⟩
  (r.1, r.2.mIndex, r.2.mError)

/-- The number scan `getNumberToken` run on unread text `u` alone. -/
def lexNumber (u : List Char) : Token × Nat × Bool :=
  let r := getNumberToken ⟨none, u, 0, false⟩
  (r.1, r.2.mIndex, r.2.mError)

/-- The case distinction of `getNextToken` on the first unread character
(lines 207-224), with the result of each case as an argument. -/
def dispatch {α : Type} (c : Char) (a1 a2 a3 a4 a5 a6 a7 a8 a9 : α) : α :=
  if c == '(' then a1
  else if c == ')' then a2
  else if c == '[' then a3
  else if c == ']' then a4
  else if c == ',' then a5
  else if c == '!' then a6
  else if c == quote || c == '_' || c.isAlpha || c == ':' then a7
  else if c == '-' || c == '.' || c.isDigit then a8
  else a9

/-- The token that `getNextToken` reads from unread text `u` whose first
character `c` is not a space: token, characters consumed, error. -/
def lexHead (c : Char) (u : List Char) : Token × Nat × Bool :=
  dispatch c (Token.ofType Type_Open, 1, false) (Token.ofType Type_Close, 1, false)
    (Token.ofType Type_OpenSquare, 1, false) (Token.ofType Type_CloseSquare, 1, false)
    (Token.ofType Type_Comma, 1, false) (Token.ofType Type_OneShot, 1, false)
    (lexString u) (lexNumber u) (Token.ofType Type_None, 0, true)

/-- The keyword token types. -/
def TokenType.isKeyword : TokenType → Bool
  | Type_Keyword_True | Type_Keyword_False | Type_Keyword_And | Type_Keyword_Or
  | Type_Keyword_Not | Type_Keyword_Text | Type_Keyword_Value => true
  | _ => false

/-- A relation between parser states that is kept by the three ways in which
the parsing functions use the state: reading a token (unless `total` fails and
the token read on the left is end-of-stream or invalid), raising the error flag
and testing the error flag. -/
structure Sim (R : Parser → Parser → Prop) (total : Prop) : Prop where
  tok : ∀ p q, R p q →
    ((getNextToken p).1 = (getNextToken q).1 ∧ R (getNextToken p).2 (getNextToken q).2) ∨
    (¬ total ∧ ((getNextToken p).1.mType = Type_EOS ∨ (getNextToken p).1.mType = Type_None))
  err : ∀ p q, R p q → R p.error q.error
  flag : ∀ p q, R p q → p.mError = q.mError

/-- Two results agree: equal values and related states, or (when `total` fails)
the left run has ended with the error flag set. -/
def Agree {α : Type} (R : Parser → Parser → Prop) (total : Prop) (x y : α × Parser) : Prop :=
  (x.1 = y.1 ∧ R x.2 y.2) ∨ (¬ total ∧ x.2.mError = true)

/-- Two results of a budgeted run agree: both ran out of budget, or both
finished with equal values and related states, or (when `total` fails) the left
run has finished with the error flag set. -/
def AgreeO {α : Type} (R : Parser → Parser → Prop) (total : Prop)
    (x y : Option (α × Parser)) : Prop :=
  (x = none ∧ y = none) ∨
  (∃ a s t, x = some (a, s) ∧ y = some (a, t) ∧ R s t) ∨
  (¬ total ∧ ∃ a s, x = some (a, s) ∧ s.mError = true)

/-- The state `p` can be reached from `p0` by the parsing functions: the result
tree and the input are untouched, the cursor has moved forward and stays
within the input, and a raised error flag stays raised. -/
def Frame (p0 p : Parser) : Prop :=
  p.mFilter = p0.mFilter ∧ p.mInput = p0.mInput ∧ p0.mIndex ≤ p.mIndex ∧
  p.unread.length ≤ p0.unread.length ∧
  (p0.mIndex ≤ p0.mInput.length → p.mIndex ≤ p0.mInput.length) ∧
  (p0.mError = true → p.mError = true)

/-! ## Collaborators and texts used to state the properties -/

/-- Modelled from the spec: the named-filter collection is a list of records,
each stored under an id; `searchId` is the position of the first record whose id
is exactly the given one (a case-sensitive match) and `-1` if there is none. -/
def searchIdIn : List (List Char × FilterRecord) → List Char → Nat → Int
  | [], _, _ => -1
  | r :: rs, id, i => if r.1 = id then (i : Int) else searchIdIn rs id (i + 1)

/-- Modelled from the spec: the collaborators given by a column-name table and a
list of named-filter records (see `searchIdIn`); an unknown column name has the
negative id `-1`, and `getRecord` is the record at a position (a position
outside the list is read as a deleted record with empty text). -/
def Data.ofLists (columns : List (List Char × Int)) (filters : List (List Char × FilterRecord)) :
    Data where
  getId := fun name => ((columns.find? (fun c => c.1 == name)).map (fun c => c.2)).getD (-1)
  searchId := fun id => searchIdIn filters id 0
  getRecord := fun index => ((filters.get? index.toNat).map (fun r => r.2)).getD ⟨true, []⟩

/-- A collection that holds the non-deleted filter `myFilter` with text `true`. -/
def sampleData : Data :=
  Data.ofLists [] [("myFilter".toList, ⟨false, "true".toList⟩)]

/-- What a caller observes of a call of `parse`: the returned flag, the error
flag and the tree held afterwards. -/
def outcome (r : Option (Bool × Parser)) : Option (Bool × Bool × Option Node) :=
  r.map (fun x => (x.1, x.2.mError, x.2.mFilter))

/-- The state in which `parse` starts reading `filter` (lines 522-526). -/
def Parser.start (filter : List Char) : Parser := ⟨none, filter, 0, false⟩

/-- The part of `parse` that follows the call of `parseImp` (lines 537-554),
applied to the node and state that `parseImp` returned. -/
def parseFinish (s : Option Node × Parser) : Bool × Parser :=
  if s.2.mError then (false, s.2)
  else
    let e := getNextToken s.2
    if e.1.ne (Token.ofType Type_EOS) then (false, e.2.error)
    else
      match s.1 with
      | some node => (true, { e.2 with mFilter := some node })
      | none => (true, { e.2 with mFilter := some (BooleanNode true) })

/-- The three indicators of a finished `parse` agree: success, a clear error
flag and a tree, or failure, a set error flag and no tree. -/
def Consistent (r : Bool × Parser) : Prop :=
  (r.1 = true ∧ r.2.mError = false ∧ ∃ node, r.2.mFilter = some node) ∨
  (r.1 = false ∧ r.2.mError = true ∧ r.2.mFilter = none)

/-- Two parser states have the same unread input, error flag and tree (they may
differ in the text already read). -/
def SameRest (p q : Parser) : Prop :=
  p.unread = q.unread ∧ p.mError = q.mError ∧ p.mFilter = q.mFilter

/-- The unread text stops a token scan: it is empty or begins with a space or
with one of the punctuation characters `(` `)` `[` `]` `,`. -/
def delimited : List Char → Bool
  | [] => true
  | c :: _ => c == ' ' || c == '(' || c == ')' || c == '[' || c == ']' || c == ','

/-- The characters that may start an unquoted identifier. -/
def isIdentStart (c : Char) : Bool := c.isAlpha || c == ':' || c == '_'

/-- The part of `getStringToken` after its loop (lines 108-126), applied to the
accumulated string: the token and whether an error is raised. -/
def stringTokenOf (string : List Char) : Token × Bool :=
  if !string.isEmpty then
    if string.head? == some quote && (string.getLast? != some quote || string.length < 2) then
      (Token.ofType Type_None, true)
    else if string.head? != some quote && string.getLast? == some quote then
      (Token.ofType Type_None, true)
    else if string.head? == some quote then
      (Token.ofString ((string.drop 1).take (string.length - 2)), false)
    else (checkKeywords (Token.ofString string), false)
  else (checkKeywords (Token.ofString string), false)

/-- The character of the decimal digit `d`. -/
def digitChar (d : Nat) : Char := Char.ofNat (48 + d)

/-- The decimal digits of `n`, most significant first; the first argument bounds
the number of digits. -/
def natDigits : Nat → Nat → List Char
  | 0, _ => []
  | fuel + 1, n =>
    if n < 10 then [digitChar n] else natDigits fuel (n / 10) ++ [digitChar (n % 10)]

/-- The decimal text of a natural number. -/
def printNat (n : Nat) : List Char := natDigits (n + 1) n

/-- The decimal text of an integer, with a leading `-` for a negative one. -/
def printInt : Int → List Char
  | Int.ofNat n => printNat n
  | Int.negSucc n => '-' :: printNat (n + 1)

/-- The part of `getNumberToken` after its loop (lines 158-168), applied to the
accumulated string and `hasDigit`: the token and whether an error is raised. -/
def numberTokenOf (string : List Char) (hasDigit : Bool) : Token × Bool :=
  if !hasDigit then (Token.ofType Type_None, true)
  else (Token.ofNumber (readNumber string), false)

/-- Whether the integer `a` is a number of single precision: its magnitude is
`m * 2 ^ e` with `m < 2 ^ 24` (24 significant bits) and `e ≤ 104` (the largest
exponent). -/
def exactSingle (a : Int) : Bool :=
  (List.range 105).any (fun e => a.natAbs % 2 ^ e == 0 && decide (a.natAbs / 2 ^ e < 2 ^ 24))
/-- The closed or open classification of a bound. -/
def boundType (closed : Bool) : ValueType :=
  if closed then ValueType.Type_Closed else ValueType.Type_Open

/-- The character that opens an interval: `[` for a closed lower bound, `(` for
an open one. -/
def lowerChar (closed : Bool) : Char := if closed then '[' else '('

/-- The character that closes an interval: `]` for a closed upper bound, `)` for
an open one. -/
def upperChar (closed : Bool) : Char := if closed then ']' else ')'

/-- The text `value(c, a)`. -/
def valueSingleText (c : Nat) (a : Int) : List Char :=
  "value(".toList ++ (printNat c ++ (", ".toList ++ (printInt a ++ [')'])))

/-- The text `value(c, L a, b R)` with `L` and `R` chosen by the bound
classification. -/
def valueIntervalText (c : Nat) (lc uc : Bool) (a b : Int) : List Char :=
  "value(".toList ++ (printNat c ++ (", ".toList ++ (lowerChar lc :: (printInt a ++
    (", ".toList ++ (printInt b ++ [upperChar uc, ')']))))))

/-- The switch of `parseImp` on the token type (lines 235-278), for a budget
`fuel` of the nested calls. -/
def parseSwitch (d : Data) (fuel : Nat) (allowEmpty : Bool) (t : Token) (q : Parser) :
    Option (Option Node × Parser) :=
  match t.mType with
  | Type_Keyword_True => some (some (BooleanNode true), q)
  | Type_Keyword_False => some (some (BooleanNode false), q)
  | Type_Keyword_And => parseNAry d fuel t q
  | Type_Keyword_Or => parseNAry d fuel t q
  | Type_Keyword_Not =>
    match parseImp d fuel false false q with
    | none => none
    | some s => if s.2.mError then some (none, s.2) else some (some (NotNode s.1), s.2)
  | Type_Keyword_Text => some (parseText d q)
  | Type_Keyword_Value => some (parseValue d q)
  | Type_EOS => some (none, if !allowEmpty then q.error else q)
  | _ => some (none, q.error)


/-- The text `string(c, "s")`. -/
def textMatchText (c : Nat) (s : List Char) : List Char :=
  "string(".toList ++ (printNat c ++ (", ".toList ++ (quote :: (s ++ [quote, ')']))))

/-! ## Operand texts of an n-ary expression -/

/-- The texts `es` separated by a comma and a space: `e1, e2, ..., en`. -/
def joinTexts : List (List Char) → List Char
  | [] => []
  | [e] => e
  | e :: es => e ++ (',' :: ' ' :: joinTexts es)

/-- In every operand position (after any number of spaces, before a
delimiter) the text `e` is parsed by `parseImp` to `t`, consuming `e` up to
spaces that follow it and leaving the error flag clear. -/
def CtxParses (d : Data) (e : List Char) (t : Option Node) : Prop :=
  ∀ (p : Parser) (k : Nat) (rest : List Char),
    p.unread = List.replicate k ' ' ++ (e ++ rest) → p.mError = false → delimited rest = true →
    ∃ f q j, parseImp d f false false p = some (t, q) ∧
      q.unread = List.replicate j ' ' ++ rest ∧ q.mError = false

/-- The state `p` reads, after some spaces, what the state `s` reads followed by
the text `rest`; the error flags are equal. -/
def Ext (rest : List Char) (s p : Parser) : Prop :=
  (∃ k, p.unread = List.replicate k ' ' ++ (s.unread ++ rest)) ∧ s.mError = p.mError

/-- The text `e` parses on its own, as a sub-expression, to the tree `t`: the
function `parseImp` (with its default arguments) returns `t` with the error flag
clear, having consumed exactly the text `e`. -/
def SubParses (d : Data) (e : List Char) (t : Node) : Prop :=
  ∃ f q, parseImp d f false false (Parser.start e) = some (some t, q) ∧
    q.mIndex = e.length ∧ q.mError = false

/-- The keyword `and` or `or`. -/
def keywordText (isAnd : Bool) : List Char := if isAnd then "and".toList else "or".toList

/-- The text `k(e1, ..., en)` for the keyword `and` or `or`. -/
def naryText (isAnd : Bool) (es : List (List Char)) : List Char :=
  keywordText isAnd ++ ('(' :: (joinTexts es ++ [')']))

/-- The AND node or the OR node over the given children. -/
def naryNode (isAnd : Bool) (ts : List (Option Node)) : Node :=
  if isAnd then AndNode ts else OrNode ts

/-- The keyword token of type and or or. -/
def keywordToken (isAnd : Bool) : Token :=
  if isAnd then Token.ofType Type_Keyword_And else Token.ofType Type_Keyword_Or

/-! ## Printing an expression tree -/

/-- Whether a bound classification is the closed one. -/
def ValueType.isClosed : ValueType → Bool
  | ValueType.Type_Closed => true
  | ValueType.Type_Open => false

mutual

/-- The text of an expression tree in the grammar's syntax: `true`, `false`,
`and(e1, ..., en)`, `or(e1, ..., en)`, `not e`, `string(c, "p")` and
`value(c, L a, b R)` with `L` and `R` chosen by the bound classification. -/
def printNode : Node → List Char
  | BooleanNode true => "true".toList
  | BooleanNode false => "false".toList
  | AndNode ns => naryText true (printNodes ns)
  | OrNode ns => naryText false (printNodes ns)
  | NotNode c => "not ".toList ++ printOpt c
  | TextNode c s => textMatchText c.toNat s
  | ValueNode c lt ut lo up => valueIntervalText c.toNat lt.isClosed ut.isClosed lo.mant up.mant

/-- The text of a child; a null child has no text. -/
def printOpt : Option Node → List Char
  | none => []
  | some n => printNode n

/-- The texts of the children, in order. -/
def printNodes : List (Option Node) → List (List Char)
  | [] => []
  | n :: ns => printOpt n :: printNodes ns

end

/-- A column id that the grammar can express: a non-negative `int` (32 bits)
that is a number of single precision. -/
def columnOk (c : Int) : Bool := decide (0 ≤ c) && decide (c < 2147483648) && exactSingle c

/-- A bound that the grammar can express as an integer literal: an integer that
is a number of single precision. -/
def boundOk (x : Decimal) : Bool := x.scale == 0 && exactSingle x.mant

mutual

/-- The trees that the grammar can express: AND and OR nodes have at least one
child, no child is null, a column id is a non-negative `int`, a text pattern has
no double quote, the bounds of a value match are integers, and all numbers are
exact in single precision. -/
def wellFormed : Node → Bool
  | BooleanNode _ => true
  | AndNode ns => !ns.isEmpty && wellFormedAll ns
  | OrNode ns => !ns.isEmpty && wellFormedAll ns
  | NotNode c => wellFormedOpt c
  | TextNode c s => columnOk c && s.all (fun x => x != quote)
  | ValueNode c _ _ lo up => columnOk c && boundOk lo && boundOk up

/-- A child that is not null and is well formed. -/
def wellFormedOpt : Option Node → Bool
  | none => false
  | some n => wellFormed n

/-- All children are not null and well formed. -/
def wellFormedAll : List (Option Node) → Bool
  | [] => true
  | n :: ns => wellFormedOpt n && wellFormedAll ns

end

/-- The text `e` is parsed by `parseImp` to `t` wherever it stands (after any
number of spaces, before a delimiter, whatever the arguments of `parseImp`),
consuming exactly `e` and leaving the error flag clear. -/
def ParsesAs (d : Data) (e : List Char) (t : Option Node) : Prop :=
  ∀ (a b : Bool) (p : Parser) (k : Nat) (rest : List Char),
    p.unread = List.replicate k ' ' ++ (e ++ rest) → p.mError = false → delimited rest = true →
    ∃ f q, parseImp d f a b p = some (t, q) ∧ q.unread = rest ∧ q.mError = false

/-! ## Spellings and identifiers -/

/-- The text `w` is an upper/lower-case spelling of the word `kw`: letter by
letter it has the letter of `kw` or its upper-case form. -/
def caseSpelling : List Char → List Char → Bool
  | [], [] => true
  | c :: w, k :: kw => (c == k || c == k.toUpper) && caseSpelling w kw
  | _, _ => false

/-- An unquoted identifier: a letter, `:` or `_`, followed by letters, `:`, `_`
and digits. -/
def isIdentifier : List Char → Bool
  | [] => false
  | c :: cs => isIdentStart c && cs.all (fun x => isIdentStart x || x.isDigit)

/-- The run that the number scan consumes, in the words of the specification:
a digit is always accepted, `.` at most once, and `-` only as the very first
character; the run ends before the first character that is not accepted.  The
flags say whether the scan is at its first character and whether a `.` has been
accepted. -/
def numberRun : List Char → Bool → Bool → List Char
  | [], _, _ => []
  | c :: cs, atStart, seenPoint =>
    if c.isDigit then c :: numberRun cs false seenPoint
    else if c == '.' && !seenPoint then c :: numberRun cs false true
    else if c == '-' && atStart then c :: numberRun cs false seenPoint
    else []

/-- The token of a number scan whose run is `run`: a number token when the run
has a digit, an invalid token and an error otherwise. -/
def numberRunToken (run : List Char) : Token × Bool :=
  if run.any Char.isDigit then (Token.ofNumber (readNumber run), false)
  else (Token.ofType Type_None, true)

/-- The token with position `n` (counted from zero) among the tokens read one
after the other from the state `p`, with the state after it. -/
def tokenAt (p : Parser) : Nat → Token × Parser
  | 0 => getNextToken p
  | n + 1 => getNextToken (tokenAt p n).2

mutual

/-- The structural invariant of an expression tree: every AND and OR node has at
least one child, no child is null, and every text-match and value-match node
has a column id that is not negative. -/
def validNode : Node → Bool
  | BooleanNode _ => true
  | AndNode ns => !ns.isEmpty && validAll ns
  | OrNode ns => !ns.isEmpty && validAll ns
  | NotNode c => validOpt c
  | TextNode c _ => decide (0 ≤ c)
  | ValueNode c _ _ _ _ => decide (0 ≤ c)

/-- A child pointer that is not null and points to a valid tree. -/
def validOpt : Option Node → Bool
  | none => false
  | some n => validNode n

/-- All child pointers are not null and point to valid trees. -/
def validAll : List (Option Node) → Bool
  | [] => true
  | n :: ns => validOpt n && validAll ns

end

/-- What `parseImp` may return when the error flag is clear: a valid tree, or no
node if an empty expression is allowed. -/
def okResult (allowEmpty : Bool) : Option Node → Prop
  | none => allowEmpty = true
  | some t => validNode t = true

/-- The token on which `parseImp` switches (lines 229-234): the first token, or
the token after it when the first token is the one-shot marker. -/
def switchToken (p : Parser) : Token × Parser :=
  if (getNextToken p).1.eq (Token.ofType Type_OneShot) then getNextToken (getNextToken p).2
  else getNextToken p

/-- The text `string(ct, pt)` with column text `ct` and pattern text `pt`. -/
def textRuleText (ct pt : List Char) : List Char :=
  "string".toList ++ ('(' :: (ct ++ (',' :: ' ' :: (pt ++ [')']))))

/-- The text `value(ct, vt)` with column text `ct` and value text `vt`. -/
def valueRuleText (ct vt : List Char) : List Char :=
  "value".toList ++ ('(' :: (ct ++ (',' :: ' ' :: (vt ++ [')']))))

/-- A string between double quotes. -/
def quoted (s : List Char) : List Char := quote :: (s ++ [quote])

/-- The test that the loop of `checkKeywords` makes on one table entry
(line 184), for the lower-cased text `string`. -/
def entryMatches (k string : List Char) : Bool :=
  k == string || (string.length == 1 && k.head? == string.head?)

/-- The keyword words in the order in which the specification lists them. -/
def keywordWords : List (List Char) :=
  ["true".toList, "false".toList, "and".toList, "or".toList, "not".toList, "string".toList,
    "value".toList]

/-- The keyword token types in the order of their contiguous range. -/
def keywordTypes : List TokenType :=
  [Type_Keyword_True, Type_Keyword_False, Type_Keyword_And, Type_Keyword_Or, Type_Keyword_Not,
    Type_Keyword_Text, Type_Keyword_Value]

/-- The text `w` matches the keyword word `k`, in the words of the
specification: the lower-cased `w` equals `k`, or `w` is exactly one character
long and its lower-cased character is the first character of `k`. -/
def matchesKeyword (w k : List Char) : Prop :=
  lowerCase w = k ∨ (w.length = 1 ∧ (lowerCase w).head? = k.head?)

/-- The cursor is within the input: `0 ≤ mIndex ≤ mInput.length`. -/
def inBounds (q : Parser) : Prop := q.mIndex ≤ q.mInput.length

/-! ## The tokenizer: basic facts -/

theorem skipSpaces_le (l : List Char) : skipSpaces l ≤ l.length := by
  induction l with
  | nil => simp [skipSpaces]
  | cons c cs ih => unfold skipSpaces; split_ifs <;> simp; omega

theorem getStringLoop_le (l : List Char) : ∀ acc, (getStringLoop l acc).2 ≤ l.length := by
  induction l with
  | nil => intro acc; simp [getStringLoop]
  | cons c cs ih =>
    intro acc
    unfold getStringLoop
    split_ifs <;> simp
    exact ih _

theorem getNumberLoop_le (l : List Char) :
    ∀ acc dp dg, (getNumberLoop l acc dp dg).2.2.2 ≤ l.length := by
  induction l with
  | nil => intro acc dp dg; simp [getNumberLoop]
  | cons c cs ih =>
    intro acc dp dg
    unfold getNumberLoop
    split_ifs <;> simp <;> exact ih _ _ _

theorem checkKeywordsLoop_some (s : List Char) :
    ∀ ks i ty, checkKeywordsLoop s ks i = some ty →
      ∃ j, j < ks.length ∧ ty = TokenType.ofCode (i + j + 10) := by
  intro ks
  induction ks with
  | nil => intro i ty h; simp [checkKeywordsLoop] at h
  | cons k ks ih =>
    intro i ty h
    unfold checkKeywordsLoop at h
    split_ifs at h with hc
    · refine ⟨0, by simp, ?_⟩
      simp only [Option.some.injEq] at h
      rw [← h]; rfl
    · obtain ⟨j, hj, e⟩ := ih _ _ h
      refine ⟨j + 1, by simp; omega, ?_⟩
      rw [e]; congr 1; omega

theorem checkKeywords_type (t : Token) :
    (checkKeywords t).mType = t.mType ∨ (checkKeywords t).mType.isKeyword = true := by
  unfold checkKeywords
  cases h : checkKeywordsLoop (lowerCase t.mString) sKeywords 0 with
  | none => left; rfl
  | some ty =>
    right
    obtain ⟨j, hj, e⟩ := checkKeywordsLoop_some _ _ _ _ h
    simp only [sKeywords, List.length_cons, List.length_nil] at hj
    subst e
    simp only [Token.ofType]
    interval_cases j <;> rfl

theorem dispatch_rel {α β : Type} (R : α → β → Prop) (c : Char)
    {a1 a2 a3 a4 a5 a6 a7 a8 a9 : α} {b1 b2 b3 b4 b5 b6 b7 b8 b9 : β}
    (h1 : c = '(' → R a1 b1) (h2 : c = ')' → R a2 b2) (h3 : c = '[' → R a3 b3)
    (h4 : c = ']' → R a4 b4) (h5 : c = ',' → R a5 b5) (h6 : c = '!' → R a6 b6)
    (h7 : (c == quote || c == '_' || c.isAlpha || c == ':') = true → R a7 b7)
    (h8 : (c == '-' || c == '.' || c.isDigit) = true → R a8 b8) (h9 : R a9 b9) :
    R (dispatch c a1 a2 a3 a4 a5 a6 a7 a8 a9) (dispatch c b1 b2 b3 b4 b5 b6 b7 b8 b9) := by
  unfold dispatch
  by_cases c1 : (c == '(') = true
  · simp only [if_pos c1]; exact h1 (eq_of_beq c1)
  simp only [if_neg c1]
  by_cases c2 : (c == ')') = true
  · simp only [if_pos c2]; exact h2 (eq_of_beq c2)
  simp only [if_neg c2]
  by_cases c3 : (c == '[') = true
  · simp only [if_pos c3]; exact h3 (eq_of_beq c3)
  simp only [if_neg c3]
  by_cases c4 : (c == ']') = true
  · simp only [if_pos c4]; exact h4 (eq_of_beq c4)
  simp only [if_neg c4]
  by_cases c5 : (c == ',') = true
  · simp only [if_pos c5]; exact h5 (eq_of_beq c5)
  simp only [if_neg c5]
  by_cases c6 : (c == '!') = true
  · simp only [if_pos c6]; exact h6 (eq_of_beq c6)
  simp only [if_neg c6]
  by_cases c7 : (c == quote || c == '_' || c.isAlpha || c == ':') = true
  · simp only [if_pos c7]; exact h7 c7
  simp only [if_neg c7]
  by_cases c8 : (c == '-' || c == '.' || c.isDigit) = true
  · simp only [if_pos c8]; exact h8 c8
  simp only [if_neg c8]
  exact h9

theorem dispatch_ind {α : Type} (P : α → Prop) (c : Char) {a1 a2 a3 a4 a5 a6 a7 a8 a9 : α}
    (h1 : c = '(' → P a1) (h2 : c = ')' → P a2) (h3 : c = '[' → P a3) (h4 : c = ']' → P a4)
    (h5 : c = ',' → P a5) (h6 : c = '!' → P a6)
    (h7 : (c == quote || c == '_' || c.isAlpha || c == ':') = true → P a7)
    (h8 : (c == '-' || c == '.' || c.isDigit) = true → P a8) (h9 : P a9) :
    P (dispatch c a1 a2 a3 a4 a5 a6 a7 a8 a9) :=
  @dispatch_rel α α (fun a _ => P a) c a1 a2 a3 a4 a5 a6 a7 a8 a9 a1 a2 a3 a4 a5 a6 a7 a8 a9
    h1 h2 h3 h4 h5 h6 h7 h8 h9

theorem unread_advance (p : Parser) (n : Nat) : (p.advance n).unread = p.unread.drop n := by
  simp [Parser.advance, Parser.unread, List.drop_drop, Nat.add_comm]

theorem getStringToken_eq (p : Parser) :
    getStringToken p =
      ((lexString p.unread).1, p.step (lexString p.unread).2.1 (lexString p.unread).2.2) := by
  unfold lexString getStringToken
  simp only [Parser.unread, List.drop_zero]
  split_ifs <;> simp [Parser.step, Parser.advance, Parser.error]

theorem getNumberToken_eq (p : Parser) :
    getNumberToken p =
      ((lexNumber p.unread).1, p.step (lexNumber p.unread).2.1 (lexNumber p.unread).2.2) := by
  unfold lexNumber getNumberToken
  simp only [Parser.unread, List.drop_zero]
  split_ifs <;> simp [Parser.step, Parser.advance, Parser.error]

theorem getNextToken_unfold (p : Parser) :
    getNextToken p =
      match p.unread.drop (skipSpaces p.unread) with
      | [] => (Token.ofType Type_EOS, p.step (skipSpaces p.unread) false)
      | c :: cs =>
        ((lexHead c (c :: cs)).1,
          p.step (skipSpaces p.unread + (lexHead c (c :: cs)).2.1) (lexHead c (c :: cs)).2.2) := by
  unfold getNextToken
  simp only [unread_advance]
  cases h : List.drop (skipSpaces p.unread) p.unread with
  | nil => simp [Parser.step, Parser.advance]
  | cons c cs =>
    simp only []
    rw [getStringToken_eq, getNumberToken_eq, unread_advance, h]
    unfold lexHead
    have hs : ∀ n e, (p.advance (skipSpaces p.unread)).step n e = p.step (skipSpaces p.unread + n) e := by
      intro n e; simp [Parser.step, Parser.advance, Nat.add_assoc]
    have ha : (p.advance (skipSpaces p.unread)).advance 1 = p.step (skipSpaces p.unread + 1) false := by
      simp [Parser.step, Parser.advance, Nat.add_assoc]
    have he : (p.advance (skipSpaces p.unread)).error = p.step (skipSpaces p.unread + 0) true := by
      simp [Parser.step, Parser.advance, Parser.error]
    rw [hs, hs, ha, he]
    apply dispatch_rel (fun (a : Token × Parser) (b : Token × Nat × Bool) =>
      a = (b.1, p.step (skipSpaces p.unread + b.2.1) b.2.2)) c <;> intros <;> rfl

theorem lex_unfold (l : List Char) :
    lex l =
      match l.drop (skipSpaces l) with
      | [] => (Token.ofType Type_EOS, skipSpaces l, false)
      | c :: cs =>
        ((lexHead c (c :: cs)).1, skipSpaces l + (lexHead c (c :: cs)).2.1, (lexHead c (c :: cs)).2.2) := by
  unfold lex
  rw [getNextToken_unfold]
  simp only [Parser.unread, List.drop_zero]
  cases h : List.drop (skipSpaces l) l with
  | nil => simp [Parser.step]
  | cons c cs => simp [Parser.step]

theorem getNextToken_eq (p : Parser) :
    getNextToken p = ((lex p.unread).1, p.step (lex p.unread).2.1 (lex p.unread).2.2) := by
  rw [getNextToken_unfold, lex_unfold]
  cases h : List.drop (skipSpaces p.unread) p.unread with
  | nil => rfl
  | cons c cs => rfl

theorem lexString_len_le (u : List Char) : (lexString u).2.1 ≤ u.length := by
  unfold lexString getStringToken
  simp only [Parser.unread, Parser.advance, List.drop_zero, Nat.zero_add]
  have := getStringLoop_le u []
  split_ifs <;> simpa [Parser.error] using this

theorem lexNumber_len_le (u : List Char) : (lexNumber u).2.1 ≤ u.length := by
  unfold lexNumber getNumberToken
  simp only [Parser.unread, Parser.advance, List.drop_zero, Nat.zero_add]
  have := getNumberLoop_le u [] false false
  split_ifs <;> simpa [Parser.error] using this

theorem lexString_err (u : List Char) : (lexString u).2.2 = !(lexString u).1.toBool := by
  unfold lexString getStringToken
  simp only [Parser.unread, Parser.advance, List.drop_zero, Nat.zero_add]
  have key : ∀ s, (checkKeywords (Token.ofString s)).toBool = true := by
    intro s
    rcases checkKeywords_type (Token.ofString s) with h | h
    · rw [Token.toBool, h]; rfl
    · simp only [Token.toBool]
      cases h2 : (checkKeywords (Token.ofString s)).mType <;> simp_all [TokenType.isKeyword]
  split_ifs <;> simp [Parser.error, Token.toBool, Token.ofType, Token.ofString, key] <;>
    (have hk := key (getStringLoop u []).1; simpa [Token.toBool] using hk)

theorem lexNumber_err (u : List Char) : (lexNumber u).2.2 = !(lexNumber u).1.toBool := by
  unfold lexNumber getNumberToken
  simp only [Parser.unread, Parser.advance, List.drop_zero, Nat.zero_add]
  split_ifs <;> simp [Parser.error, Token.toBool, Token.ofType, Token.ofNumber]

theorem lexString_pos (c : Char) (cs : List Char)
    (h : (c == quote || c == '_' || c.isAlpha || c == ':') = true) :
    0 < (lexString (c :: cs)).2.1 := by
  have h1 : 0 < (getStringLoop (c :: cs) []).2 := by
    unfold getStringLoop
    have : (c.isAlpha || c == ':' || c == '_' || (!([] : List Char).isEmpty && c.isDigit) || c == quote ||
        (!([] : List Char).isEmpty && ([] : List Char).head? == some quote)) = true := by
      simp only [Bool.or_eq_true] at h ⊢
      tauto
    rw [if_pos this]
    split_ifs <;> simp
  unfold lexString getStringToken
  simp only [Parser.unread, Parser.advance, List.drop_zero, Nat.zero_add]
  split_ifs <;> simpa [Parser.error] using h1

theorem lexNumber_pos (c : Char) (cs : List Char)
    (h : (c == '-' || c == '.' || c.isDigit) = true) :
    0 < (lexNumber (c :: cs)).2.1 := by
  have h1 : 0 < (getNumberLoop (c :: cs) [] false false).2.2.2 := by
    unfold getNumberLoop
    simp only [Bool.or_eq_true] at h
    split_ifs with h1 h2 h3
    · simp
    · simp
    · simp
    · exfalso
      simp at h1 h2 h3
      rcases h with (h | h) | h
      · exact h3 (by simpa using h)
      · exact h2 (by simpa using h)
      · simp [h] at h1
  unfold lexNumber getNumberToken
  simp only [Parser.unread, Parser.advance, List.drop_zero, Nat.zero_add]
  split_ifs <;> simpa [Parser.error] using h1

theorem lexHead_ind (P : Token × Nat × Bool → Prop) (c : Char) (u : List Char)
    (hp : ∀ ty, ty ≠ Type_None → ty ≠ Type_EOS → P (Token.ofType ty, 1, false))
    (hs : (c == quote || c == '_' || c.isAlpha || c == ':') = true → P (lexString u))
    (hn : (c == '-' || c == '.' || c.isDigit) = true → P (lexNumber u))
    (he : P (Token.ofType Type_None, 0, true)) : P (lexHead c u) := by
  unfold lexHead
  apply dispatch_ind P c
  · intro _; exact hp Type_Open (by decide) (by decide)
  · intro _; exact hp Type_Close (by decide) (by decide)
  · intro _; exact hp Type_OpenSquare (by decide) (by decide)
  · intro _; exact hp Type_CloseSquare (by decide) (by decide)
  · intro _; exact hp Type_Comma (by decide) (by decide)
  · intro _; exact hp Type_OneShot (by decide) (by decide)
  · exact hs
  · exact hn
  · exact he

theorem lexHead_pos (c : Char) (cs : List Char) (h2 : (lexHead c (c :: cs)).1.mType ≠ Type_None) :
    0 < (lexHead c (c :: cs)).2.1 := by
  revert h2
  apply lexHead_ind (fun x => x.1.mType ≠ Type_None → 0 < x.2.1) c (c :: cs)
  · intro ty _ _ _; exact Nat.one_pos
  · intro h _; exact lexString_pos c cs h
  · intro h _; exact lexNumber_pos c cs h
  · intro h; exact absurd rfl h

theorem lex_pos (l : List Char) (h1 : (lex l).1.mType ≠ Type_EOS) (h2 : (lex l).1.mType ≠ Type_None) :
    0 < (lex l).2.1 := by
  rw [lex_unfold] at h1 h2 ⊢
  cases h : List.drop (skipSpaces l) l with
  | nil => simp only [h] at h1; exact absurd rfl h1
  | cons c cs =>
    simp only [h] at h2 ⊢
    have := lexHead_pos c cs h2
    omega

theorem lexHead_len_le (c : Char) (u : List Char) (hu : 0 < u.length) :
    (lexHead c u).2.1 ≤ u.length := by
  apply lexHead_ind (fun x => x.2.1 ≤ u.length) c u
  · intro ty _ _; exact hu
  · intro _; exact lexString_len_le u
  · intro _; exact lexNumber_len_le u
  · exact Nat.zero_le _

theorem lexHead_err (c : Char) (u : List Char) :
    (lexHead c u).2.2 = !(lexHead c u).1.toBool := by
  apply lexHead_ind (fun x => x.2.2 = !x.1.toBool) c u
  · intro ty h _
    cases ty <;> first | rfl | exact absurd rfl h
  · intro _; exact lexString_err u
  · intro _; exact lexNumber_err u
  · rfl

theorem lex_len_le (l : List Char) : (lex l).2.1 ≤ l.length := by
  rw [lex_unfold]
  have h1 := skipSpaces_le l
  cases h : List.drop (skipSpaces l) l with
  | nil => exact h1
  | cons c cs =>
    have h2 : (c :: cs).length = l.length - skipSpaces l := by rw [← h]; simp
    have h3 := lexHead_len_le c (c :: cs) (by simp)
    show skipSpaces l + _ ≤ _
    omega

theorem lex_err (l : List Char) : (lex l).2.2 = !(lex l).1.toBool := by
  rw [lex_unfold]
  cases h : List.drop (skipSpaces l) l with
  | nil => rfl
  | cons c cs => exact lexHead_err c (c :: cs)

theorem lexString_not_eos (u : List Char) : (lexString u).1.mType ≠ Type_EOS := by
  unfold lexString getStringToken
  simp only [Parser.unread, Parser.advance, List.drop_zero, Nat.zero_add]
  have key : ∀ s, (checkKeywords (Token.ofString s)).mType ≠ Type_EOS := by
    intro s
    rcases checkKeywords_type (Token.ofString s) with h | h
    · rw [h]; simp [Token.ofString]
    · intro h2; rw [h2] at h; simp [TokenType.isKeyword] at h
  split_ifs <;> first | exact key _ | simp [Token.ofType, Token.ofString]

theorem lexNumber_not_eos (u : List Char) : (lexNumber u).1.mType ≠ Type_EOS := by
  unfold lexNumber getNumberToken
  simp only [Parser.unread, Parser.advance, List.drop_zero, Nat.zero_add]
  split_ifs <;> simp [Token.ofType, Token.ofNumber]

theorem lexHead_not_eos (c : Char) (u : List Char) : (lexHead c u).1.mType ≠ Type_EOS := by
  apply lexHead_ind (fun x => x.1.mType ≠ Type_EOS) c u
  · intro ty _ h; exact h
  · intro _; exact lexString_not_eos u
  · intro _; exact lexNumber_not_eos u
  · decide

theorem lex_eos_len (l : List Char) (h : (lex l).1.mType = Type_EOS) : (lex l).2.1 = l.length := by
  rw [lex_unfold] at h ⊢
  cases hd : List.drop (skipSpaces l) l with
  | nil =>
    have h1 := skipSpaces_le l
    have h2 : l.length ≤ skipSpaces l := by
      have := congrArg List.length hd
      simp at this
      omega
    show skipSpaces l = _
    omega
  | cons c cs =>
    simp only [hd] at h
    exact absurd h (lexHead_not_eos c (c :: cs))
/-! ## Relations between parser states kept by the parsing functions -/

theorem getNextToken_none (p : Parser) (h : (getNextToken p).1.mType = Type_None) :
    (getNextToken p).2.mError = true := by
  rw [getNextToken_eq] at h ⊢
  have := lex_err p.unread
  simp only [Parser.step, this, Token.toBool] at h ⊢
  simp [h]

theorem parseText_sim {R : Parser → Parser → Prop} {total : Prop} (h : Sim R total) (d : Data)
    (p q : Parser) (hpq : R p q) : Agree R total (parseText d p) (parseText d q) := by
  unfold parseText Agree
  rcases h.tok p q hpq with ⟨e1, h1⟩ | ⟨nt, b1⟩
  swap
  · right; refine ⟨nt, ?_⟩
    rw [if_pos (by rcases b1 with b | b <;> rw [b] <;> rfl)]; rfl
  generalize getNextToken p = r1 at e1 h1 ⊢
  generalize getNextToken q = s1 at e1 h1 ⊢
  obtain ⟨t1, p1⟩ := r1
  obtain ⟨t1', q1⟩ := s1
  dsimp only at e1 h1 ⊢
  subst e1
  by_cases c1 : (t1.mType != Type_Open) = true
  · simp only [if_pos c1]; exact Or.inl ⟨trivial, h.err _ _ h1⟩
  simp only [if_neg c1]
  rcases h.tok p1 q1 h1 with ⟨e2, h2⟩ | ⟨nt, b2⟩
  swap
  · right; refine ⟨nt, ?_⟩
    have hn := getNextToken_none p1
    generalize getNextToken p1 = r2 at b2 hn ⊢
    rcases b2 with b | b
    · rw [if_neg (by simp [Token.toBool, b]), if_pos (by simp [columnIdOf, b])]; rfl
    · rw [if_pos (by simp [Token.toBool, b])]; exact hn b
  generalize getNextToken p1 = r2 at e2 h2 ⊢
  generalize getNextToken q1 = s2 at e2 h2 ⊢
  obtain ⟨t2, p2⟩ := r2
  obtain ⟨t2', q2⟩ := s2
  dsimp only at e2 h2 ⊢
  subst e2
  by_cases c2 : (!t2.toBool) = true
  · simp only [if_pos c2]; exact Or.inl ⟨trivial, h2⟩
  simp only [if_neg c2]
  by_cases c3 : columnIdOf d t2 < 0
  · simp only [if_pos c3]; exact Or.inl ⟨trivial, h.err _ _ h2⟩
  simp only [if_neg c3]
  rcases h.tok p2 q2 h2 with ⟨e3, h3⟩ | ⟨nt, b3⟩
  swap
  · right; refine ⟨nt, ?_⟩
    rw [if_pos (by rcases b3 with b | b <;> rw [b] <;> rfl)]; rfl
  generalize getNextToken p2 = r3 at e3 h3 ⊢
  generalize getNextToken q2 = s3 at e3 h3 ⊢
  obtain ⟨t3, p3⟩ := r3
  obtain ⟨t3', q3⟩ := s3
  dsimp only at e3 h3 ⊢
  subst e3
  by_cases c4 : (t3.mType != Type_Comma) = true
  · simp only [if_pos c4]; exact Or.inl ⟨trivial, h.err _ _ h3⟩
  simp only [if_neg c4]
  rcases h.tok p3 q3 h3 with ⟨e4, h4⟩ | ⟨nt, b4⟩
  swap
  · right; refine ⟨nt, ?_⟩
    rw [if_pos (by rcases b4 with b | b <;> rw [b] <;> rfl)]; rfl
  generalize getNextToken p3 = r4 at e4 h4 ⊢
  generalize getNextToken q3 = s4 at e4 h4 ⊢
  obtain ⟨t4, p4⟩ := r4
  obtain ⟨t4', q4⟩ := s4
  dsimp only at e4 h4 ⊢
  subst e4
  by_cases c5 : (t4.mType != Type_String) = true
  · simp only [if_pos c5]; exact Or.inl ⟨trivial, h.err _ _ h4⟩
  simp only [if_neg c5]
  rcases h.tok p4 q4 h4 with ⟨e5, h5⟩ | ⟨nt, b5⟩
  swap
  · right; refine ⟨nt, ?_⟩
    rw [if_pos (by rcases b5 with b | b <;> rw [b] <;> rfl)]; rfl
  generalize getNextToken p4 = r5 at e5 h5 ⊢
  generalize getNextToken q4 = s5 at e5 h5 ⊢
  obtain ⟨t5, p5⟩ := r5
  obtain ⟨t5', q5⟩ := s5
  dsimp only at e5 h5 ⊢
  subst e5
  by_cases c6 : (t5.mType != Type_Close) = true
  · simp only [if_pos c6]; exact Or.inl ⟨trivial, h.err _ _ h5⟩
  simp only [if_neg c6]
  exact Or.inl ⟨trivial, h5⟩

theorem getNextToken_sticky (p : Parser) (h : p.mError = true) :
    (getNextToken p).2.mError = true := by
  rw [getNextToken_eq]; simp [Parser.step, h]

theorem parseInterval_sim {R : Parser → Parser → Prop} {total : Prop} (h : Sim R total)
    (t : Token) (p q : Parser) (hpq : R p q) :
    Agree R total (parseInterval t p) (parseInterval t q) := by
  unfold parseInterval Agree
  by_cases c0 : (t.mType != Type_OpenSquare && (t.mType != Type_CloseSquare && t.mType != Type_Open)) = true
  · simp only [if_pos c0]; exact Or.inl ⟨trivial, h.err _ _ hpq⟩
  simp only [if_neg c0]
  rcases h.tok p q hpq with ⟨e1, h1⟩ | ⟨nt, b1⟩
  swap
  · right; refine ⟨nt, ?_⟩
    rw [if_pos (by rcases b1 with b | b <;> rw [b] <;> rfl)]; rfl
  generalize getNextToken p = r1 at e1 h1 ⊢
  generalize getNextToken q = s1 at e1 h1 ⊢
  obtain ⟨t1, p1⟩ := r1
  obtain ⟨t1', q1⟩ := s1
  dsimp only at e1 h1 ⊢
  subst e1
  by_cases c1 : (t1.mType != Type_Number) = true
  · simp only [if_pos c1]; exact Or.inl ⟨trivial, h.err _ _ h1⟩
  simp only [if_neg c1]
  rcases h.tok p1 q1 h1 with ⟨e2, h2⟩ | ⟨nt, b2⟩
  swap
  · right; refine ⟨nt, ?_⟩
    rw [if_pos (by rcases b2 with b | b <;> rw [b] <;> rfl)]; rfl
  generalize getNextToken p1 = r2 at e2 h2 ⊢
  generalize getNextToken q1 = s2 at e2 h2 ⊢
  obtain ⟨t2, p2⟩ := r2
  obtain ⟨t2', q2⟩ := s2
  dsimp only at e2 h2 ⊢
  subst e2
  by_cases c2 : (t2.mType != Type_Comma) = true
  · simp only [if_pos c2]; exact Or.inl ⟨trivial, h.err _ _ h2⟩
  simp only [if_neg c2]
  rcases h.tok p2 q2 h2 with ⟨e3, h3⟩ | ⟨nt, b3⟩
  swap
  · right; refine ⟨nt, ?_⟩
    rw [if_pos (by rcases b3 with b | b <;> rw [b] <;> rfl)]; rfl
  generalize getNextToken p2 = r3 at e3 h3 ⊢
  generalize getNextToken q2 = s3 at e3 h3 ⊢
  obtain ⟨t3, p3⟩ := r3
  obtain ⟨t3', q3⟩ := s3
  dsimp only at e3 h3 ⊢
  subst e3
  by_cases c3 : (t3.mType != Type_Number) = true
  · simp only [if_pos c3]; exact Or.inl ⟨trivial, h.err _ _ h3⟩
  simp only [if_neg c3]
  rcases h.tok p3 q3 h3 with ⟨e4, h4⟩ | ⟨nt, b4⟩
  swap
  · right; refine ⟨nt, ?_⟩
    rw [if_pos (by rcases b4 with b | b <;> rw [b] <;> rfl)]; rfl
  generalize getNextToken p3 = r4 at e4 h4 ⊢
  generalize getNextToken q3 = s4 at e4 h4 ⊢
  obtain ⟨t4, p4⟩ := r4
  obtain ⟨t4', q4⟩ := s4
  dsimp only at e4 h4 ⊢
  subst e4
  by_cases c4 : (t4.mType != Type_CloseSquare && (t4.mType != Type_OpenSquare && t4.mType != Type_Close)) = true
  · simp only [if_pos c4]; exact Or.inl ⟨trivial, h.err _ _ h4⟩
  simp only [if_neg c4]
  exact Or.inl ⟨trivial, h4⟩

theorem parseValue_sim {R : Parser → Parser → Prop} {total : Prop} (h : Sim R total) (d : Data)
    (p q : Parser) (hpq : R p q) : Agree R total (parseValue d p) (parseValue d q) := by
  unfold parseValue
  rcases h.tok p q hpq with ⟨e1, h1⟩ | ⟨nt, b1⟩
  swap
  · right; refine ⟨nt, ?_⟩
    rw [if_pos (by rcases b1 with b | b <;> rw [b] <;> rfl)]; rfl
  generalize getNextToken p = r1 at e1 h1 ⊢
  generalize getNextToken q = s1 at e1 h1 ⊢
  obtain ⟨t1, p1⟩ := r1
  obtain ⟨t1', q1⟩ := s1
  dsimp only at e1 h1 ⊢
  subst e1
  by_cases c1 : (t1.mType != Type_Open) = true
  · simp only [if_pos c1]; exact Or.inl ⟨rfl, h.err _ _ h1⟩
  simp only [if_neg c1]
  rcases h.tok p1 q1 h1 with ⟨e2, h2⟩ | ⟨nt, b2⟩
  swap
  · right; refine ⟨nt, ?_⟩
    have hn := getNextToken_none p1
    generalize getNextToken p1 = r2 at b2 hn ⊢
    rcases b2 with b | b
    · rw [if_neg (by simp [Token.toBool, b]), if_pos (by simp [columnIdOf, b])]; rfl
    · rw [if_pos (by simp [Token.toBool, b])]; exact hn b
  generalize getNextToken p1 = r2 at e2 h2 ⊢
  generalize getNextToken q1 = s2 at e2 h2 ⊢
  obtain ⟨t2, p2⟩ := r2
  obtain ⟨t2', q2⟩ := s2
  dsimp only at e2 h2 ⊢
  subst e2
  by_cases c2 : (!t2.toBool) = true
  · simp only [if_pos c2]; exact Or.inl ⟨rfl, h2⟩
  simp only [if_neg c2]
  by_cases c3 : columnIdOf d t2 < 0
  · simp only [if_pos c3]; exact Or.inl ⟨rfl, h.err _ _ h2⟩
  simp only [if_neg c3]
  rcases h.tok p2 q2 h2 with ⟨e3, h3⟩ | ⟨nt, b3⟩
  swap
  · right; refine ⟨nt, ?_⟩
    rw [if_pos (by rcases b3 with b | b <;> rw [b] <;> rfl)]; rfl
  generalize getNextToken p2 = r3 at e3 h3 ⊢
  generalize getNextToken q2 = s3 at e3 h3 ⊢
  obtain ⟨t3, p3⟩ := r3
  obtain ⟨t3', q3⟩ := s3
  dsimp only at e3 h3 ⊢
  subst e3
  by_cases c4 : (t3.mType != Type_Comma) = true
  · simp only [if_pos c4]; exact Or.inl ⟨rfl, h.err _ _ h3⟩
  simp only [if_neg c4]
  -- the bound specification
  have hb : Agree R total
      (if (getNextToken p3).1.mType == Type_Number then
        (some (ValueType.Type_Closed, ValueType.Type_Closed, (getNextToken p3).1.mNumber,
          (getNextToken p3).1.mNumber), (getNextToken p3).2)
      else parseInterval (getNextToken p3).1 (getNextToken p3).2)
      (if (getNextToken q3).1.mType == Type_Number then
        (some (ValueType.Type_Closed, ValueType.Type_Closed, (getNextToken q3).1.mNumber,
          (getNextToken q3).1.mNumber), (getNextToken q3).2)
      else parseInterval (getNextToken q3).1 (getNextToken q3).2) := by
    rcases h.tok p3 q3 h3 with ⟨e4, h4⟩ | ⟨nt, b4⟩
    · generalize getNextToken p3 = r4 at e4 h4 ⊢
      generalize getNextToken q3 = s4 at e4 h4 ⊢
      obtain ⟨t4, p4⟩ := r4
      obtain ⟨t4', q4⟩ := s4
      dsimp only at e4 h4 ⊢
      subst e4
      by_cases c5 : (t4.mType == Type_Number) = true
      · simp only [if_pos c5]; exact Or.inl ⟨rfl, h4⟩
      · simp only [if_neg c5]; exact parseInterval_sim h _ _ _ h4
    · right; refine ⟨nt, ?_⟩
      generalize getNextToken p3 = r4 at b4 ⊢
      rw [if_neg (by rcases b4 with b | b <;> rw [b] <;> decide)]
      unfold parseInterval
      rw [if_pos (by rcases b4 with b | b <;> rw [b] <;> rfl)]; rfl
  generalize (if (getNextToken p3).1.mType == Type_Number then
        (some (ValueType.Type_Closed, ValueType.Type_Closed, (getNextToken p3).1.mNumber,
          (getNextToken p3).1.mNumber), (getNextToken p3).2)
      else parseInterval (getNextToken p3).1 (getNextToken p3).2) = b at hb ⊢
  generalize (if (getNextToken q3).1.mType == Type_Number then
        (some (ValueType.Type_Closed, ValueType.Type_Closed, (getNextToken q3).1.mNumber,
          (getNextToken q3).1.mNumber), (getNextToken q3).2)
      else parseInterval (getNextToken q3).1 (getNextToken q3).2) = b' at hb ⊢
  obtain ⟨v, pb⟩ := b
  obtain ⟨v', qb⟩ := b'
  dsimp only
  rcases hb with ⟨ev, hb⟩ | ⟨nt, eb⟩
  · dsimp only at ev hb
    subst ev
    cases v with
    | none => exact Or.inl ⟨rfl, hb⟩
    | some w =>
      obtain ⟨lt, ut, lo, up⟩ := w
      dsimp only
      rcases h.tok pb qb hb with ⟨e5, h5⟩ | ⟨nt, b5⟩
      swap
      · right; refine ⟨nt, ?_⟩
        rw [if_pos (by rcases b5 with b | b <;> rw [b] <;> rfl)]; rfl
      generalize getNextToken pb = r5 at e5 h5 ⊢
      generalize getNextToken qb = s5 at e5 h5 ⊢
      obtain ⟨t5, p5⟩ := r5
      obtain ⟨t5', q5⟩ := s5
      dsimp only at e5 h5 ⊢
      subst e5
      by_cases c6 : (t5.mType != Type_Close) = true
      · simp only [if_pos c6]; exact Or.inl ⟨rfl, h.err _ _ h5⟩
      simp only [if_neg c6]
      exact Or.inl ⟨rfl, h5⟩
  · right; refine ⟨nt, ?_⟩
    dsimp only at eb
    cases v with
    | none => exact eb
    | some w =>
      obtain ⟨lt, ut, lo, up⟩ := w
      dsimp only
      have hs := getNextToken_sticky pb eb
      generalize getNextToken pb = r5 at hs ⊢
      by_cases c6 : (r5.1.mType != Type_Close) = true
      · simp only [if_pos c6]; rfl
      · simp only [if_neg c6]; exact hs

theorem AgreeO.of_agree {α : Type} {R : Parser → Parser → Prop} {total : Prop}
    {x y : α × Parser} (h : Agree R total x y) : AgreeO R total (some x) (some y) := by
  obtain ⟨a, s⟩ := x
  obtain ⟨b, t⟩ := y
  rcases h with ⟨e, r⟩ | ⟨nt, e⟩
  · dsimp only at e r; subst e; exact Or.inr (Or.inl ⟨a, s, t, rfl, rfl, r⟩)
  · exact Or.inr (Or.inr ⟨nt, a, s, rfl, e⟩)

theorem Sim.tok_cases {R : Parser → Parser → Prop} {total : Prop} (h : Sim R total)
    (p q : Parser) (hpq : R p q) :
    (∃ t p1 q1, getNextToken p = (t, p1) ∧ getNextToken q = (t, q1) ∧ R p1 q1) ∨
    (¬ total ∧ ∃ t p1, getNextToken p = (t, p1) ∧
      (t.mType = Type_EOS ∨ (t.mType = Type_None ∧ p1.mError = true))) := by
  rcases h.tok p q hpq with ⟨e, r⟩ | ⟨nt, b⟩
  · left; exact ⟨(getNextToken p).1, (getNextToken p).2, (getNextToken q).2, rfl,
      by rw [e], r⟩
  · right; refine ⟨nt, (getNextToken p).1, (getNextToken p).2, rfl, ?_⟩
    rcases b with b | b
    · exact Or.inl b
    · exact Or.inr ⟨b, getNextToken_none p b⟩

set_option maxHeartbeats 1000000 in
theorem parseImp_sim_aux {R : Parser → Parser → Prop} {total : Prop} (h : Sim R total)
    (d : Data) (fuel : Nat) :
    (∀ a b b2 p q, R p q → (total ∨ a = false) →
      AgreeO R total (parseImp d fuel a b p) (parseImp d fuel a b2 q)) ∧
    (∀ k p q, R p q → AgreeO R total (parseNAry d fuel k p) (parseNAry d fuel k q)) ∧
    (∀ ns p q, R p q →
      AgreeO R total (parseNAryLoop d fuel ns p) (parseNAryLoop d fuel ns q)) := by
  induction fuel with
  | zero =>
    refine ⟨?_, ?_, ?_⟩ <;> intros <;> left <;> simp [parseImp, parseNAry, parseNAryLoop]
  | succ n ih =>
    obtain ⟨ih1, ih2, ih3⟩ := ih
    refine ⟨?_, ?_, ?_⟩
    · intro a b b2 p q hpq ha
      rw [parseImp, parseImp]
      -- the token on which the switch is made, after a one-shot marker is skipped
      have hr : (∃ t p1 q1,
            (if (getNextToken p).1.eq (Token.ofType Type_OneShot) = true then
              getNextToken (getNextToken p).2 else getNextToken p) = (t, p1) ∧
            (if (getNextToken q).1.eq (Token.ofType Type_OneShot) = true then
              getNextToken (getNextToken q).2 else getNextToken q) = (t, q1) ∧ R p1 q1 ∧
            (getNextToken p).1.toBool = true ∧ (getNextToken q).1.toBool = true) ∨
          ((getNextToken p).1.toBool = false ∧ (getNextToken q).1.toBool = false ∧
            R (getNextToken p).2 (getNextToken q).2) ∨
          (¬ total ∧ ∃ t p1, (getNextToken p).1.toBool = true ∧
            (if (getNextToken p).1.eq (Token.ofType Type_OneShot) = true then
              getNextToken (getNextToken p).2 else getNextToken p) = (t, p1) ∧
            (t.mType = Type_EOS ∨ (t.mType = Type_None ∧ p1.mError = true))) ∨
          (¬ total ∧ (getNextToken p).1.toBool = false ∧ (getNextToken p).2.mError = true) := by
        rcases h.tok_cases p q hpq with ⟨t1, p1, q1, e1, e1', h1⟩ | ⟨nt, t1, p1, e1, b1⟩
        · rw [e1, e1']
          dsimp only
          by_cases c1 : t1.toBool = true
          swap
          · right; left
            simp only [Bool.not_eq_true] at c1
            exact ⟨c1, c1, h1⟩
          by_cases c2 : t1.eq (Token.ofType Type_OneShot) = true
          · simp only [if_pos c2]
            rcases h.tok_cases p1 q1 h1 with ⟨t2, p2, q2, e2, e2', h2⟩ | ⟨nt, t2, p2, e2, b2⟩
            · left; exact ⟨t2, p2, q2, e2, e2', h2, c1, c1⟩
            · right; right; left
              exact ⟨nt, t2, p2, c1, e2, b2⟩
          · simp only [if_neg c2]
            left; exact ⟨t1, p1, q1, rfl, rfl, h1, c1, c1⟩
        · rw [e1]
          dsimp only
          rcases b1 with b | ⟨b, be⟩
          · right; right; left
            refine ⟨nt, t1, p1, by simp [Token.toBool, b], ?_, Or.inl b⟩
            rw [if_neg]
            simp [Token.eq, b, Token.ofType]
          · right; right; right
            exact ⟨nt, by simp [Token.toBool, b], be⟩
      rcases hr with ⟨t, p1, q1, e, e', h1, c, c'⟩ | ⟨c, c', h1⟩ |
          ⟨nt, t, p1, c, e, b⟩ | ⟨nt, c, be⟩
      · dsimp only
        rw [if_pos c, if_pos c', e, e']
        dsimp only
        by_cases c3 : t.toBool = true
        swap
        · rw [if_neg c3, if_neg c3]
          exact Or.inr (Or.inl ⟨_, _, _, rfl, rfl, h1⟩)
        rw [if_pos c3, if_pos c3]
        cases hty : t.mType <;> dsimp only
        · cases a
          · exact Or.inr (Or.inl ⟨_, _, _, rfl, rfl, h.err _ _ h1⟩)
          · exact Or.inr (Or.inl ⟨_, _, _, rfl, rfl, h1⟩)
        iterate 9 exact Or.inr (Or.inl ⟨_, _, _, rfl, rfl, h.err _ _ h1⟩)
        · exact Or.inr (Or.inl ⟨_, _, _, rfl, rfl, h1⟩)
        · exact Or.inr (Or.inl ⟨_, _, _, rfl, rfl, h1⟩)
        · exact ih2 _ _ _ h1
        · exact ih2 _ _ _ h1
        · rcases ih1 false false false _ _ h1 (Or.inr rfl) with ⟨e1, e2⟩ |
              ⟨v, s, s', e1, e2, hs⟩ | ⟨nt, v, s, e1, es⟩
          · rw [e1, e2]; exact Or.inl ⟨rfl, rfl⟩
          · rw [e1, e2]
            dsimp only
            have hf := h.flag _ _ hs
            by_cases c4 : s.mError = true
            · have c4' : s'.mError = true := by rw [← hf]; exact c4
              rw [if_pos c4, if_pos c4']
              exact Or.inr (Or.inl ⟨_, _, _, rfl, rfl, hs⟩)
            · have c4' : ¬ s'.mError = true := by rw [← hf]; exact c4
              rw [if_neg c4, if_neg c4']
              exact Or.inr (Or.inl ⟨_, _, _, rfl, rfl, hs⟩)
          · rw [e1]
            dsimp only
            rw [if_pos es]
            exact Or.inr (Or.inr ⟨nt, _, _, rfl, es⟩)
        · exact AgreeO.of_agree (parseText_sim h d _ _ h1)
        · exact AgreeO.of_agree (parseValue_sim h d _ _ h1)
      · dsimp only
        have cn : ¬ (getNextToken p).1.toBool = true := by rw [c]; decide
        have cn' : ¬ (getNextToken q).1.toBool = true := by rw [c']; decide
        rw [if_neg cn, if_neg cn']
        exact Or.inr (Or.inl ⟨_, _, _, rfl, rfl, h1⟩)
      · dsimp only
        rw [if_pos c, e]
        dsimp only
        have ha' : a = false := by
          rcases ha with ha | ha
          · exact absurd ha nt
          · exact ha
        subst ha'
        rcases b with b | ⟨b, be⟩
        · have ct : t.toBool = true := by simp [Token.toBool, b]
          rw [if_pos ct]
          simp only [b]
          exact Or.inr (Or.inr ⟨nt, _, _, rfl, rfl⟩)
        · have ct : ¬ t.toBool = true := by simp [Token.toBool, b]
          rw [if_neg ct]
          exact Or.inr (Or.inr ⟨nt, _, _, rfl, be⟩)
      · dsimp only
        have cn : ¬ (getNextToken p).1.toBool = true := by rw [c]; decide
        rw [if_neg cn]
        exact Or.inr (Or.inr ⟨nt, _, _, rfl, be⟩)
    · intro k p q hpq
      rw [parseNAry, parseNAry]
      rcases h.tok_cases p q hpq with ⟨t1, p1, q1, e1, e1', h1⟩ | ⟨nt, t1, p1, e1, b1⟩
      swap
      · rw [e1]
        dsimp only
        have cb : (t1.mType != Type_Open) = true := by
          rcases b1 with b | ⟨b, _⟩ <;> rw [b] <;> rfl
        rw [if_pos cb]
        exact Or.inr (Or.inr ⟨nt, _, _, rfl, rfl⟩)
      rw [e1, e1']
      dsimp only
      by_cases c1 : (t1.mType != Type_Open) = true
      · rw [if_pos c1, if_pos c1]
        exact Or.inr (Or.inl ⟨_, _, _, rfl, rfl, h.err _ _ h1⟩)
      rw [if_neg c1, if_neg c1]
      rcases ih3 [] _ _ h1 with ⟨e1, e2⟩ | ⟨v, s, s', e1, e2, hs⟩ | ⟨nt, v, s, e1, es⟩
      · rw [e1, e2]; exact Or.inl ⟨rfl, rfl⟩
      · rw [e1, e2]
        cases v with
        | none => exact Or.inr (Or.inl ⟨_, _, _, rfl, rfl, hs⟩)
        | some nodes =>
          dsimp only
          by_cases c2 : nodes.isEmpty = true
          · rw [if_pos c2, if_pos c2]
            exact Or.inr (Or.inl ⟨_, _, _, rfl, rfl, h.err _ _ hs⟩)
          rw [if_neg c2, if_neg c2]
          cases k.mType <;> dsimp only
          all_goals first
            | exact Or.inr (Or.inl ⟨_, _, _, rfl, rfl, hs⟩)
            | exact Or.inr (Or.inl ⟨_, _, _, rfl, rfl, h.err _ _ hs⟩)
      · rw [e1]
        cases v with
        | none => exact Or.inr (Or.inr ⟨nt, _, _, rfl, es⟩)
        | some nodes =>
          dsimp only
          by_cases c2 : nodes.isEmpty = true
          · rw [if_pos c2]
            exact Or.inr (Or.inr ⟨nt, _, _, rfl, rfl⟩)
          rw [if_neg c2]
          cases k.mType <;> dsimp only
          all_goals first
            | exact Or.inr (Or.inr ⟨nt, _, _, rfl, es⟩)
            | exact Or.inr (Or.inr ⟨nt, _, _, rfl, rfl⟩)
    · intro ns p q hpq
      rw [parseNAryLoop, parseNAryLoop]
      rcases ih1 false false false _ _ hpq (Or.inr rfl) with ⟨e1, e2⟩ |
          ⟨v, s, s', e1, e2, hs⟩ | ⟨nt, v, s, e1, es⟩
      · rw [e1, e2]; exact Or.inl ⟨rfl, rfl⟩
      · rw [e1, e2]
        dsimp only
        have hf := h.flag _ _ hs
        by_cases c1 : s.mError = true
        · have c1' : s'.mError = true := by rw [← hf]; exact c1
          rw [if_pos c1, if_pos c1']
          exact Or.inr (Or.inl ⟨_, _, _, rfl, rfl, hs⟩)
        have c1' : ¬ s'.mError = true := by rw [← hf]; exact c1
        rw [if_neg c1, if_neg c1']
        rcases h.tok_cases s s' hs with ⟨t1, p1, q1, e1, e1', h1⟩ | ⟨nt, t1, p1, e1, b1⟩
        swap
        · rw [e1]
          dsimp only
          have cb : (!t1.toBool || (t1.mType != Type_Close && t1.mType != Type_Comma)) = true := by
            rcases b1 with b | ⟨b, _⟩ <;> simp [Token.toBool, b]
          rw [if_pos cb]
          exact Or.inr (Or.inr ⟨nt, _, _, rfl, rfl⟩)
        rw [e1, e1']
        dsimp only
        by_cases c2 : (!t1.toBool || (t1.mType != Type_Close && t1.mType != Type_Comma)) = true
        · rw [if_pos c2, if_pos c2]
          exact Or.inr (Or.inl ⟨_, _, _, rfl, rfl, h.err _ _ h1⟩)
        rw [if_neg c2, if_neg c2]
        by_cases c3 : (t1.mType == Type_Close) = true
        · rw [if_pos c3, if_pos c3]
          exact Or.inr (Or.inl ⟨_, _, _, rfl, rfl, h1⟩)
        rw [if_neg c3, if_neg c3]
        exact ih3 _ _ _ h1
      · rw [e1]
        dsimp only
        rw [if_pos es]
        exact Or.inr (Or.inr ⟨nt, _, _, rfl, es⟩)

/-! ## Frame facts, budget monotonicity and budget sufficiency -/

theorem unread_step (p : Parser) (n : Nat) (e : Bool) : (p.step n e).unread = p.unread.drop n := by
  simp [Parser.step, Parser.unread, List.drop_drop, Nat.add_comm]

theorem Frame.refl (p : Parser) : Frame p p :=
  ⟨rfl, rfl, Nat.le_refl _, Nat.le_refl _, fun h => h, fun h => h⟩

theorem Frame.error {p0 p : Parser} (h : Frame p0 p) : Frame p0 p.error := by
  obtain ⟨h1, h2, h3, h4, h5, h6⟩ := h
  exact ⟨h1, h2, h3, h4, h5, fun _ => rfl⟩

theorem Frame.step {p0 p : Parser} (h : Frame p0 p) (n : Nat) (e : Bool)
    (hn : n ≤ p.unread.length) : Frame p0 (p.step n e) := by
  obtain ⟨h1, h2, h3, h4, h5, h6⟩ := h
  refine ⟨h1, h2, ?_, ?_, ?_, ?_⟩
  · show p0.mIndex ≤ p.mIndex + n
    omega
  · rw [unread_step, List.length_drop]; omega
  · intro hb
    have := h5 hb
    show p.mIndex + n ≤ _
    have hl : p.unread.length = p.mInput.length - p.mIndex := by simp [Parser.unread]
    rw [h2] at hl
    omega
  · intro he
    show (p.mError || e) = true
    rw [h6 he]; rfl

theorem Frame.tok {p0 p : Parser} (h : Frame p0 p) : Frame p0 (getNextToken p).2 := by
  rw [getNextToken_eq]
  exact h.step _ _ (lex_len_le _)

theorem frame_sim (p0 : Parser) : Sim (fun p q => p = q ∧ Frame p0 p) True where
  tok := by
    rintro p q ⟨rfl, h⟩
    exact Or.inl ⟨rfl, rfl, h.tok⟩
  err := by
    rintro p q ⟨rfl, h⟩
    exact ⟨rfl, h.error⟩
  flag := by
    rintro p q ⟨rfl, _⟩
    rfl

theorem parseImp_frame (d : Data) (fuel : Nat) (a b : Bool) (p : Parser)
    (r : Option Node × Parser) (h : parseImp d fuel a b p = some r) : Frame p r.2 := by
  rcases (parseImp_sim_aux (frame_sim p) d fuel).1 a b b p p ⟨rfl, Frame.refl p⟩ (Or.inl trivial)
    with ⟨e, _⟩ | ⟨v, s, t, e1, _, _, hs⟩ | ⟨nt, _⟩
  · rw [e] at h; exact absurd h (by simp)
  · rw [e1] at h
    simp only [Option.some.injEq] at h
    rw [← h]; exact hs
  · exact absurd trivial nt

theorem getNextToken_unread_le (p : Parser) :
    (getNextToken p).2.unread.length ≤ p.unread.length := by
  rw [getNextToken_eq, unread_step, List.length_drop]; omega

theorem getNextToken_unread_lt (p : Parser) (h1 : (getNextToken p).1.mType ≠ Type_EOS)
    (h2 : (getNextToken p).1.mType ≠ Type_None) :
    (getNextToken p).2.unread.length < p.unread.length := by
  rw [getNextToken_eq] at h1 h2 ⊢
  have hp := lex_pos _ h1 h2
  have hl := lex_len_le p.unread
  rw [unread_step, List.length_drop]
  omega

theorem parseImp_mono_aux (d : Data) (fuel : Nat) :
    (∀ a b p r, parseImp d fuel a b p = some r → parseImp d (fuel + 1) a b p = some r) ∧
    (∀ k p r, parseNAry d fuel k p = some r → parseNAry d (fuel + 1) k p = some r) ∧
    (∀ ns p r, parseNAryLoop d fuel ns p = some r →
      parseNAryLoop d (fuel + 1) ns p = some r) := by
  induction fuel with
  | zero =>
    refine ⟨?_, ?_, ?_⟩ <;> intro _ _ _ <;> intro h
    · intro h2; rw [parseImp] at h2; exact absurd h2 (by simp)
    · rw [parseNAry] at h; exact absurd h (by simp)
    · rw [parseNAryLoop] at h; exact absurd h (by simp)
  | succ n ih =>
    obtain ⟨ih1, ih2, ih3⟩ := ih
    refine ⟨?_, ?_, ?_⟩
    · intro a b p r h
      rw [parseImp] at h ⊢
      generalize getNextToken p = r1 at h ⊢
      dsimp only at h ⊢
      by_cases c1 : r1.1.toBool = true
      swap
      · rw [if_neg c1] at h ⊢; exact h
      rw [if_pos c1] at h ⊢
      generalize (if r1.1.eq (Token.ofType Type_OneShot) = true then getNextToken r1.2 else r1) = r2
        at h ⊢
      by_cases c3 : r2.1.toBool = true
      swap
      · rw [if_neg c3] at h ⊢; exact h
      rw [if_pos c3] at h ⊢
      cases hty : r2.1.mType <;> rw [hty] at h <;> try dsimp only at h ⊢
      iterate 12 exact h
      · exact ih2 _ _ _ h
      · exact ih2 _ _ _ h
      · cases hx : parseImp d n false false r2.2 with
        | none => rw [hx] at h; exact absurd h (by simp)
        | some s => rw [hx] at h; rw [ih1 _ _ _ _ hx]; exact h
      · exact h
      · exact h
    · intro k p r h
      rw [parseNAry] at h ⊢
      generalize getNextToken p = r1 at h ⊢
      by_cases c1 : (r1.1.mType != Type_Open) = true
      · rw [if_pos c1] at h ⊢; exact h
      rw [if_neg c1] at h ⊢
      cases hx : parseNAryLoop d n [] r1.2 with
      | none => rw [hx] at h; exact absurd h (by simp)
      | some s => rw [hx] at h; rw [ih3 _ _ _ hx]; exact h
    · intro ns p r h
      rw [parseNAryLoop] at h ⊢
      cases hx : parseImp d n false false p with
      | none => rw [hx] at h; exact absurd h (by simp)
      | some s =>
        rw [hx] at h; rw [ih1 _ _ _ _ hx]
        dsimp only at h ⊢
        by_cases c1 : s.2.mError = true
        · rw [if_pos c1] at h ⊢; exact h
        rw [if_neg c1] at h ⊢
        generalize getNextToken s.2 = r1 at h ⊢
        by_cases c2 : (!r1.1.toBool || (r1.1.mType != Type_Close && r1.1.mType != Type_Comma)) = true
        · rw [if_pos c2] at h ⊢; exact h
        rw [if_neg c2] at h ⊢
        by_cases c3 : (r1.1.mType == Type_Close) = true
        · rw [if_pos c3] at h ⊢; exact h
        rw [if_neg c3] at h ⊢
        exact ih3 _ _ _ h

theorem parseImp_mono (d : Data) {f1 f2 : Nat} (hf : f1 ≤ f2) (a b : Bool) (p : Parser)
    (r : Option Node × Parser) (h : parseImp d f1 a b p = some r) :
    parseImp d f2 a b p = some r := by
  induction hf with
  | refl => exact h
  | step _ ih => exact (parseImp_mono_aux d _).1 _ _ _ _ ih

theorem parseImp_total_aux (d : Data) (fuel : Nat) :
    (∀ a b p, 2 * p.unread.length + 1 ≤ fuel → ∃ r, parseImp d fuel a b p = some r) ∧
    (∀ k p, 2 * p.unread.length + 1 ≤ fuel → ∃ r, parseNAry d fuel k p = some r) ∧
    (∀ ns p, 2 * p.unread.length + 2 ≤ fuel → ∃ r, parseNAryLoop d fuel ns p = some r) := by
  induction fuel with
  | zero =>
    refine ⟨?_, ?_, ?_⟩ <;> intros <;> omega
  | succ n ih =>
    obtain ⟨ih1, ih2, ih3⟩ := ih
    refine ⟨?_, ?_, ?_⟩
    · intro a b p hf
      rw [parseImp]
      have hr : ∀ r2, r2 = (if (getNextToken p).1.eq (Token.ofType Type_OneShot) = true then
            getNextToken (getNextToken p).2 else getNextToken p) →
          r2.1.mType ≠ Type_EOS → r2.1.mType ≠ Type_None →
          r2.2.unread.length < p.unread.length := by
        intro r2 e h1 h2
        by_cases c : (getNextToken p).1.eq (Token.ofType Type_OneShot) = true
        · rw [if_pos c] at e
          subst e
          have := getNextToken_unread_lt _ h1 h2
          have := getNextToken_unread_le p
          omega
        · rw [if_neg c] at e
          subst e
          exact getNextToken_unread_lt _ h1 h2
      generalize getNextToken p = r1 at hr ⊢
      dsimp only at hr ⊢
      by_cases c1 : r1.1.toBool = true
      swap
      · rw [if_neg c1]; exact ⟨_, rfl⟩
      rw [if_pos c1]
      have hr2 := hr _ rfl
      generalize (if r1.1.eq (Token.ofType Type_OneShot) = true then getNextToken r1.2 else r1) = r2
        at hr2 ⊢
      by_cases c3 : r2.1.toBool = true
      swap
      · rw [if_neg c3]; exact ⟨_, rfl⟩
      rw [if_pos c3]
      cases hty : r2.1.mType <;> try dsimp only
      iterate 12 exact ⟨_, rfl⟩
      · have := hr2 (by rw [hty]; decide) (by rw [hty]; decide)
        exact ih2 _ _ (by omega)
      · have := hr2 (by rw [hty]; decide) (by rw [hty]; decide)
        exact ih2 _ _ (by omega)
      · have := hr2 (by rw [hty]; decide) (by rw [hty]; decide)
        obtain ⟨s, hs⟩ := ih1 false false r2.2 (by omega)
        rw [hs]
        dsimp only
        by_cases c4 : s.2.mError = true
        · rw [if_pos c4]; exact ⟨_, rfl⟩
        · rw [if_neg c4]; exact ⟨_, rfl⟩
      · exact ⟨_, rfl⟩
      · exact ⟨_, rfl⟩
    · intro k p hf
      rw [parseNAry]
      have hl := getNextToken_unread_lt p
      generalize getNextToken p = r1 at hl ⊢
      by_cases c1 : (r1.1.mType != Type_Open) = true
      · rw [if_pos c1]; exact ⟨_, rfl⟩
      rw [if_neg c1]
      have ht : r1.1.mType = Type_Open := by simpa using c1
      have := hl (by rw [ht]; decide) (by rw [ht]; decide)
      obtain ⟨s, hs⟩ := ih3 [] r1.2 (by omega)
      rw [hs]
      obtain ⟨v, q⟩ := s
      cases v with
      | none => exact ⟨_, rfl⟩
      | some nodes =>
        dsimp only
        by_cases c2 : nodes.isEmpty = true
        · rw [if_pos c2]; exact ⟨_, rfl⟩
        rw [if_neg c2]
        cases k.mType <;> exact ⟨_, rfl⟩
    · intro ns p hf
      rw [parseNAryLoop]
      obtain ⟨s, hs⟩ := ih1 false false p (by omega)
      rw [hs]
      dsimp only
      by_cases c1 : s.2.mError = true
      · rw [if_pos c1]; exact ⟨_, rfl⟩
      rw [if_neg c1]
      have hfr := (parseImp_frame d n false false p s hs).2.2.2.1
      have hl := getNextToken_unread_lt s.2
      generalize getNextToken s.2 = r1 at hl ⊢
      by_cases c2 : (!r1.1.toBool || (r1.1.mType != Type_Close && r1.1.mType != Type_Comma)) = true
      · rw [if_pos c2]; exact ⟨_, rfl⟩
      rw [if_neg c2]
      by_cases c3 : (r1.1.mType == Type_Close) = true
      · rw [if_pos c3]; exact ⟨_, rfl⟩
      rw [if_neg c3]
      have ht : r1.1.mType = Type_Comma := by
        simp only [Bool.or_eq_true, Bool.and_eq_true, not_or, not_and, bne_iff_ne, ne_eq,
          Decidable.not_not, beq_iff_eq] at c2 c3
        exact c2.2 c3
      have := hl (by rw [ht]; decide) (by rw [ht]; decide)
      exact ih3 _ _ (by omega)

theorem parseImp_total (d : Data) (fuel : Nat) (a b : Bool) (p : Parser)
    (h : 2 * p.unread.length + 1 ≤ fuel) : ∃ r, parseImp d fuel a b p = some r :=
  (parseImp_total_aux d fuel).1 a b p h

/-! ## The entry point `parse` -/

theorem Token.eq_oneShot (t : Token) :
    t.eq (Token.ofType Type_OneShot) = true ↔ t.mType = Type_OneShot := by
  unfold Token.eq Token.ofType
  cases h : t.mType <;> simp

theorem getNextToken_mError (p : Parser) :
    (getNextToken p).2.mError = (p.mError || !(getNextToken p).1.toBool) := by
  rw [getNextToken_eq]
  show (p.mError || (lex p.unread).2.2) = _
  rw [lex_err]

theorem parseDepth_unfold_true (d : Data) (k : Nat) (p : Parser) (filter : List Char) :
    parseDepth d (k + 1) p filter true =
      (let r := getNextToken (Parser.start filter)
       if r.1.eq (Token.ofType Type_OneShot) then
         (parseImp d (parseBudget filter) true (r.1.ne (Token.ofType Type_OneShot)) r.2).map
           parseFinish
       else if r.1.mType == Type_String then
         let e := getNextToken r.2
         if e.1.ne (Token.ofType Type_EOS) then some (false, e.2.error)
         else
           let index := d.searchId r.1.mString
           if index == -1 then some (false, e.2.error)
           else
             let record := d.getRecord index
             if record.isDeleted then some (false, e.2.error)
             else parseDepth d k e.2 record.mFilter false
       else some (false, r.2.error)) := by
  rw [parseDepth]
  simp only [if_true, Bool.not_true, Bool.false_or, Bool.and_true, Parser.start]
  by_cases c : (getNextToken ⟨none, filter, 0, false⟩).1.eq (Token.ofType Type_OneShot) = true
  · simp only [if_pos c]
    cases parseImp d (parseBudget filter) true
        ((getNextToken ⟨none, filter, 0, false⟩).1.ne (Token.ofType Type_OneShot))
        (getNextToken ⟨none, filter, 0, false⟩).2 with
    | none => rfl
    | some s =>
      simp only [Option.map_some', parseFinish]
      by_cases c1 : s.2.mError = true
      · simp only [if_pos c1]
      simp only [if_neg c1]
      by_cases c2 : (getNextToken s.2).1.ne (Token.ofType Type_EOS) = true
      · simp only [if_pos c2]
      simp only [if_neg c2]
      cases s.1 <;> rfl
  · simp only [if_neg c]

theorem parseDepth_unfold_false (d : Data) (k : Nat) (p : Parser) (filter : List Char) :
    parseDepth d (k + 1) p filter false =
      (parseImp d (parseBudget filter) true true (Parser.start filter)).map parseFinish := by
  rw [parseDepth]
  simp only [Bool.false_eq_true, if_false, Bool.not_false, Bool.true_or, if_true, Parser.start]
  have e : (Token.ofType Type_None).ne (Token.ofType Type_OneShot) = true := rfl
  rw [e]
  cases parseImp d (parseBudget filter) true true ⟨none, filter, 0, false⟩ with
  | none => rfl
  | some s =>
    simp only [Option.map_some', parseFinish]
    by_cases c1 : s.2.mError = true
    · simp only [if_pos c1]
    simp only [if_neg c1]
    by_cases c2 : (getNextToken s.2).1.ne (Token.ofType Type_EOS) = true
    · simp only [if_pos c2]
    simp only [if_neg c2]
    cases s.1 <;> rfl

theorem Token.ne_eos (t : Token) : t.ne (Token.ofType Type_EOS) = !t.toBool := by
  unfold Token.ne
  cases t.toBool <;> rfl

theorem parseFinish_consistent (s : Option Node × Parser) (h : s.2.mFilter = none) :
    Consistent (parseFinish s) := by
  unfold parseFinish
  by_cases c1 : s.2.mError = true
  · rw [if_pos c1]
    exact Or.inr ⟨rfl, c1, h⟩
  rw [if_neg c1]
  have hf := (Frame.refl s.2).tok
  have he := getNextToken_mError s.2
  generalize getNextToken s.2 = e at hf he ⊢
  dsimp only
  rw [Token.ne_eos]
  by_cases c2 : (!e.1.toBool) = true
  · rw [if_pos c2]
    exact Or.inr ⟨rfl, rfl, hf.1.trans h⟩
  rw [if_neg c2]
  have hne : e.2.mError = false := by
    rw [he]
    simp only [Bool.not_eq_true] at c1 c2
    rw [c1, c2]; rfl
  cases s.1 with
  | none => exact Or.inl ⟨rfl, hne, _, rfl⟩
  | some n => exact Or.inl ⟨rfl, hne, _, rfl⟩

theorem parseBudget_start (filter : List Char) :
    2 * (Parser.start filter).unread.length + 1 ≤ parseBudget filter := by
  simp [Parser.start, Parser.unread, parseBudget]

theorem parseDepth_false_consistent (d : Data) (k : Nat) (p : Parser) (filter : List Char) :
    ∃ r, parseDepth d (k + 1) p filter false = some r ∧ Consistent r := by
  rw [parseDepth_unfold_false]
  obtain ⟨s, hs⟩ := parseImp_total d (parseBudget filter) true true (Parser.start filter)
    (parseBudget_start filter)
  rw [hs]
  refine ⟨_, rfl, parseFinish_consistent s ?_⟩
  exact (parseImp_frame d _ _ _ _ _ hs).1

theorem parseDepth_true_consistent (d : Data) (k : Nat) (p : Parser) (filter : List Char) :
    ∃ r, parseDepth d (k + 2) p filter true = some r ∧ Consistent r := by
  rw [parseDepth_unfold_true]
  have hf := (Frame.refl (Parser.start filter)).tok
  have hl := getNextToken_unread_le (Parser.start filter)
  generalize getNextToken (Parser.start filter) = r at hf hl ⊢
  dsimp only
  by_cases c : r.1.eq (Token.ofType Type_OneShot) = true
  · rw [if_pos c]
    have hb := parseBudget_start filter
    obtain ⟨s, hs⟩ := parseImp_total d (parseBudget filter) true
      (r.1.ne (Token.ofType Type_OneShot)) r.2 (by omega)
    rw [hs]
    refine ⟨_, rfl, parseFinish_consistent s ?_⟩
    exact ((parseImp_frame d _ _ _ _ _ hs).1).trans hf.1
  rw [if_neg c]
  by_cases c2 : (r.1.mType == Type_String) = true
  · rw [if_pos c2]
    have hf2 := hf.tok
    generalize getNextToken r.2 = e at hf2 ⊢
    by_cases c3 : e.1.ne (Token.ofType Type_EOS) = true
    · rw [if_pos c3]
      exact ⟨_, rfl, Or.inr ⟨rfl, rfl, hf2.1⟩⟩
    rw [if_neg c3]
    by_cases c4 : (d.searchId r.1.mString == -1) = true
    · rw [if_pos c4]
      exact ⟨_, rfl, Or.inr ⟨rfl, rfl, hf2.1⟩⟩
    rw [if_neg c4]
    by_cases c5 : (d.getRecord (d.searchId r.1.mString)).isDeleted = true
    · rw [if_pos c5]
      exact ⟨_, rfl, Or.inr ⟨rfl, rfl, hf2.1⟩⟩
    rw [if_neg c5]
    exact parseDepth_false_consistent d k _ _
  rw [if_neg c2]
  exact ⟨_, rfl, Or.inr ⟨rfl, rfl, hf.1⟩⟩

theorem sameRest_sim : Sim SameRest True where
  tok := by
    rintro p q ⟨h1, h2, h3⟩
    left
    rw [getNextToken_eq p, getNextToken_eq q, h1]
    refine ⟨rfl, ?_, ?_, h3⟩
    · rw [unread_step, unread_step, h1]
    · show (p.mError || _) = (q.mError || _)
      rw [h2]
  err := by
    rintro p q ⟨h1, h2, h3⟩
    exact ⟨h1, rfl, h3⟩
  flag := by
    rintro p q ⟨_, h2, _⟩
    exact h2

theorem parseImp_budget (d : Data) (f1 f2 : Nat) (a b : Bool) (p : Parser)
    (h1 : 2 * p.unread.length + 1 ≤ f1) (h2 : 2 * p.unread.length + 1 ≤ f2) :
    parseImp d f1 a b p = parseImp d f2 a b p := by
  obtain ⟨r1, e1⟩ := parseImp_total d f1 a b p h1
  obtain ⟨r2, e2⟩ := parseImp_total d f2 a b p h2
  rcases Nat.le_total f1 f2 with h | h
  · rw [parseImp_mono d h a b p r1 e1, e1]
  · rw [e2, parseImp_mono d h a b p r2 e2]

theorem parseImp_sameRest (d : Data) (f1 f2 : Nat) (a b1 b2 : Bool) (p q : Parser)
    (h : SameRest p q) (h1 : 2 * p.unread.length + 1 ≤ f1) (h2 : 2 * q.unread.length + 1 ≤ f2) :
    ∃ v s t, parseImp d f1 a b1 p = some (v, s) ∧ parseImp d f2 a b2 q = some (v, t) ∧
      SameRest s t := by
  have hl : p.unread.length = q.unread.length := by rw [h.1]
  rw [parseImp_budget d f2 (max f1 f2) a b2 q h2 (by omega),
    parseImp_budget d f1 (max f1 f2) a b1 p h1 (by omega)]
  rcases (parseImp_sim_aux sameRest_sim d (max f1 f2)).1 a b1 b2 p q h (Or.inl trivial) with
    ⟨e1, _⟩ | ⟨v, s, t, e1, e2, hs⟩ | ⟨nt, _⟩
  · obtain ⟨r, hr⟩ := parseImp_total d (max f1 f2) a b1 p (by omega)
    rw [hr] at e1; exact absurd e1 (by simp)
  · exact ⟨v, s, t, e1, e2, hs⟩
  · exact absurd trivial nt

theorem parseFinish_sameRest (v : Option Node) (s t : Parser) (h : SameRest s t) :
    (parseFinish (v, s)).1 = (parseFinish (v, t)).1 ∧
    (parseFinish (v, s)).2.mError = (parseFinish (v, t)).2.mError ∧
    (parseFinish (v, s)).2.mFilter = (parseFinish (v, t)).2.mFilter := by
  unfold parseFinish
  dsimp only
  obtain ⟨h1, h2, h3⟩ := h
  by_cases c1 : s.mError = true
  · have c1' : t.mError = true := by rw [← h2]; exact c1
    rw [if_pos c1, if_pos c1']
    exact ⟨rfl, h2, h3⟩
  have c1' : ¬ t.mError = true := by rw [← h2]; exact c1
  rw [if_neg c1, if_neg c1']
  rcases sameRest_sim.tok s t ⟨h1, h2, h3⟩ with ⟨e, r1, r2, r3⟩ | ⟨nt, _⟩
  swap
  · exact absurd trivial nt
  generalize getNextToken s = x at e r1 r2 r3 ⊢
  generalize getNextToken t = y at e r1 r2 r3 ⊢
  rw [← e]
  by_cases c2 : x.1.ne (Token.ofType Type_EOS) = true
  · rw [if_pos c2, if_pos c2]
    exact ⟨rfl, rfl, r3⟩
  rw [if_neg c2, if_neg c2]
  cases v with
  | none => exact ⟨rfl, r2, rfl⟩
  | some n => exact ⟨rfl, r2, rfl⟩

theorem getNextToken_oneShot (e : List Char) :
    getNextToken (Parser.start ('!' :: e)) = (Token.ofType Type_OneShot, ⟨none, '!' :: e, 1, false⟩) :=
  rfl

theorem skipSpaces_replicate (n : Nat) (l : List Char) (h : ∀ c cs, l = c :: cs → c ≠ ' ') :
    skipSpaces (List.replicate n ' ' ++ l) = n := by
  induction n with
  | zero =>
    cases l with
    | nil => rfl
    | cons c cs =>
      have := h c cs rfl
      simp [skipSpaces, this]
  | succ n ih =>
    rw [List.replicate_succ, List.cons_append, skipSpaces]
    simp [ih]

theorem getNextToken_spaces (p : Parser) (n : Nat) (h : p.unread = List.replicate n ' ') :
    getNextToken p = (Token.ofType Type_EOS, p.step n false) := by
  rw [getNextToken_unfold, h]
  have hs : skipSpaces (List.replicate n ' ') = n := by
    have := skipSpaces_replicate n [] (by intro c cs hc; cases hc)
    simpa using this
  rw [hs]
  simp

/-! ## Tokens read from given text -/

theorem lex_space (l : List Char) :
    lex (' ' :: l) = ((lex l).1, (lex l).2.1 + 1, (lex l).2.2) := by
  rw [lex_unfold, lex_unfold l]
  have h : skipSpaces (' ' :: l) = skipSpaces l + 1 := rfl
  rw [h, List.drop_succ_cons]
  cases List.drop (skipSpaces l) l with
  | nil => rfl
  | cons c cs =>
    show (_, _, _) = (_, _, _)
    rw [Nat.add_right_comm]

theorem lex_open (l : List Char) : lex ('(' :: l) = (Token.ofType Type_Open, 1, false) := rfl
theorem lex_close (l : List Char) : lex (')' :: l) = (Token.ofType Type_Close, 1, false) := rfl
theorem lex_openSquare (l : List Char) :
    lex ('[' :: l) = (Token.ofType Type_OpenSquare, 1, false) := rfl
theorem lex_closeSquare (l : List Char) :
    lex (']' :: l) = (Token.ofType Type_CloseSquare, 1, false) := rfl
theorem lex_comma (l : List Char) : lex (',' :: l) = (Token.ofType Type_Comma, 1, false) := rfl

theorem lex_nil : lex [] = (Token.ofType Type_EOS, 0, false) := rfl

/-- Reading a token from a state whose unread input starts with the text `w` of
the token. -/
theorem getNextToken_prefix (p : Parser) (w rest : List Char) (t : Token)
    (hu : p.unread = w ++ rest) (hl : lex (w ++ rest) = (t, w.length, false)) :
    getNextToken p = (t, p.step w.length false) ∧ (p.step w.length false).unread = rest := by
  rw [getNextToken_eq, hu, hl]
  refine ⟨rfl, ?_⟩
  rw [unread_step, hu, List.drop_left]

theorem step_step (p : Parser) (n m : Nat) (e1 e2 : Bool) :
    (p.step n e1).step m e2 = p.step (n + m) (e1 || e2) := by
  simp [Parser.step, Nat.add_assoc, Bool.or_assoc]

theorem identStart_ne {c : Char} (h : isIdentStart c = true) (x : Char)
    (hx : isIdentStart x = false) : c ≠ x := by
  rintro rfl
  rw [h] at hx
  exact absurd hx (by decide)

theorem dispatch_identStart {α : Type} (c : Char) (h : isIdentStart c = true)
    (a1 a2 a3 a4 a5 a6 a7 a8 a9 : α) : dispatch c a1 a2 a3 a4 a5 a6 a7 a8 a9 = a7 := by
  unfold dispatch
  have n1 : ¬ ((c == '(') = true) := by simpa using identStart_ne h '(' (by decide)
  have n2 : ¬ ((c == ')') = true) := by simpa using identStart_ne h ')' (by decide)
  have n3 : ¬ ((c == '[') = true) := by simpa using identStart_ne h '[' (by decide)
  have n4 : ¬ ((c == ']') = true) := by simpa using identStart_ne h ']' (by decide)
  have n5 : ¬ ((c == ',') = true) := by simpa using identStart_ne h ',' (by decide)
  have n6 : ¬ ((c == '!') = true) := by simpa using identStart_ne h '!' (by decide)
  have y7 : (c == quote || c == '_' || c.isAlpha || c == ':') = true := by
    simp only [isIdentStart, Bool.or_eq_true] at h ⊢
    tauto
  rw [if_neg n1, if_neg n2, if_neg n3, if_neg n4, if_neg n5, if_neg n6, if_pos y7]

theorem delimited_cons {c : Char} {cs : List Char} (h : delimited (c :: cs) = true) :
    c.isAlpha = false ∧ c.isDigit = false ∧ c ≠ ':' ∧ c ≠ '_' ∧ c ≠ quote ∧ c ≠ '.' ∧ c ≠ '-' := by
  simp only [delimited, Bool.or_eq_true, beq_iff_eq] at h
  rcases h with ((((h | h) | h) | h) | h) | h <;> subst h <;> decide

theorem getStringLoop_stop (rest acc : List Char) (hr : delimited rest = true)
    (ha : acc.head? ≠ some quote) : getStringLoop rest acc = (acc, 0) := by
  cases rest with
  | nil => rfl
  | cons c cs =>
    obtain ⟨h1, h2, h3, h4, h5, _, _⟩ := delimited_cons hr
    unfold getStringLoop
    rw [if_neg]
    simp only [Bool.or_eq_true, Bool.and_eq_true, beq_iff_eq, not_or, not_and, h1, h2]
    refine ⟨⟨⟨⟨⟨by decide, h3⟩, h4⟩, by simp⟩, h5⟩, fun _ => ha⟩

theorem getStringLoop_word (w : List Char) :
    ∀ (rest acc : List Char), delimited rest = true → acc.head? ≠ some quote →
      (∀ c ∈ w, isIdentStart c = true) →
      getStringLoop (w ++ rest) acc = (acc ++ w, w.length) := by
  induction w with
  | nil =>
    intro rest acc hr ha _
    rw [List.nil_append, getStringLoop_stop rest acc hr ha, List.append_nil]; rfl
  | cons c w ih =>
    intro rest acc hr ha hw
    have hc := hw c (List.mem_cons_self _ _)
    have hq : c ≠ quote := identStart_ne hc quote (by decide)
    rw [List.cons_append, getStringLoop]
    have y : (c.isAlpha || c == ':' || c == '_' || (!acc.isEmpty && c.isDigit) || c == quote ||
        (!acc.isEmpty && acc.head? == some quote)) = true := by
      simp only [isIdentStart, Bool.or_eq_true] at hc ⊢
      tauto
    have n : ¬ ((c == quote && decide ((acc ++ [c]).length > 1)) = true) := by
      simp [hq]
    rw [if_pos y, if_neg n]
    have ha2 : (acc ++ [c]).head? ≠ some quote := by
      cases acc with
      | nil => simpa using hq
      | cons a as => simpa using ha
    rw [ih rest (acc ++ [c]) hr ha2 (fun x hx => hw x (List.mem_cons_of_mem _ hx))]
    simp

theorem lexString_eq (u : List Char) :
    lexString u = ((stringTokenOf (getStringLoop u []).1).1, (getStringLoop u []).2,
      (stringTokenOf (getStringLoop u []).1).2) := by
  unfold lexString getStringToken stringTokenOf
  simp only [Parser.unread, List.drop_zero]
  split_ifs <;> simp [Parser.advance, Parser.error]

theorem lexString_word (w rest : List Char) (hne : w ≠ []) (hr : delimited rest = true)
    (hw : ∀ c ∈ w, isIdentStart c = true) :
    lexString (w ++ rest) = (checkKeywords (Token.ofString w), w.length, false) := by
  rw [lexString_eq, getStringLoop_word w rest [] hr (by simp) hw]
  simp only [List.nil_append]
  unfold stringTokenOf
  have h1 : (!w.isEmpty) = true := by
    cases w with
    | nil => exact absurd rfl hne
    | cons _ _ => rfl
  have hh : ¬ (w.head? = some quote) := by
    cases w with
    | nil => exact absurd rfl hne
    | cons c cs =>
      have := identStart_ne (hw c (List.mem_cons_self _ _)) quote (by decide)
      simpa using this
  have hl : ¬ (w.getLast? = some quote) := by
    intro h
    have hm := List.mem_of_getLast?_eq_some h
    exact identStart_ne (hw _ hm) quote (by decide) rfl
  have n2 : ¬ ((w.head? == some quote && (w.getLast? != some quote || decide (w.length < 2))) = true) := by
    simp [hh]
  have n3 : ¬ ((w.head? != some quote && w.getLast? == some quote) = true) := by
    simp [hl]
  have n4 : ¬ ((w.head? == some quote) = true) := by simp [hh]
  rw [if_pos h1, if_neg n2, if_neg n3, if_neg n4]

theorem skipSpaces_cons_ne (c : Char) (l : List Char) (h : c ≠ ' ') : skipSpaces (c :: l) = 0 := by
  simp [skipSpaces, h]

theorem lex_word (w rest : List Char) (hne : w ≠ []) (hr : delimited rest = true)
    (hw : ∀ c ∈ w, isIdentStart c = true) :
    lex (w ++ rest) = (checkKeywords (Token.ofString w), w.length, false) := by
  cases w with
  | nil => exact absurd rfl hne
  | cons c cs =>
    have hc := hw c (List.mem_cons_self _ _)
    rw [lex_unfold, List.cons_append,
      skipSpaces_cons_ne c _ (identStart_ne hc ' ' (by decide)), List.drop_zero]
    show (_, _, _) = (_, _, _)
    unfold lexHead
    rw [dispatch_identStart c hc, ← List.cons_append, lexString_word (c :: cs) rest hne hr hw]
    simp

theorem lex_true (rest : List Char) (hr : delimited rest = true) :
    lex ('t' :: 'r' :: 'u' :: 'e' :: rest) = (Token.ofType Type_Keyword_True, 4, false) :=
  lex_word ['t', 'r', 'u', 'e'] rest (by simp) hr (by decide)

theorem lex_false (rest : List Char) (hr : delimited rest = true) :
    lex ('f' :: 'a' :: 'l' :: 's' :: 'e' :: rest) = (Token.ofType Type_Keyword_False, 5, false) :=
  lex_word ['f', 'a', 'l', 's', 'e'] rest (by simp) hr (by decide)

theorem lex_and (rest : List Char) (hr : delimited rest = true) :
    lex ('a' :: 'n' :: 'd' :: rest) = (Token.ofType Type_Keyword_And, 3, false) :=
  lex_word ['a', 'n', 'd'] rest (by simp) hr (by decide)

theorem lex_or (rest : List Char) (hr : delimited rest = true) :
    lex ('o' :: 'r' :: rest) = (Token.ofType Type_Keyword_Or, 2, false) :=
  lex_word ['o', 'r'] rest (by simp) hr (by decide)

theorem lex_not (rest : List Char) (hr : delimited rest = true) :
    lex ('n' :: 'o' :: 't' :: rest) = (Token.ofType Type_Keyword_Not, 3, false) :=
  lex_word ['n', 'o', 't'] rest (by simp) hr (by decide)

theorem lex_string (rest : List Char) (hr : delimited rest = true) :
    lex ('s' :: 't' :: 'r' :: 'i' :: 'n' :: 'g' :: rest) =
      (Token.ofType Type_Keyword_Text, 6, false) :=
  lex_word ['s', 't', 'r', 'i', 'n', 'g'] rest (by simp) hr (by decide)

theorem lex_value (rest : List Char) (hr : delimited rest = true) :
    lex ('v' :: 'a' :: 'l' :: 'u' :: 'e' :: rest) = (Token.ofType Type_Keyword_Value, 5, false) :=
  lex_word ['v', 'a', 'l', 'u', 'e'] rest (by simp) hr (by decide)

/-! ## Number tokens read from decimal text -/

theorem digitChar_spec (d : Nat) (h : d < 10) :
    (digitChar d).isDigit = true ∧ (digitChar d).toNat - 48 = d ∧ digitChar d ≠ '-' := by
  interval_cases d <;> decide

theorem natDigits_digits (fuel : Nat) : ∀ n, ∀ c ∈ natDigits fuel n, c.isDigit = true := by
  induction fuel with
  | zero => intro n c hc; simp [natDigits] at hc
  | succ f ih =>
    intro n c hc
    unfold natDigits at hc
    split_ifs at hc with h
    · simp only [List.mem_singleton] at hc
      rw [hc]; exact (digitChar_spec n h).1
    · rw [List.mem_append] at hc
      rcases hc with hc | hc
      · exact ih _ c hc
      · simp only [List.mem_singleton] at hc
        rw [hc]; exact (digitChar_spec _ (Nat.mod_lt _ (by decide))).1

theorem natDigits_ne_nil (fuel n : Nat) : natDigits (fuel + 1) n ≠ [] := by
  unfold natDigits
  split_ifs <;> simp

theorem printNat_ne_nil (n : Nat) : printNat n ≠ [] := natDigits_ne_nil n n

theorem printNat_digits (n : Nat) : ∀ c ∈ printNat n, c.isDigit = true :=
  natDigits_digits _ n

theorem readDigits_append (w : List Char) :
    ∀ (d m s : Nat), (∀ c ∈ w, c.isDigit = true) → d < 10 →
      readDigits (w ++ [digitChar d]) m s false =
        ((readDigits w m s false).1 * 10 + d, (readDigits w m s false).2) := by
  induction w with
  | nil =>
    intro d m s _ hd
    obtain ⟨h1, h2, _⟩ := digitChar_spec d hd
    simp [readDigits, h1, h2]
  | cons c w ih =>
    intro d m s hw hd
    have hc := hw c (List.mem_cons_self _ _)
    rw [List.cons_append, readDigits, readDigits, if_pos hc, if_pos hc]
    exact ih d _ _ (fun x hx => hw x (List.mem_cons_of_mem _ hx)) hd

theorem readDigits_natDigits (fuel : Nat) :
    ∀ n, n < fuel → readDigits (natDigits fuel n) 0 0 false = (n, 0) := by
  induction fuel with
  | zero => intro n h; omega
  | succ f ih =>
    intro n hn
    unfold natDigits
    split_ifs with h
    · obtain ⟨h1, h2, _⟩ := digitChar_spec n h
      simp [readDigits, h1, h2]
    · rw [readDigits_append _ _ _ _ (natDigits_digits f _) (Nat.mod_lt _ (by decide)),
        ih (n / 10) (by omega)]
      simp only [Prod.mk.injEq, and_true]
      omega

theorem readDigits_printNat (n : Nat) : readDigits (printNat n) 0 0 false = (n, 0) :=
  readDigits_natDigits _ n (Nat.lt_succ_self n)

theorem getNumberLoop_stop (rest acc : List Char) (dp dg : Bool) (hr : delimited rest = true) :
    getNumberLoop rest acc dp dg = (acc, dp, dg, 0) := by
  cases rest with
  | nil => rfl
  | cons c cs =>
    obtain ⟨_, h2, _, _, _, h6, h7⟩ := delimited_cons hr
    unfold getNumberLoop
    have n1 : ¬ (c.isDigit = true) := by simp [h2]
    have n2 : ¬ ((c == '.' && !dp) = true) := by simp [h6]
    have n3 : ¬ ((acc.isEmpty && c == '-') = true) := by simp [h7]
    rw [if_neg n1, if_neg n2, if_neg n3]

theorem getNumberLoop_digits (w : List Char) :
    ∀ (rest acc : List Char) (dp dg : Bool), delimited rest = true →
      (∀ c ∈ w, c.isDigit = true) →
      getNumberLoop (w ++ rest) acc dp dg = (acc ++ w, dp, dg || !w.isEmpty, w.length) := by
  induction w with
  | nil =>
    intro rest acc dp dg hr _
    rw [List.nil_append, getNumberLoop_stop rest acc dp dg hr]
    simp
  | cons c w ih =>
    intro rest acc dp dg hr hw
    have hc := hw c (List.mem_cons_self _ _)
    rw [List.cons_append, getNumberLoop, if_pos hc,
      ih rest (acc ++ [c]) dp true hr (fun x hx => hw x (List.mem_cons_of_mem _ hx))]
    simp

theorem lexNumber_eq (u : List Char) :
    lexNumber u =
      ((numberTokenOf (getNumberLoop u [] false false).1 (getNumberLoop u [] false false).2.2.1).1,
        (getNumberLoop u [] false false).2.2.2,
        (numberTokenOf (getNumberLoop u [] false false).1
          (getNumberLoop u [] false false).2.2.1).2) := by
  unfold lexNumber getNumberToken numberTokenOf
  simp only [Parser.unread, List.drop_zero]
  split_ifs <;> simp [Parser.advance, Parser.error]

theorem readDecimal_printNat (n : Nat) : readDecimal (printNat n) = ⟨(n : Int), 0⟩ := by
  have hne := printNat_ne_nil n
  have hd := printNat_digits n
  have hr := readDigits_printNat n
  generalize printNat n = w at hne hd hr
  cases w with
  | nil => exact absurd rfl hne
  | cons c cs =>
    have hc : c ≠ '-' := by
      rintro rfl
      exact absurd (hd _ (List.mem_cons_self _ _)) (by decide)
    unfold readDecimal
    split
    · rename_i heq
      simp only [List.cons.injEq] at heq
      exact absurd heq.1 hc
    · rw [hr]

theorem readNumber_printNat (n : Nat) : readNumber (printNat n) = roundFloat ⟨(n : Int), 0⟩ := by
  unfold readNumber
  rw [readDecimal_printNat]

theorem lexNumber_printInt (a : Int) (rest : List Char) (hr : delimited rest = true) :
    lexNumber (printInt a ++ rest) =
      (Token.ofNumber (roundFloat ⟨a, 0⟩), (printInt a).length, false) := by
  rw [lexNumber_eq]
  cases a with
  | ofNat n =>
    rw [printInt, getNumberLoop_digits _ rest [] false false hr (printNat_digits n)]
    have hne : (!(printNat n).isEmpty) = true := by
      have := printNat_ne_nil n
      cases h : printNat n with
      | nil => exact absurd h this
      | cons _ _ => rfl
    simp only [List.nil_append, Bool.false_or, hne, numberTokenOf, Bool.not_true,
      Bool.false_eq_true, if_false, readNumber_printNat]
    rfl
  | negSucc n =>
    rw [printInt, List.cons_append, getNumberLoop]
    have n1 : ¬ (('-' : Char).isDigit = true) := by decide
    have n2 : ¬ ((('-' : Char) == '.' && !false) = true) := by decide
    have y3 : ((([] : List Char).isEmpty && ('-' : Char) == '-') = true) := by decide
    rw [if_neg n1, if_neg n2, if_pos y3,
      getNumberLoop_digits _ rest _ false false hr (printNat_digits (n + 1))]
    have hne : (!(printNat (n + 1)).isEmpty) = true := by
      have := printNat_ne_nil (n + 1)
      cases h : printNat (n + 1) with
      | nil => exact absurd h this
      | cons _ _ => rfl
    simp only [List.nil_append, Bool.false_or, hne, numberTokenOf, Bool.not_true,
      Bool.false_eq_true, if_false, List.singleton_append, List.length_cons]
    have hrd : readNumber ('-' :: printNat (n + 1)) = roundFloat ⟨Int.negSucc n, 0⟩ := by
      show roundFloat (Decimal.mk (-((readDigits (printNat (n + 1)) 0 0 false).1 : Int))
        (readDigits (printNat (n + 1)) 0 0 false).2) = _
      rw [readDigits_printNat]
      rfl
    rw [hrd]

theorem natDigits_head (fuel : Nat) :
    ∀ n, ∃ d t, d < 10 ∧ natDigits (fuel + 1) n = digitChar d :: t := by
  induction fuel with
  | zero =>
    intro n
    unfold natDigits
    split_ifs with h
    · exact ⟨n, [], h, rfl⟩
    · exact ⟨n % 10, [], Nat.mod_lt _ (by decide), rfl⟩
  | succ f ih =>
    intro n
    rw [natDigits]
    split_ifs with h
    · exact ⟨n, [], h, rfl⟩
    · obtain ⟨d, t, hd, e⟩ := ih (n / 10)
      rw [e]
      exact ⟨d, t ++ [digitChar (n % 10)], hd, rfl⟩

theorem dispatch_digit {α : Type} (d : Nat) (h : d < 10) (a1 a2 a3 a4 a5 a6 a7 a8 a9 : α) :
    dispatch (digitChar d) a1 a2 a3 a4 a5 a6 a7 a8 a9 = a8 := by
  interval_cases d <;> rfl

theorem dispatch_minus {α : Type} (a1 a2 a3 a4 a5 a6 a7 a8 a9 : α) :
    dispatch '-' a1 a2 a3 a4 a5 a6 a7 a8 a9 = a8 := rfl

theorem lexHead_printInt (a : Int) (rest : List Char) :
    ∃ c cs, printInt a ++ rest = c :: cs ∧ c ≠ ' ' ∧ lexHead c (c :: cs) = lexNumber (c :: cs) := by
  cases a with
  | ofNat n =>
    obtain ⟨d, t, hd, e⟩ := natDigits_head n n
    refine ⟨digitChar d, t ++ rest, ?_, ?_, ?_⟩
    · show printNat n ++ rest = _
      unfold printNat
      rw [e]; rfl
    · intro hc
      have := (digitChar_spec d hd).1
      rw [hc] at this
      exact absurd this (by decide)
    · unfold lexHead
      rw [dispatch_digit d hd]
  | negSucc n =>
    exact ⟨'-', printNat (n + 1) ++ rest, rfl, by decide, rfl⟩

theorem lex_printInt (a : Int) (rest : List Char) (hr : delimited rest = true) :
    lex (printInt a ++ rest) =
      (Token.ofNumber (roundFloat ⟨a, 0⟩), (printInt a).length, false) := by
  obtain ⟨c, cs, e, hc, hh⟩ := lexHead_printInt a rest
  have hl := lexNumber_printInt a rest hr
  rw [e] at hl ⊢
  rw [lex_unfold, skipSpaces_cons_ne c cs hc, List.drop_zero]
  show (_, _, _) = (_, _, _)
  rw [hh, hl]
  simp

/-! ## The rounding to single precision -/

theorem bitLength_lt : ∀ (fuel n : Nat), n ≤ fuel → n < 2 ^ bitLength fuel n := by
  intro fuel
  induction fuel with
  | zero =>
    intro n h
    have e : n = 0 := Nat.le_zero.mp h
    rw [e]
    exact Nat.pow_pos (by decide)
  | succ f ih =>
    intro n h
    unfold bitLength
    split_ifs with h0
    · rw [h0]; exact Nat.pow_pos (by decide)
    · have h1 := ih (n / 2) (by omega)
      rw [pow_succ]
      omega

theorem bitLength_zero (fuel : Nat) : bitLength fuel 0 = 0 := by
  cases fuel with
  | zero => rfl
  | succ f => rfl

theorem bitLength_le : ∀ (fuel n : Nat), n ≤ fuel → n ≠ 0 → 2 ^ (bitLength fuel n - 1) ≤ n := by
  intro fuel
  induction fuel with
  | zero => intro n h hn; omega
  | succ f ih =>
    intro n h hn
    unfold bitLength
    rw [if_neg hn, Nat.add_sub_cancel]
    by_cases h2 : n / 2 = 0
    · rw [h2, bitLength_zero, pow_zero]
      omega
    · have h1 := ih (n / 2) (by omega) h2
      have h3 : 0 < bitLength f (n / 2) := by
        cases f with
        | zero => omega
        | succ g => unfold bitLength; rw [if_neg h2]; omega
      have e : bitLength f (n / 2) = (bitLength f (n / 2) - 1) + 1 := by omega
      rw [e, pow_succ]
      omega

theorem bitLength_pos (n : Nat) (hn : n ≠ 0) : 0 < bitLength n n := by
  cases n with
  | zero => exact absurd rfl hn
  | succ m => unfold bitLength; rw [if_neg hn]; omega

/-- The exponent of a natural number that is not zero. -/
theorem floatExponent_one (n : Nat) (hn : n ≠ 0) :
    floatExponent n 1 = min 253 (bitLength n n + 125) := by
  have hb := bitLength_pos n hn
  have hl := bitLength_le n n (Nat.le_refl n) hn
  have e1 : bitLength 1 1 = 1 := rfl
  unfold floatExponent
  simp only []
  rw [e1]
  have e2 : bitLength n n + 126 - 1 = bitLength n n + 125 := by omega
  have e3 : bitLength n n + 125 - 126 = bitLength n n - 1 := by omega
  have e4 : 126 - (bitLength n n + 125) = 0 := by omega
  rw [e2, e3, e4, pow_zero, mul_one, mul_one, if_pos hl]

/-- The exponent test of `floatExponent`, `2 ^ (j - 126) ≤ n / d`, carries over
to every smaller exponent. -/
theorem exponentTest_anti (n d j i : Nat) (hij : i ≤ j)
    (h : 2 ^ (j - 126) * d ≤ n * 2 ^ (126 - j)) :
    2 ^ (i - 126) * d ≤ n * 2 ^ (126 - i) := by
  have h1 : 2 ^ (i - 126) ≤ 2 ^ (j - 126) := Nat.pow_le_pow_right (by decide) (by omega)
  have h2 : 2 ^ (126 - j) ≤ 2 ^ (126 - i) := Nat.pow_le_pow_right (by decide) (by omega)
  calc 2 ^ (i - 126) * d ≤ 2 ^ (j - 126) * d := Nat.mul_le_mul_right d h1
    _ ≤ n * 2 ^ (126 - j) := h
    _ ≤ n * 2 ^ (126 - i) := Nat.mul_le_mul_left n h2

theorem exponentTest_upper (n d j : Nat) (hd : d ≠ 0)
    (h : 2 ^ (j - 126) * d ≤ n * 2 ^ (126 - j)) :
    j + bitLength d d ≤ bitLength n n + 126 := by
  have hn := bitLength_lt n n (Nat.le_refl n)
  have hl := bitLength_le d d (Nat.le_refl d) hd
  have hb := bitLength_pos d hd
  by_contra hc
  have h1 : 2 ^ (j - 126) * 2 ^ (bitLength d d - 1) ≤ 2 ^ (j - 126) * d :=
    Nat.mul_le_mul_left _ hl
  have h2 : n * 2 ^ (126 - j) < 2 ^ bitLength n n * 2 ^ (126 - j) :=
    Nat.mul_lt_mul_of_pos_right hn (Nat.pow_pos (by decide))
  rw [← pow_add] at h1 h2
  have h3 : 2 ^ (j - 126 + (bitLength d d - 1)) < 2 ^ (bitLength n n + (126 - j)) :=
    Nat.lt_of_le_of_lt (Nat.le_trans h1 h) h2
  have h4 := (Nat.pow_lt_pow_iff_right (by decide : 1 < 2)).mp h3
  omega

theorem exponentTest_lower (n d j : Nat) (hn : n ≠ 0)
    (h : j + bitLength d d + 1 ≤ bitLength n n + 126) :
    2 ^ (j - 126) * d ≤ n * 2 ^ (126 - j) := by
  have hd := bitLength_lt d d (Nat.le_refl d)
  have hl := bitLength_le n n (Nat.le_refl n) hn
  have hb := bitLength_pos n hn
  have h1 : 2 ^ (j - 126) * d ≤ 2 ^ (j - 126) * 2 ^ bitLength d d :=
    Nat.mul_le_mul_left _ (Nat.le_of_lt hd)
  have h2 : 2 ^ (bitLength n n - 1) * 2 ^ (126 - j) ≤ n * 2 ^ (126 - j) :=
    Nat.mul_le_mul_right _ hl
  rw [← pow_add] at h1 h2
  have h3 : 2 ^ (j - 126 + bitLength d d) ≤ 2 ^ (bitLength n n - 1 + (126 - j)) :=
    Nat.pow_le_pow_right (by decide) (by omega)
  exact Nat.le_trans h1 (Nat.le_trans h3 h2)

/-- The exponent that `floatExponent` computes is the largest `k` up to `253`
with `2 ^ (k - 126) ≤ n / d`, and `0` when there is none. -/
theorem floatExponent_spec (n d : Nat) (hn : n ≠ 0) (hd : d ≠ 0) :
    floatExponent n d ≤ 253 ∧
    (floatExponent n d = 0 ∨
      2 ^ (floatExponent n d - 126) * d ≤ n * 2 ^ (126 - floatExponent n d)) ∧
    (∀ j, j ≤ 253 → 2 ^ (j - 126) * d ≤ n * 2 ^ (126 - j) → j ≤ floatExponent n d) := by
  unfold floatExponent
  simp only []
  generalize hk : bitLength n n + 126 - bitLength d d = k
  refine ⟨Nat.min_le_left _ _, ?_, ?_⟩
  · split_ifs with hc
    · right
      exact exponentTest_anti n d k _ (Nat.min_le_right _ _) hc
    · by_cases h0 : k - 1 = 0
      · left
        rw [h0]
        rfl
      · right
        have h1 := exponentTest_lower n d (k - 1) hn (by omega)
        exact exponentTest_anti n d (k - 1) _ (Nat.min_le_right _ _) h1
  · intro j hj hc
    have h1 := exponentTest_upper n d j hd hc
    have h2 : j ≤ k := by omega
    split_ifs with hck
    · exact Nat.le_min.mpr ⟨hj, h2⟩
    · have h3 : j ≠ k := by
        rintro rfl
        exact hck hc
      exact Nat.le_min.mpr ⟨hj, by omega⟩

/-- The rounded quotient is within half a unit of the quotient, and even when
it is exactly half a unit away. -/
theorem roundDiv_near (a b : Nat) (hb : 0 < b) :
    2 * (roundDiv a b * b) ≤ 2 * a + b ∧ 2 * a ≤ 2 * (roundDiv a b * b) + b ∧
      ((2 * (roundDiv a b * b) = 2 * a + b ∨ 2 * a = 2 * (roundDiv a b * b) + b) →
        roundDiv a b % 2 = 0) := by
  have h1 := Nat.div_add_mod a b
  have h2 := Nat.mod_lt a hb
  have h3 : (a / b + 1) * b = b * (a / b) + b := by ring
  have h4 : a / b * b = b * (a / b) := Nat.mul_comm _ _
  unfold roundDiv
  split_ifs with c1 c2 c3
  · rw [h4]
    refine ⟨by omega, by omega, ?_⟩
    intro h; omega
  · rw [h3]
    refine ⟨by omega, by omega, ?_⟩
    intro h; omega
  · rw [h4]
    refine ⟨by omega, by omega, ?_⟩
    intro _
    simpa using c3
  · rw [h3]
    refine ⟨by omega, by omega, ?_⟩
    intro _
    have : a / b % 2 ≠ 0 := by simpa using c3
    omega

/-- The decimal that `dyadic` returns has the value `n / 2 ^ s`. -/
theorem dyadic_value : ∀ (s n : Nat),
    (dyadic n s).mant * 2 ^ s = (n : Int) * 10 ^ (dyadic n s).scale := by
  intro s
  induction s with
  | zero => intro n; simp [dyadic]
  | succ s ih =>
    intro n
    unfold dyadic
    split_ifs with h
    · have h2 : n % 2 = 0 := by simpa using h
      have e : (n : Int) = ((n / 2 : Nat) : Int) * 2 := by omega
      rw [pow_succ, ← mul_assoc, ih (n / 2)]
      rw [e]
      ring
    · simp only [Nat.cast_mul, Nat.cast_pow, Nat.cast_ofNat]
      have : (10 : Int) ^ (s + 1) = 2 ^ (s + 1) * 5 ^ (s + 1) := by
        rw [← mul_pow]; norm_num
      rw [this]; ring

set_option maxRecDepth 8192 in
/-- Values of the rounding: `0.1`, two ties (to the even neighbour below and
above), a number with an exact binary fraction, a number just below `1`, the
largest `int`, a number below half the least positive `float`, a number that
rounds to the least positive `float`, `2 ^ (-149)`, and a number beyond the
largest `float`. -/
theorem roundFloat_values :
    roundFloat ⟨1, 1⟩ = ⟨100000001490116119384765625, 27⟩ ∧
    roundFloat ⟨16777217, 0⟩ = ⟨16777216, 0⟩ ∧
    roundFloat ⟨16777219, 0⟩ = ⟨16777220, 0⟩ ∧
    roundFloat ⟨-625, 3⟩ = ⟨-625, 3⟩ ∧
    roundFloat ⟨99999999, 8⟩ = ⟨1, 0⟩ ∧
    roundFloat ⟨2147483647, 0⟩ = ⟨2147483648, 0⟩ ∧
    roundFloat ⟨7, 46⟩ = ⟨0, 0⟩ ∧
    roundFloat ⟨14, 46⟩ = ⟨((5 ^ 149 : Nat) : Int), 149⟩ ∧
    roundFloat ⟨1000000000000000000000000000000000000000, 0⟩ =
      ⟨340282346638528859811704183484516925440, 0⟩ := by
  decide

theorem roundDiv_one (a : Nat) : roundDiv a 1 = a := by
  simp [roundDiv, Nat.mod_one]

theorem roundDiv_of_dvd (a b : Nat) (hb : 0 < b) (h : a % b = 0) : roundDiv a b = a / b := by
  unfold roundDiv
  rw [h, if_pos (by omega)]

theorem dyadic_shift (n : Nat) : ∀ s, dyadic (n * 2 ^ s) s = ⟨(n : Int), 0⟩ := by
  intro s
  induction s with
  | zero => simp [dyadic]
  | succ s ih =>
    have e : n * 2 ^ (s + 1) = 2 * (n * 2 ^ s) := by ring
    rw [dyadic, e, if_pos (by simp), Nat.mul_div_cancel_left _ (by decide : 0 < 2)]
    exact ih

/-- A natural number below `2 ^ 24` is its own rounding. -/
theorem roundFloatNat_small (n : Nat) (h : n < 16777216) :
    roundFloatNat n 1 = ⟨(n : Int), 0⟩ := by
  unfold roundFloatNat
  by_cases hn : n = 0
  · rw [if_pos hn, hn]; rfl
  · rw [if_neg hn]
    have hl := bitLength_le n n (Nat.le_refl n) hn
    have hb : bitLength n n ≤ 24 := by
      by_contra hc
      have h3 : 2 ^ 24 ≤ 2 ^ (bitLength n n - 1) :=
        Nat.pow_le_pow_right (by decide) (by omega)
      omega
    have hk : floatExponent n 1 ≤ 149 := by
      rw [floatExponent_one n hn]
      omega
    simp only []
    rw [if_pos hk, roundDiv_one, dyadic_shift]

/-- A natural number `m * 2 ^ e` with `m < 2 ^ 24` and `e ≤ 104` is its own
rounding. -/
theorem roundFloatNat_exact (n e : Nat) (he : e ≤ 104) (hd : n % 2 ^ e = 0)
    (hq : n / 2 ^ e < 2 ^ 24) : roundFloatNat n 1 = ⟨(n : Int), 0⟩ := by
  rcases Nat.lt_or_ge n 16777216 with hlt | hge
  · exact roundFloatNat_small n hlt
  · have hn0 : n ≠ 0 := by omega
    have hpe : 0 < 2 ^ e := Nat.pow_pos (by decide)
    have hn : n < 2 ^ (24 + e) := by
      rw [pow_add]
      exact (Nat.div_lt_iff_lt_mul hpe).mp hq
    have hl := bitLength_le n n (Nat.le_refl n) hn0
    have hu := bitLength_lt n n (Nat.le_refl n)
    have hb : 25 ≤ bitLength n n := by
      by_contra hc
      have h3 : 2 ^ bitLength n n ≤ 2 ^ 24 :=
        Nat.pow_le_pow_right (by decide) (by omega)
      omega
    have hk150 : 150 ≤ floatExponent n 1 := by
      rw [floatExponent_one n hn0]
      omega
    have hk253 : floatExponent n 1 ≤ 253 := by
      rw [floatExponent_one n hn0]
      omega
    have hspec : 2 ^ (floatExponent n 1 - 126) ≤ n := by
      rw [floatExponent_one n hn0]
      exact Nat.le_trans (Nat.pow_le_pow_right (by decide) (by omega)) hl
    unfold roundFloatNat
    rw [if_neg hn0]
    simp only []
    generalize floatExponent n 1 = k at hk150 hk253 hspec
    have hk : ¬ (k ≤ 149) := by omega
    rw [if_neg hk, one_mul]
    have hlt : k - 126 < 24 + e :=
      (Nat.pow_lt_pow_iff_right (by decide : 1 < 2)).mp (Nat.lt_of_le_of_lt hspec hn)
    have hte : k - 149 ≤ e := by omega
    have hdvd : 2 ^ (k - 149) ∣ n :=
      Nat.dvd_trans (Nat.pow_dvd_pow 2 hte) (Nat.dvd_of_mod_eq_zero hd)
    have hpt : 0 < 2 ^ (k - 149) := Nat.pow_pos (by decide)
    rw [roundDiv_of_dvd n _ hpt (Nat.mod_eq_zero_of_dvd hdvd)]
    have hover : ¬ (2 ^ 24 ≤ n / 2 ^ (k - 149) ∧ k = 253) := by
      rintro ⟨h1, h2⟩
      have h3 : n < 2 ^ 128 :=
        Nat.lt_of_lt_of_le hn (Nat.pow_le_pow_right (by decide) (by omega))
      rw [h2] at h1
      have h4 : n / 2 ^ (253 - 149) < 2 ^ 24 := by
        rw [Nat.div_lt_iff_lt_mul (Nat.pow_pos (by decide))]
        exact h3
      omega
    rw [if_neg hover, Nat.div_mul_cancel hdvd]

/-- An integer of single precision is read back as itself. -/
theorem roundFloat_exact (a : Int) (h : exactSingle a = true) :
    roundFloat ⟨a, 0⟩ = ⟨a, 0⟩ := by
  unfold exactSingle at h
  rw [List.any_eq_true] at h
  obtain ⟨e, he, h2⟩ := h
  rw [List.mem_range] at he
  rw [Bool.and_eq_true, beq_iff_eq, decide_eq_true_eq] at h2
  have key := roundFloatNat_exact a.natAbs e (by omega) h2.1 h2.2
  unfold roundFloat
  simp only [pow_zero]
  rw [key]
  split_ifs with hn
  · show Decimal.mk (-(a.natAbs : Int)) 0 = _
    congr 1
    omega
  · congr 1
    omega

/-- Every integer of magnitude at most `2 ^ 24` is of single precision. -/
theorem exactSingle_of_small (a : Int) (h : a.natAbs ≤ 16777216) : exactSingle a = true := by
  unfold exactSingle
  rw [List.any_eq_true]
  rcases Nat.lt_or_ge a.natAbs 16777216 with hlt | hge
  · refine ⟨0, by simp, ?_⟩
    simp only [pow_zero, Nat.mod_one, Nat.div_one, beq_self_eq_true, Bool.true_and,
      decide_eq_true_eq]
    exact hlt
  · have e : a.natAbs = 16777216 := by omega
    exact ⟨1, by simp, by rw [e]; decide⟩

theorem lex_printNat (n : Nat) (rest : List Char) (hr : delimited rest = true) :
    lex (printNat n ++ rest) =
      (Token.ofNumber (roundFloat ⟨(n : Int), 0⟩), (printNat n).length, false) :=
  lex_printInt (Int.ofNat n) rest hr

theorem lex_printNat_exact (n : Nat) (rest : List Char) (hr : delimited rest = true)
    (hn : exactSingle (n : Int) = true) :
    lex (printNat n ++ rest) = (Token.ofNumber ⟨(n : Int), 0⟩, (printNat n).length, false) := by
  rw [lex_printNat n rest hr, roundFloat_exact _ hn]

/-- The cast of a number token to a column id: an integer from `0` to
`2 ^ 31 - 1` is the column id exactly when the number equals it. -/
theorem column_cast (x : Decimal) (n : Int) (h0 : 0 ≤ n) :
    (x.isInt = true ∧ x.toInt = n) ↔ (n < 2147483648 ∧ x.mant = n * 10 ^ x.scale) := by
  have hp : (0 : Int) < 10 ^ x.scale := by positivity
  unfold Decimal.isInt Decimal.toInt
  simp only [beq_iff_eq]
  constructor
  · rintro ⟨h1, h2⟩
    rw [h2] at h1
    refine ⟨?_, h1.symm⟩
    split_ifs at h2 with hr
    · omega
    · omega
  · rintro ⟨h1, h2⟩
    have ht : Int.tdiv x.mant (10 ^ x.scale) = n := by
      rw [h2]; exact Int.mul_tdiv_cancel _ (ne_of_gt hp)
    rw [ht, if_pos ⟨by omega, h1⟩]
    exact ⟨h2.symm, rfl⟩
/-! ## The value-match rule on printed text -/

theorem tok_step (p : Parser) (w rest : List Char) (t : Token)
    (hu : p.unread = w ++ rest) (hl : lex (w ++ rest) = (t, w.length, false)) :
    ∃ q, getNextToken p = (t, q) ∧ q.unread = rest ∧ q = p.step w.length false := by
  obtain ⟨h1, h2⟩ := getNextToken_prefix p w rest t hu hl
  exact ⟨_, h1, h2, rfl⟩

theorem lex_space_of (w rest : List Char) (t : Token)
    (hl : lex (w ++ rest) = (t, w.length, false)) :
    lex ((' ' :: w) ++ rest) = (t, (' ' :: w).length, false) := by
  rw [List.cons_append, lex_space, hl]; rfl

theorem columnIdOf_number (d : Data) (t : Token) (h : t.mType = Type_Number) :
    columnIdOf d t = if t.mNumber.isInt then t.mNumber.toInt else -1 := by
  unfold columnIdOf
  rw [h]
  rfl

theorem columnIdOf_string (d : Data) (t : Token) (h : t.mType = Type_String) :
    columnIdOf d t = d.getId t.mString := by
  unfold columnIdOf
  rw [h]
  rfl

theorem columnIdOf_nat (d : Data) (c : Nat) (hr : c < 2147483648) :
    columnIdOf d (Token.ofNumber ⟨(c : Int), 0⟩) = (c : Int) := by
  have h0 : (0 : Int) ≤ (c : Int) := Int.ofNat_nonneg c
  have h1 : (c : Int) < 2147483648 := by omega
  have h2 : (Decimal.mk (c : Int) 0).mant = (c : Int) * 10 ^ (Decimal.mk (c : Int) 0).scale := by
    show (c : Int) = (c : Int) * 10 ^ 0
    rw [pow_zero, mul_one]
  have h := (column_cast ⟨(c : Int), 0⟩ (c : Int) h0).mpr ⟨h1, h2⟩
  rw [columnIdOf_number d _ rfl]
  show (if (Decimal.mk (c : Int) 0).isInt = true then (Decimal.mk (c : Int) 0).toInt else -1) = _
  rw [if_pos h.1, h.2]

theorem lex_lowerChar (lc : Bool) (l : List Char) :
    ∃ t, lex (lowerChar lc :: l) = (t, 1, false) ∧
      (t.mType != Type_OpenSquare && (t.mType != Type_CloseSquare && t.mType != Type_Open)) = false ∧
      t.mType ≠ Type_Number ∧
      (if t.mType == Type_OpenSquare then ValueType.Type_Closed else ValueType.Type_Open) =
        boundType lc := by
  cases lc
  · exact ⟨_, lex_open l, rfl, by decide, rfl⟩
  · exact ⟨_, lex_openSquare l, rfl, by decide, rfl⟩

theorem lex_upperChar (uc : Bool) (l : List Char) :
    ∃ t, lex (upperChar uc :: l) = (t, 1, false) ∧
      (t.mType != Type_CloseSquare && (t.mType != Type_OpenSquare && t.mType != Type_Close)) = false ∧
      (if t.mType == Type_CloseSquare then ValueType.Type_Closed else ValueType.Type_Open) =
        boundType uc := by
  cases uc
  · exact ⟨_, lex_close l, rfl, rfl⟩
  · exact ⟨_, lex_closeSquare l, rfl, rfl⟩

theorem parseInterval_printed (p : Parser) (a b : Int) (uc : Bool) (t : Token) (lt : ValueType)
    (rest : List Char)
    (ht : (t.mType != Type_OpenSquare && (t.mType != Type_CloseSquare && t.mType != Type_Open)) = false)
    (hlt : (if t.mType == Type_OpenSquare then ValueType.Type_Closed else ValueType.Type_Open) = lt)
    (hu : p.unread = printInt a ++ (',' :: ' ' :: (printInt b ++ (upperChar uc :: rest)))) :
    ∃ q, parseInterval t p = (some (lt, boundType uc, roundFloat ⟨a, 0⟩, roundFloat ⟨b, 0⟩), q) ∧
      q.unread = rest ∧
      q = p.step ((printInt a).length + 1 + ((printInt b).length + 1) + 1) false := by
  unfold parseInterval
  have c0 : ¬ ((t.mType != Type_OpenSquare && (t.mType != Type_CloseSquare && t.mType != Type_Open)) = true) := by
    rw [ht]; decide
  rw [if_neg c0]
  obtain ⟨q1, e1, u1, s1⟩ := tok_step p _ _ _ hu (lex_printInt a _ rfl)
  rw [e1]
  dsimp only
  have c1 : ∀ x : Decimal, ¬ (((Token.ofNumber x).mType != Type_Number) = true) :=
    fun x => by simp [Token.ofNumber]
  rw [if_neg (c1 _)]
  obtain ⟨q2, e2, u2, s2⟩ := tok_step q1 [','] _ _ u1 (lex_comma _)
  rw [e2]
  dsimp only
  have c2 : ¬ (((Token.ofType Type_Comma).mType != Type_Comma) = true) := by decide
  rw [if_neg c2]
  have hd : delimited (upperChar uc :: rest) = true := by cases uc <;> rfl
  obtain ⟨q3, e3, u3, s3⟩ := tok_step q2 (' ' :: printInt b) _ _ u2
    (lex_space_of _ _ _ (lex_printInt b _ hd))
  rw [e3]
  dsimp only
  rw [if_neg (c1 _)]
  obtain ⟨tu, hl, hc, hut⟩ := lex_upperChar uc rest
  obtain ⟨q4, e4, u4, s4⟩ := tok_step q3 [upperChar uc] _ _ u3 hl
  rw [e4]
  dsimp only
  have c4 : ¬ ((tu.mType != Type_CloseSquare && (tu.mType != Type_OpenSquare && tu.mType != Type_Close)) = true) := by
    rw [hc]; decide
  rw [if_neg c4, hlt, hut]
  refine ⟨q4, rfl, u4, ?_⟩
  rw [s4, s3, s2, s1]
  simp only [step_step, List.length_cons, List.length_nil, Bool.or_false]

theorem parseValue_single (d : Data) (p : Parser) (c : Nat) (a : Int) (rest : List Char)
    (hc : exactSingle (c : Int) = true) (hr : c < 2147483648)
    (hu : p.unread = '(' :: (printNat c ++ (',' :: ' ' :: (printInt a ++ (')' :: rest))))) :
    ∃ q, parseValue d p = (some (ValueNode c ValueType.Type_Closed ValueType.Type_Closed
        (roundFloat ⟨a, 0⟩) (roundFloat ⟨a, 0⟩)), q) ∧ q.unread = rest ∧
      ∃ n, q = p.step n false := by
  unfold parseValue
  obtain ⟨q1, e1, u1, s1⟩ := tok_step p ['('] _ _ hu (lex_open _)
  rw [e1]
  dsimp only
  have c1 : ¬ (((Token.ofType Type_Open).mType != Type_Open) = true) := by decide
  rw [if_neg c1]
  obtain ⟨q2, e2, u2, s2⟩ := tok_step q1 _ _ _ u1 (lex_printNat_exact c _ rfl hc)
  rw [e2]
  dsimp only
  have c2 : ∀ x : Decimal, ¬ ((!(Token.ofNumber x).toBool) = true) :=
    fun x => by simp [Token.ofNumber, Token.toBool]
  have c3 : ¬ ((c : Int) < 0) := by omega
  rw [if_neg (c2 _), columnIdOf_nat d c hr, if_neg c3]
  obtain ⟨q3, e3, u3, s3⟩ := tok_step q2 [','] _ _ u2 (lex_comma _)
  rw [e3]
  dsimp only
  have c4 : ¬ (((Token.ofType Type_Comma).mType != Type_Comma) = true) := by decide
  rw [if_neg c4]
  obtain ⟨q4, e4, u4, s4⟩ := tok_step q3 (' ' :: printInt a) _ _ u3
    (lex_space_of _ _ _ (lex_printInt a _ rfl))
  rw [e4]
  dsimp only
  have c5 : ∀ x : Decimal, ((Token.ofNumber x).mType == Type_Number) = true :=
    fun x => by simp [Token.ofNumber]
  rw [if_pos (c5 _)]
  dsimp only
  obtain ⟨q5, e5, u5, s5⟩ := tok_step q4 [')'] _ _ u4 (lex_close _)
  rw [e5]
  dsimp only
  have c6 : ¬ (((Token.ofType Type_Close).mType != Type_Close) = true) := by decide
  rw [if_neg c6]
  refine ⟨q5, rfl, u5, ?_⟩
  rw [s5, s4, s3, s2, s1]
  simp only [step_step, Bool.or_false]
  exact ⟨_, rfl⟩

theorem parseValue_interval (d : Data) (p : Parser) (c : Nat) (lc uc : Bool) (a b : Int)
    (rest : List Char)
    (hc : exactSingle (c : Int) = true) (hr : c < 2147483648)
    (hu : p.unread = '(' :: (printNat c ++ (',' :: ' ' :: (lowerChar lc :: (printInt a ++
      (',' :: ' ' :: (printInt b ++ (upperChar uc :: ')' :: rest)))))))) :
    ∃ q, parseValue d p = (some (ValueNode c (boundType lc) (boundType uc)
        (roundFloat ⟨a, 0⟩) (roundFloat ⟨b, 0⟩)), q) ∧
      q.unread = rest ∧ ∃ n, q = p.step n false := by
  unfold parseValue
  obtain ⟨q1, e1, u1, s1⟩ := tok_step p ['('] _ _ hu (lex_open _)
  rw [e1]
  dsimp only
  have c1 : ¬ (((Token.ofType Type_Open).mType != Type_Open) = true) := by decide
  rw [if_neg c1]
  obtain ⟨q2, e2, u2, s2⟩ := tok_step q1 _ _ _ u1 (lex_printNat_exact c _ rfl hc)
  rw [e2]
  dsimp only
  have c2 : ∀ x : Decimal, ¬ ((!(Token.ofNumber x).toBool) = true) :=
    fun x => by simp [Token.ofNumber, Token.toBool]
  have c3 : ¬ ((c : Int) < 0) := by omega
  rw [if_neg (c2 _), columnIdOf_nat d c hr, if_neg c3]
  obtain ⟨q3, e3, u3, s3⟩ := tok_step q2 [','] _ _ u2 (lex_comma _)
  rw [e3]
  dsimp only
  have c4 : ¬ (((Token.ofType Type_Comma).mType != Type_Comma) = true) := by decide
  rw [if_neg c4]
  obtain ⟨tl, hl, hc, hn, hlt⟩ := lex_lowerChar lc (printInt a ++
      (',' :: ' ' :: (printInt b ++ (upperChar uc :: ')' :: rest))))
  obtain ⟨q4, e4, u4, s4⟩ := tok_step q3 [' ', lowerChar lc] _ _ u3
    (lex_space_of [lowerChar lc] _ _ hl)
  rw [e4]
  dsimp only
  have c5 : ¬ ((tl.mType == Type_Number) = true) := by simpa using hn
  rw [if_neg c5]
  obtain ⟨q5, e5, u5, s5⟩ := parseInterval_printed q4 a b uc tl (boundType lc) (')' :: rest)
    hc hlt u4
  rw [e5]
  dsimp only
  obtain ⟨q6, e6, u6, s6⟩ := tok_step q5 [')'] _ _ u5 (lex_close _)
  rw [e6]
  dsimp only
  have c6 : ¬ (((Token.ofType Type_Close).mType != Type_Close) = true) := by decide
  rw [if_neg c6]
  refine ⟨q6, rfl, u6, ?_⟩
  rw [s6, s5, s4, s3, s2, s1]
  simp only [step_step, Bool.or_false]
  exact ⟨_, rfl⟩

/-- The result of `parseImp` when its first token is a valid token other than
the one-shot marker. -/
theorem parseImp_of_token (d : Data) (fuel : Nat) (a b : Bool) (p q : Parser) (t : Token)
    (h : getNextToken p = (t, q)) (h1 : t.toBool = true) (h2 : t.mType ≠ Type_OneShot) :
    parseImp d (fuel + 1) a b p = parseSwitch d fuel a t q := by
  rw [parseImp, h]
  dsimp only
  have c2 : ¬ (t.eq (Token.ofType Type_OneShot) = true) := by
    rw [Token.eq_oneShot]; exact h2
  rw [if_pos h1, if_neg c2]
  dsimp only
  rw [if_pos h1]
  rfl

theorem step_error_false (p : Parser) (n : Nat) (h : p.mError = false) :
    (p.step n false).mError = false := by
  simp [Parser.step, h]

/-- From a successful run of `parseImp` on the whole text to the outcome of
`parse`, when the token after the expression is not an invalid one. -/
theorem parse_of_parseImp (d : Data) (p : Parser) (text : List Char) (f : Nat)
    (v : Option Node) (q : Parser)
    (h : parseImp d f true true (Parser.start text) = some (v, q))
    (he : q.mError = false) (hn : (getNextToken q).1.toBool = true) :
    outcome (parse d p text false) = some (true, false, some (v.getD (BooleanNode true))) := by
  unfold parse
  rw [parseDepth_unfold_false]
  obtain ⟨r, hr⟩ := parseImp_total d (parseBudget text) true true (Parser.start text)
    (parseBudget_start text)
  have e1 := parseImp_mono d (Nat.le_max_left f (parseBudget text)) _ _ _ _ h
  have e2 := parseImp_mono d (Nat.le_max_right f (parseBudget text)) _ _ _ _ hr
  rw [e1] at e2
  simp only [Option.some.injEq] at e2
  rw [hr, ← e2]
  simp only [Option.map_some', outcome, parseFinish]
  have c1 : ¬ (q.mError = true) := by rw [he]; decide
  have c2 : ¬ ((getNextToken q).1.ne (Token.ofType Type_EOS) = true) := by
    rw [Token.ne_eos, hn]; decide
  have hm := getNextToken_mError q
  rw [he, hn] at hm
  rw [if_neg c1, if_neg c2]
  cases v with
  | none => simp [hm]
  | some n => simp [hm]

/-- From a run of `parseImp` on the whole text that ends with the error flag set
to the failure of `parse`. -/
theorem parse_fails_of_parseImp (d : Data) (p : Parser) (text : List Char) (f : Nat)
    (v : Option Node) (q : Parser)
    (h : parseImp d f true true (Parser.start text) = some (v, q))
    (he : q.mError = true) :
    ∃ q2, parse d p text false = some (false, q2) ∧ q2.mError = true := by
  unfold parse
  rw [parseDepth_unfold_false]
  obtain ⟨r, hr⟩ := parseImp_total d (parseBudget text) true true (Parser.start text)
    (parseBudget_start text)
  have e1 := parseImp_mono d (Nat.le_max_left f (parseBudget text)) _ _ _ _ h
  have e2 := parseImp_mono d (Nat.le_max_right f (parseBudget text)) _ _ _ _ hr
  rw [e1] at e2
  simp only [Option.some.injEq] at e2
  rw [hr, ← e2]
  simp only [Option.map_some', parseFinish]
  rw [if_pos he]
  exact ⟨q, rfl, he⟩

theorem getNextToken_end (q : Parser) (h : q.unread = []) :
    (getNextToken q).1.toBool = true := by
  rw [getNextToken_eq, h]; rfl

/-! ## The n-ary loop on operands that parse in context -/

theorem parseNAry_mono (d : Data) {f1 f2 : Nat} (hf : f1 ≤ f2) (k : Token) (p : Parser)
    (r : Option Node × Parser) (h : parseNAry d f1 k p = some r) :
    parseNAry d f2 k p = some r := by
  induction hf with
  | refl => exact h
  | step _ ih => exact (parseImp_mono_aux d _).2.1 _ _ _ ih

theorem parseNAryLoop_mono (d : Data) {f1 f2 : Nat} (hf : f1 ≤ f2) (ns : List (Option Node))
    (p : Parser) (r : Option (List (Option Node)) × Parser)
    (h : parseNAryLoop d f1 ns p = some r) : parseNAryLoop d f2 ns p = some r := by
  induction hf with
  | refl => exact h
  | step _ ih => exact (parseImp_mono_aux d _).2.2 _ _ _ ih

theorem lex_spaces_of (k : Nat) (w rest : List Char) (t : Token)
    (hl : lex (w ++ rest) = (t, w.length, false)) :
    lex ((List.replicate k ' ' ++ w) ++ rest) = (t, (List.replicate k ' ' ++ w).length, false) := by
  induction k with
  | zero => simpa using hl
  | succ k ih =>
    rw [List.replicate_succ, List.cons_append, List.cons_append, lex_space, ih]
    simp

/-- Reading a token whose text `w` comes after `k` spaces. -/
theorem tok_lead (p : Parser) (k : Nat) (w rest : List Char) (t : Token)
    (hu : p.unread = List.replicate k ' ' ++ (w ++ rest))
    (hl : lex (w ++ rest) = (t, w.length, false)) :
    ∃ q, getNextToken p = (t, q) ∧ q.unread = rest ∧ q.mError = p.mError := by
  obtain ⟨q, h1, h2, h3⟩ := tok_step p (List.replicate k ' ' ++ w) rest t
    (by rw [hu, List.append_assoc]) (lex_spaces_of k w rest t hl)
  refine ⟨q, h1, h2, ?_⟩
  rw [h3]; simp [Parser.step]

theorem loop_ctx (d : Data) (es : List (List Char)) :
    ∀ (ts acc : List (Option Node)) (p : Parser) (k : Nat) (rest : List Char),
      es ≠ [] → List.Forall₂ (CtxParses d) es ts →
      p.unread = List.replicate k ' ' ++ (joinTexts es ++ (')' :: rest)) → p.mError = false →
      ∃ f q, parseNAryLoop d f acc p = some (some (acc ++ ts), q) ∧ q.unread = rest ∧
        q.mError = false := by
  induction es with
  | nil => intro ts acc p k rest hne; exact absurd rfl hne
  | cons e es ih =>
    intro ts acc p k rest _ hall hu he
    cases hall with
    | cons h1 hrest =>
      rename_i t ts'
      cases es with
      | nil =>
        cases hrest
        obtain ⟨f, q, j, hq, uq, eq⟩ := h1 p k (')' :: rest) hu he rfl
        obtain ⟨q2, e2, u2, m2⟩ := tok_lead q j [')'] rest _ uq (lex_close _)
        refine ⟨f + 1, q2, ?_, u2, ?_⟩
        · rw [parseNAryLoop, hq]
          dsimp only
          have c1 : ¬ (q.mError = true) := by rw [eq]; decide
          rw [if_neg c1, e2]
          rfl
        · rw [m2, eq]
      | cons e2 es2 =>
        have hu' : p.unread = List.replicate k ' ' ++ (e ++ (',' :: ' ' :: (joinTexts (e2 :: es2) ++
            (')' :: rest)))) := by
          rw [hu]; simp [joinTexts]
        obtain ⟨f, q, j, hq, uq, eq⟩ := h1 p k _ hu' he rfl
        obtain ⟨q2, e2', u2, m2⟩ := tok_lead q j [','] _ _ uq (lex_comma _)
        have eq2 : q2.mError = false := by rw [m2, eq]
        obtain ⟨f3, q3, h3, u3, e3⟩ := ih ts' (acc ++ [t]) q2 1 rest (by simp) hrest u2 eq2
        refine ⟨max f f3 + 1, q3, ?_, u3, e3⟩
        rw [parseNAryLoop, parseImp_mono d (Nat.le_max_left f f3) _ _ _ _ hq]
        dsimp only
        have c1 : ¬ (q.mError = true) := by rw [eq]; decide
        rw [if_neg c1, e2']
        have c2 : ¬ ((!(Token.ofType Type_Comma).toBool ||
            ((Token.ofType Type_Comma).mType != Type_Close &&
              (Token.ofType Type_Comma).mType != Type_Comma)) = true) := by decide
        have c3 : ¬ (((Token.ofType Type_Comma).mType == Type_Close) = true) := by decide
        dsimp only
        rw [if_neg c2, if_neg c3, parseNAryLoop_mono d (Nat.le_max_right f f3) _ _ _ h3]
        simp

/-- The function `parseNAry` on `(e1, ..., en)` for a keyword token `kw` of type
and or or. -/
theorem nary_ctx (d : Data) (kw : Token) (es : List (List Char)) (ts : List (Option Node))
    (p : Parser) (rest : List Char) (hne : es ≠ []) (hall : List.Forall₂ (CtxParses d) es ts)
    (hu : p.unread = '(' :: (joinTexts es ++ (')' :: rest))) (he : p.mError = false)
    (hk : kw.mType = Type_Keyword_And ∨ kw.mType = Type_Keyword_Or) :
    ∃ f q, parseNAry d f kw p =
        some (some (if kw.mType = Type_Keyword_And then AndNode ts else OrNode ts), q) ∧
      q.unread = rest ∧ q.mError = false := by
  obtain ⟨q1, e1, u1, m1⟩ := tok_lead p 0 ['('] _ _ hu (lex_open _)
  have eq1 : q1.mError = false := by rw [m1, he]
  obtain ⟨f, q, hq, uq, eq⟩ := loop_ctx d es ts [] q1 0 rest hne hall u1 eq1
  have hts : ts ≠ [] := by
    intro h
    rw [h] at hall
    cases hall
    exact hne rfl
  refine ⟨f + 1, q, ?_, uq, eq⟩
  rw [parseNAry, e1]
  dsimp only
  have c1 : ¬ (((Token.ofType Type_Open).mType != Type_Open) = true) := by decide
  rw [if_neg c1, hq]
  dsimp only
  have c2 : ¬ (([] ++ ts).isEmpty = true) := by
    cases ts with
    | nil => exact absurd rfl hts
    | cons _ _ => simp
  rw [if_neg c2]
  rcases hk with hk | hk
  · rw [hk]; simp
  · rw [hk]; simp

/-! ## Reading a token is not affected by what follows a delimiter -/

theorem skipSpaces_append (l rest : List Char) (h : l.drop (skipSpaces l) ≠ []) :
    skipSpaces (l ++ rest) = skipSpaces l := by
  induction l with
  | nil => exact absurd rfl h
  | cons c cs ih =>
    rw [List.cons_append]
    unfold skipSpaces
    by_cases hc : (c != ' ') = true
    · rw [if_pos hc, if_pos hc]
    · rw [if_neg hc, if_neg hc, ih]
      have e : skipSpaces (c :: cs) = skipSpaces cs + 1 := by
        rw [skipSpaces, if_neg hc]
      rw [e, List.drop_succ_cons] at h
      exact h

theorem getNumberLoop_ext (u rest : List Char) (hr : delimited rest = true) :
    ∀ acc dp dg, getNumberLoop (u ++ rest) acc dp dg = getNumberLoop u acc dp dg := by
  induction u with
  | nil =>
    intro acc dp dg
    rw [List.nil_append, getNumberLoop_stop rest acc dp dg hr]
    rfl
  | cons c cs ih =>
    intro acc dp dg
    rw [List.cons_append]
    unfold getNumberLoop
    by_cases c1 : c.isDigit = true
    · rw [if_pos c1, if_pos c1, ih]
    rw [if_neg c1, if_neg c1]
    by_cases c2 : (c == '.' && !dp) = true
    · rw [if_pos c2, if_pos c2, ih]
    rw [if_neg c2, if_neg c2]
    by_cases c3 : (acc.isEmpty && c == '-') = true
    · rw [if_pos c3, if_pos c3, ih]
    rw [if_neg c3, if_neg c3]

theorem lexNumber_ext (u rest : List Char) (hr : delimited rest = true) :
    lexNumber (u ++ rest) = lexNumber u := by
  rw [lexNumber_eq, lexNumber_eq u, getNumberLoop_ext u rest hr]

/-- A scanned string that starts with a quote and has no quote after its first
character is an unterminated quotation. -/
theorem stringTokenOf_open (acc : List Char) (h1 : acc.head? = some quote)
    (h2 : quote ∉ acc.tail) : (stringTokenOf acc).2 = true := by
  cases acc with
  | nil => simp at h1
  | cons a as =>
    simp only [List.head?_cons, Option.some.injEq] at h1
    subst h1
    simp only [List.tail_cons] at h2
    unfold stringTokenOf
    have c0 : (!(quote :: as).isEmpty) = true := rfl
    have c1 : ((quote :: as).head? == some quote &&
        ((quote :: as).getLast? != some quote || decide ((quote :: as).length < 2))) = true := by
      rcases List.eq_nil_or_concat as with h | ⟨l, b, h⟩
      · subst h; rfl
      · subst h
        rw [List.concat_eq_append] at h2 ⊢
        have hb : b ≠ quote := by
          intro e; apply h2; rw [e]; simp
        have e2 : (quote :: (l ++ [b])).getLast? = some b := by
          rw [← List.cons_append, List.getLast?_append]; simp
        rw [e2]
        simp [hb]
    rw [if_pos c0, if_pos c1]

theorem getStringLoop_ext (u rest : List Char) (hr : delimited rest = true) :
    ∀ acc, quote ∉ acc.tail → (stringTokenOf (getStringLoop u acc).1).2 = false →
      getStringLoop (u ++ rest) acc = getStringLoop u acc := by
  induction u with
  | nil =>
    intro acc hinv hok
    rw [List.nil_append]
    apply getStringLoop_stop rest acc hr
    intro hq
    have := stringTokenOf_open acc hq hinv
    have e : getStringLoop [] acc = (acc, 0) := rfl
    rw [e] at hok
    rw [this] at hok
    exact absurd hok (by decide)
  | cons c cs ih =>
    intro acc hinv hok
    rw [List.cons_append]
    unfold getStringLoop at hok ⊢
    by_cases c1 : (c.isAlpha || c == ':' || c == '_' || (!acc.isEmpty && c.isDigit) || c == quote ||
        (!acc.isEmpty && acc.head? == some quote)) = true
    · simp only [if_pos c1] at hok ⊢
      by_cases c2 : (c == quote && decide ((acc ++ [c]).length > 1)) = true
      · simp only [if_pos c2]
      · simp only [if_neg c2] at hok ⊢
        have hinv2 : quote ∉ (acc ++ [c]).tail := by
          cases acc with
          | nil => simp
          | cons a as =>
            simp only [List.cons_append, List.tail_cons, List.mem_append, List.mem_singleton,
              not_or]
            refine ⟨hinv, ?_⟩
            intro e
            apply c2
            rw [← e]
            simp
        rw [ih (acc ++ [c]) hinv2 hok]
    · simp only [if_neg c1]

theorem lexString_ext (u rest : List Char) (hr : delimited rest = true)
    (h : (lexString u).1.mType ≠ Type_None) : lexString (u ++ rest) = lexString u := by
  have he := lexString_err u
  have hb : (lexString u).1.toBool = true := by
    simpa [Token.toBool] using h
  rw [hb] at he
  rw [lexString_eq] at he
  rw [lexString_eq, lexString_eq u, getStringLoop_ext u rest hr [] (by simp) he]

theorem lexHead_ext (c : Char) (cs rest : List Char) (hr : delimited rest = true)
    (h : (lexHead c (c :: cs)).1.mType ≠ Type_None) :
    lexHead c (c :: (cs ++ rest)) = lexHead c (c :: cs) := by
  have key : (lexHead c (c :: cs)).1.mType ≠ Type_None →
      lexHead c (c :: (cs ++ rest)) = lexHead c (c :: cs) := by
    unfold lexHead
    apply dispatch_rel (fun (a b : Token × Nat × Bool) => a.1.mType ≠ Type_None → b = a) c
    · intro _ _; rfl
    · intro _ _; rfl
    · intro _ _; rfl
    · intro _ _; rfl
    · intro _ _; rfl
    · intro _ _; rfl
    · intro _ hx
      exact lexString_ext (c :: cs) rest hr hx
    · intro _ _
      exact lexNumber_ext (c :: cs) rest hr
    · intro _; rfl
  exact key h

/-- A token other than end-of-stream or an invalid one is read in the same way
when a text that starts with a delimiter is appended to the input. -/
theorem lex_ext (l rest : List Char) (hr : delimited rest = true)
    (h1 : (lex l).1.mType ≠ Type_EOS) (h2 : (lex l).1.mType ≠ Type_None) :
    lex (l ++ rest) = lex l := by
  rw [lex_unfold l] at h1 h2
  rw [lex_unfold, lex_unfold l]
  cases hd : l.drop (skipSpaces l) with
  | nil =>
    rw [hd] at h1
    exact absurd rfl h1
  | cons c cs =>
    rw [hd] at h2
    have hs : skipSpaces (l ++ rest) = skipSpaces l := by
      apply skipSpaces_append; rw [hd]; simp
    rw [hs, List.drop_append_of_le_length (skipSpaces_le l), hd]
    dsimp only [List.cons_append]
    rw [lexHead_ext c cs rest hr h2]

theorem lex_replicate (k : Nat) (l : List Char) :
    lex (List.replicate k ' ' ++ l) = ((lex l).1, k + (lex l).2.1, (lex l).2.2) := by
  induction k with
  | zero => simp
  | succ k ih =>
    rw [List.replicate_succ, List.cons_append, lex_space, ih]
    simp only [Prod.mk.injEq, true_and, and_true]
    omega

/-! ## Sub-expressions in operand position -/

theorem ext_sim (rest : List Char) (hr : delimited rest = true) : Sim (Ext rest) False where
  tok := by
    rintro s p ⟨⟨k, hu⟩, he⟩
    by_cases h1 : (lex s.unread).1.mType = Type_EOS
    · right
      rw [getNextToken_eq]
      exact ⟨not_false, Or.inl h1⟩
    by_cases h2 : (lex s.unread).1.mType = Type_None
    · right
      rw [getNextToken_eq]
      exact ⟨not_false, Or.inr h2⟩
    left
    have hl : lex p.unread =
        ((lex s.unread).1, k + (lex s.unread).2.1, (lex s.unread).2.2) := by
      rw [hu, lex_replicate, lex_ext _ _ hr h1 h2]
    rw [getNextToken_eq s, getNextToken_eq p, hl]
    refine ⟨rfl, ⟨0, ?_⟩, ?_⟩
    · show (p.step _ _).unread = _ ++ ((s.step _ _).unread ++ rest)
      rw [unread_step, unread_step, hu, List.replicate_zero, List.nil_append,
        List.drop_append_eq_append_drop, List.length_replicate]
      have e1 : List.drop (k + (lex s.unread).2.1) (List.replicate k ' ') = [] := by
        apply List.drop_eq_nil_of_le; simp
      rw [e1, List.nil_append, Nat.add_sub_cancel_left,
        List.drop_append_of_le_length (lex_len_le _)]
    · show (s.mError || _) = (p.mError || _)
      rw [he]
  err := by
    rintro s p ⟨h1, _⟩
    exact ⟨h1, rfl⟩
  flag := by
    rintro s p ⟨_, h2⟩
    exact h2

theorem unread_of_index (q : Parser) (h : q.mIndex = q.mInput.length) : q.unread = [] := by
  simp [Parser.unread, h]

/-- A text that parses on its own parses in the same way in every operand
position. -/
theorem ctx_of_sub (d : Data) (e : List Char) (t : Node) (h : SubParses d e t) :
    CtxParses d e (some t) := by
  obtain ⟨f, q, hq, hi, he⟩ := h
  intro p k rest hu hp hr
  have hR : Ext rest (Parser.start e) p := ⟨⟨k, hu⟩, hp.symm⟩
  have hin : q.mInput = e := (parseImp_frame d f false false _ _ hq).2.1
  have hq0 : q.unread = [] := unread_of_index q (by rw [hi, hin])
  rcases (parseImp_sim_aux (ext_sim rest hr) d f).1 false false false _ p hR (Or.inr rfl) with
    ⟨e1, _⟩ | ⟨v, s, r, e1, e2, ⟨j, hj⟩, hs⟩ | ⟨_, v, s, e1, hs⟩
  · rw [hq] at e1; exact absurd e1 (by simp)
  · rw [hq] at e1
    simp only [Option.some.injEq, Prod.mk.injEq] at e1
    obtain ⟨ev, es⟩ := e1
    subst ev es
    refine ⟨f, r, j, e2, ?_, ?_⟩
    · rw [hj, hq0, List.nil_append]
    · rw [← hs, he]
  · rw [hq] at e1
    simp only [Option.some.injEq, Prod.mk.injEq] at e1
    rw [← e1.2, he] at hs
    exact absurd hs (by decide)

/-- The outcome of a failed `parse`: false, error flag set, no tree. -/
theorem parse_fails_outcome (d : Data) (p : Parser) (text : List Char) (f : Nat)
    (v : Option Node) (q : Parser)
    (h : parseImp d f true true (Parser.start text) = some (v, q))
    (he : q.mError = true) : outcome (parse d p text false) = some (false, true, none) := by
  have hf : q.mFilter = none := (parseImp_frame d f true true _ _ h).1
  unfold parse
  rw [parseDepth_unfold_false]
  obtain ⟨r, hr⟩ := parseImp_total d (parseBudget text) true true (Parser.start text)
    (parseBudget_start text)
  have e1 := parseImp_mono d (Nat.le_max_left f (parseBudget text)) _ _ _ _ h
  have e2 := parseImp_mono d (Nat.le_max_right f (parseBudget text)) _ _ _ _ hr
  rw [e1] at e2
  simp only [Option.some.injEq] at e2
  rw [hr, ← e2]
  simp only [Option.map_some', parseFinish, outcome]
  rw [if_pos he]
  simp [he, hf]

/-! ## The keywords `and`, `or` and `not` and their operands -/

theorem lex_keyword (isAnd : Bool) (rest : List Char) (hr : delimited rest = true) :
    lex (keywordText isAnd ++ rest) = (keywordToken isAnd, (keywordText isAnd).length, false) := by
  cases isAnd
  · exact lex_or rest hr
  · exact lex_and rest hr

/-- The function `parseImp` on a text that starts with the keyword `and` or `or`
continues with `parseNAry` after the keyword. -/
theorem parseImp_keyword (d : Data) (a b isAnd : Bool) (p : Parser) (k : Nat) (rest : List Char)
    (hu : p.unread = List.replicate k ' ' ++ (keywordText isAnd ++ rest))
    (hr : delimited rest = true) :
    ∃ q, (∀ f, parseImp d (f + 1) a b p = parseNAry d f (keywordToken isAnd) q) ∧
      q.unread = rest ∧ q.mError = p.mError := by
  obtain ⟨q, e1, u1, m1⟩ := tok_lead p k (keywordText isAnd) rest _ hu (lex_keyword isAnd rest hr)
  refine ⟨q, ?_, u1, m1⟩
  intro f
  rw [parseImp_of_token d f a b p q _ e1 (by cases isAnd <;> rfl) (by cases isAnd <;> decide)]
  cases isAnd <;> rfl

/-- When the operand read by the loop of `parseNAry` starts with `)`, the loop
is left with the error flag set. -/
theorem loop_fail_close (d : Data) (f k : Nat) (acc : List (Option Node)) (p : Parser)
    (rest : List Char) (hu : p.unread = List.replicate k ' ' ++ (')' :: rest)) :
    ∃ q, parseNAryLoop d (f + 2) acc p = some (none, q) ∧ q.mError = true := by
  obtain ⟨q, e1, _, _⟩ := tok_lead p k [')'] rest _ hu (lex_close _)
  refine ⟨q.error, ?_, rfl⟩
  rw [parseNAryLoop, parseImp_of_token d f false false p q _ e1 rfl (by decide)]
  rfl

theorem nary_fail (d : Data) (kw : Token) (p : Parser) (rest : List Char)
    (hu : p.unread = '(' :: rest)
    (h : ∀ q1, q1.unread = rest → q1.mError = p.mError →
      ∃ f q, parseNAryLoop d f [] q1 = some (none, q) ∧ q.mError = true) :
    ∃ f q, parseNAry d (f + 1) kw p = some (none, q) ∧ q.mError = true := by
  obtain ⟨q1, e1, u1, m1⟩ := tok_lead p 0 ['('] rest _ hu (lex_open _)
  obtain ⟨f, q, hq, he⟩ := h q1 u1 m1
  refine ⟨f, q, ?_, he⟩
  rw [parseNAry, e1]
  dsimp only
  have c1 : ¬ (((Token.ofType Type_Open).mType != Type_Open) = true) := by decide
  rw [if_neg c1, hq]

/-- After an operand and a comma, a `)` in the place of the next operand makes
the loop of `parseNAry` fail. -/
theorem loop_fail_comma (d : Data) (e : List Char) (t : Option Node) (h : CtxParses d e t)
    (acc : List (Option Node)) (p : Parser) (rest : List Char)
    (hu : p.unread = e ++ (',' :: ')' :: rest)) (he : p.mError = false) :
    ∃ f q, parseNAryLoop d f acc p = some (none, q) ∧ q.mError = true := by
  obtain ⟨f, q, j, hq, uq, eq⟩ := h p 0 (',' :: ')' :: rest) hu he rfl
  obtain ⟨q2, e2, u2, m2⟩ := tok_lead q j [','] _ _ uq (lex_comma _)
  obtain ⟨q3, h3, e3⟩ := loop_fail_close d f 0 (acc ++ [t]) q2 rest u2
  refine ⟨f + 2 + 1, q3, ?_, e3⟩
  rw [parseNAryLoop, parseImp_mono d (Nat.le_add_right f 2) _ _ _ _ hq]
  dsimp only
  have c1 : ¬ (q.mError = true) := by rw [eq]; decide
  rw [if_neg c1, e2]
  have c2 : ¬ ((!(Token.ofType Type_Comma).toBool ||
      ((Token.ofType Type_Comma).mType != Type_Close &&
        (Token.ofType Type_Comma).mType != Type_Comma)) = true) := by decide
  have c3 : ¬ (((Token.ofType Type_Comma).mType == Type_Close) = true) := by decide
  dsimp only
  rw [if_neg c2, if_neg c3, h3]

/-- The keyword `and` or `or` followed by a token other than `(`. -/
theorem parseImp_nary_not_open (d : Data) (f : Nat) (a b : Bool) (p q1 : Parser) (t1 : Token)
    (h : getNextToken p = (t1, q1))
    (hk : t1.mType = Type_Keyword_And ∨ t1.mType = Type_Keyword_Or)
    (hn : (getNextToken q1).1.mType ≠ Type_Open) :
    parseImp d (f + 2) a b p = some (none, (getNextToken q1).2.error) := by
  have hb : t1.toBool = true := by
    rcases hk with hk | hk <;> simp [Token.toBool, hk]
  have ho : t1.mType ≠ Type_OneShot := by
    rcases hk with hk | hk <;> rw [hk] <;> decide
  rw [parseImp_of_token d (f + 1) a b p q1 t1 h hb ho]
  have e : parseSwitch d (f + 1) a t1 q1 = parseNAry d (f + 1) t1 q1 := by
    unfold parseSwitch
    rcases hk with hk | hk <;> rw [hk]
  have c1 : ((getNextToken q1).1.mType != Type_Open) = true := by simpa using hn
  rw [e, parseNAry]
  exact if_pos c1

/-- The keyword `not` followed by end-of-stream, by `)` or by `(`. -/
theorem parseImp_not_fail (d : Data) (f : Nat) (a b : Bool) (p q1 : Parser) (t1 : Token)
    (h : getNextToken p = (t1, q1)) (hk : t1.mType = Type_Keyword_Not)
    (hn : (getNextToken q1).1.mType = Type_EOS ∨ (getNextToken q1).1.mType = Type_Close ∨
      (getNextToken q1).1.mType = Type_Open) :
    parseImp d (f + 2) a b p = some (none, (getNextToken q1).2.error) := by
  have hb : t1.toBool = true := by simp [Token.toBool, hk]
  have ho : t1.mType ≠ Type_OneShot := by rw [hk]; decide
  rw [parseImp_of_token d (f + 1) a b p q1 t1 h hb ho]
  have hb2 : (getNextToken q1).1.toBool = true := by
    rcases hn with hn | hn | hn <;> simp [Token.toBool, hn]
  have ho2 : (getNextToken q1).1.mType ≠ Type_OneShot := by
    rcases hn with hn | hn | hn <;> rw [hn] <;> decide
  have e2 : parseImp d (f + 1) false false q1 = some (none, (getNextToken q1).2.error) := by
    rw [parseImp_of_token d f false false q1 (getNextToken q1).2 (getNextToken q1).1 rfl hb2 ho2]
    unfold parseSwitch
    rcases hn with hn | hn | hn <;> (rw [hn]; try rfl)
  unfold parseSwitch
  rw [hk]
  dsimp only
  rw [e2]
  rfl

theorem ctx_of_subs (d : Data) (es : List (List Char)) (ts : List Node)
    (h : List.Forall₂ (SubParses d) es ts) : List.Forall₂ (CtxParses d) es (ts.map some) := by
  rw [List.forall₂_map_right_iff]
  exact h.imp (fun e t he => ctx_of_sub d e t he)

theorem start_unread (text : List Char) : (Parser.start text).unread = text := rfl

/-! ## The text-match rule on printed text -/

theorem getStringLoop_quoted (rest : List Char) (s : List Char) :
    ∀ acc : List Char, quote ∉ s → acc.head? = some quote →
      getStringLoop (s ++ quote :: rest) acc = (acc ++ (s ++ [quote]), s.length + 1) := by
  induction s with
  | nil =>
    intro acc _ ha
    have hne : acc ≠ [] := by
      intro e; rw [e] at ha; exact absurd ha (by simp)
    rw [List.nil_append]
    unfold getStringLoop
    have c1 : (quote.isAlpha || quote == ':' || quote == '_' || (!acc.isEmpty && quote.isDigit) ||
        quote == quote || (!acc.isEmpty && acc.head? == some quote)) = true := by simp
    have c2 : (quote == quote && decide ((acc ++ [quote]).length > 1)) = true := by
      cases acc with
      | nil => exact absurd rfl hne
      | cons a as => simp
    rw [if_pos c1, if_pos c2]
    rfl
  | cons c s ih =>
    intro acc hs ha
    have hne : acc ≠ [] := by
      intro e; rw [e] at ha; exact absurd ha (by simp)
    have hc : c ≠ quote := fun e => hs (by rw [e]; simp)
    have hs2 : quote ∉ s := fun e => hs (List.mem_cons_of_mem _ e)
    rw [List.cons_append]
    unfold getStringLoop
    have c1 : (c.isAlpha || c == ':' || c == '_' || (!acc.isEmpty && c.isDigit) ||
        c == quote || (!acc.isEmpty && acc.head? == some quote)) = true := by
      cases acc with
      | nil => exact absurd rfl hne
      | cons a as => simp [ha]
    have c2 : ¬ ((c == quote && decide ((acc ++ [c]).length > 1)) = true) := by simp [hc]
    have ha2 : (acc ++ [c]).head? = some quote := by
      cases acc with
      | nil => exact absurd rfl hne
      | cons a as => simpa using ha
    rw [if_pos c1, if_neg c2, ih (acc ++ [c]) hs2 ha2]
    simp

theorem stringTokenOf_quoted (s : List Char) :
    stringTokenOf (quote :: (s ++ [quote])) = (Token.ofString s, false) := by
  unfold stringTokenOf
  have e1 : (quote :: (s ++ [quote])).getLast? = some quote := by
    rw [← List.cons_append, List.getLast?_append]; simp
  have e2 : (quote :: (s ++ [quote])).head? = some quote := rfl
  have c0 : (!(quote :: (s ++ [quote])).isEmpty) = true := rfl
  rw [if_pos c0, e1, e2]
  have c1 : ¬ ((some quote == some quote &&
      (some quote != some quote || decide ((quote :: (s ++ [quote])).length < 2))) = true) := by
    simp
  have c2 : ¬ ((some quote != some quote && some quote == some quote) = true) := by simp
  have c3 : (some quote == some quote) = true := by simp
  rw [if_neg c1, if_neg c2, if_pos c3]
  simp

theorem dispatch_quote {α : Type} (a1 a2 a3 a4 a5 a6 a7 a8 a9 : α) :
    dispatch quote a1 a2 a3 a4 a5 a6 a7 a8 a9 = a7 := rfl

/-- A quoted string without an inner quote is read as the string token of its
content, whatever follows the closing quote. -/
theorem lex_quoted (s rest : List Char) (hs : quote ∉ s) :
    lex ((quote :: (s ++ [quote])) ++ rest) =
      (Token.ofString s, (quote :: (s ++ [quote])).length, false) := by
  have e : (quote :: (s ++ [quote])) ++ rest = quote :: (s ++ quote :: rest) := by simp
  rw [e, lex_unfold, skipSpaces_cons_ne quote _ (by decide), List.drop_zero]
  show (_, _, _) = (_, _, _)
  rw [lexHead, dispatch_quote, lexString_eq]
  have hl : getStringLoop (quote :: (s ++ quote :: rest)) [] =
      (quote :: (s ++ [quote]), s.length + 1 + 1) := by
    rw [getStringLoop]
    have c1 : (quote.isAlpha || quote == ':' || quote == '_' ||
        (!([] : List Char).isEmpty && quote.isDigit) || quote == quote ||
        (!([] : List Char).isEmpty && ([] : List Char).head? == some quote)) = true := by decide
    have c2 : ¬ ((quote == quote && decide ((([] : List Char) ++ [quote]).length > 1)) = true) := by
      decide
    rw [if_pos c1, if_neg c2, getStringLoop_quoted rest s ([] ++ [quote]) hs (by simp)]
    rfl
  rw [hl, stringTokenOf_quoted]
  simp

theorem parseText_printed (d : Data) (p : Parser) (c : Nat) (s rest : List Char)
    (hs : quote ∉ s) (hc : exactSingle (c : Int) = true) (hr : c < 2147483648)
    (hu : p.unread = '(' :: (printNat c ++ (',' :: ' ' :: ((quote :: (s ++ [quote])) ++
      (')' :: rest))))) :
    ∃ q, parseText d p = (some (TextNode c s), q) ∧ q.unread = rest ∧ q.mError = p.mError := by
  unfold parseText
  obtain ⟨q1, e1, u1, m1⟩ := tok_lead p 0 ['('] _ _ hu (lex_open _)
  rw [e1]
  dsimp only
  have c1 : ¬ (((Token.ofType Type_Open).mType != Type_Open) = true) := by decide
  rw [if_neg c1]
  obtain ⟨q2, e2, u2, m2⟩ := tok_lead q1 0 _ _ _ u1 (lex_printNat_exact c _ rfl hc)
  rw [e2]
  dsimp only
  have c2 : ∀ x : Decimal, ¬ ((!(Token.ofNumber x).toBool) = true) :=
    fun x => by simp [Token.ofNumber, Token.toBool]
  have c3 : ¬ ((c : Int) < 0) := by omega
  rw [if_neg (c2 _), columnIdOf_nat d c hr, if_neg c3]
  obtain ⟨q3, e3, u3, m3⟩ := tok_lead q2 0 [','] _ _ u2 (lex_comma _)
  rw [e3]
  dsimp only
  have c4 : ¬ (((Token.ofType Type_Comma).mType != Type_Comma) = true) := by decide
  rw [if_neg c4]
  obtain ⟨q4, e4, u4, m4⟩ := tok_lead q3 1 (quote :: (s ++ [quote])) (')' :: rest) _ u3
    (lex_quoted s _ hs)
  rw [e4]
  dsimp only
  have c5 : ¬ (((Token.ofString s).mType != Type_String) = true) := by
    simp [Token.ofString]
  rw [if_neg c5]
  obtain ⟨q5, e5, u5, m5⟩ := tok_lead q4 0 [')'] _ _ u4 (lex_close _)
  rw [e5]
  dsimp only
  have c6 : ¬ (((Token.ofType Type_Close).mType != Type_Close) = true) := by decide
  rw [if_neg c6]
  refine ⟨q5, rfl, u5, ?_⟩
  rw [m5, m4, m3, m2, m1]

/-! ## Parsing a printed tree -/

theorem ParsesAs.ctx {d : Data} {e : List Char} {t : Option Node} (h : ParsesAs d e t) :
    CtxParses d e t := by
  intro p k rest hu he hr
  obtain ⟨f, q, hq, uq, eq⟩ := h false false p k rest hu he hr
  exact ⟨f, q, 0, hq, uq, eq⟩

theorem parsesAs_bool (d : Data) (v : Bool) :
    ParsesAs d (printNode (BooleanNode v)) (some (BooleanNode v)) := by
  intro a b p k rest hu he hr
  cases v
  · obtain ⟨q, e1, u1, m1⟩ := tok_lead p k "false".toList rest _ hu (lex_false rest hr)
    exact ⟨1, q, parseImp_of_token d 0 a b p q _ e1 rfl (by decide), u1, m1.trans he⟩
  · obtain ⟨q, e1, u1, m1⟩ := tok_lead p k "true".toList rest _ hu (lex_true rest hr)
    exact ⟨1, q, parseImp_of_token d 0 a b p q _ e1 rfl (by decide), u1, m1.trans he⟩

theorem parsesAs_nary (d : Data) (isAnd : Bool) (es : List (List Char)) (ts : List (Option Node))
    (hne : es ≠ []) (hall : List.Forall₂ (CtxParses d) es ts) :
    ParsesAs d (naryText isAnd es) (some (naryNode isAnd ts)) := by
  intro a b p k rest hu he hr
  have hu2 : p.unread = List.replicate k ' ' ++ (keywordText isAnd ++
      ('(' :: (joinTexts es ++ (')' :: rest)))) := by
    rw [hu]; simp [naryText]
  obtain ⟨q1, h1, u1, m1⟩ := parseImp_keyword d a b isAnd p k _ hu2 rfl
  obtain ⟨f, q, hq, uq, eq⟩ := nary_ctx d (keywordToken isAnd) es ts q1 rest hne hall u1
    (m1.trans he) (by cases isAnd <;> simp [keywordToken, Token.ofType])
  refine ⟨f + 1, q, ?_, uq, eq⟩
  rw [h1 f, hq]
  cases isAnd <;> rfl

theorem parsesAs_not (d : Data) (e : List Char) (c : Option Node) (h : ParsesAs d e c) :
    ParsesAs d ("not ".toList ++ e) (some (NotNode c)) := by
  intro a b p k rest hu he hr
  have hu2 : p.unread = List.replicate k ' ' ++ ("not".toList ++ (' ' :: (e ++ rest))) := by
    rw [hu]; simp
  obtain ⟨q1, e1, u1, m1⟩ := tok_lead p k "not".toList _ _ hu2 (lex_not _ rfl)
  obtain ⟨f, q, hq, uq, eq⟩ := h false false q1 1 rest u1 (m1.trans he) hr
  refine ⟨f + 1, q, ?_, uq, eq⟩
  rw [parseImp_of_token d f a b p q1 _ e1 rfl (by decide)]
  show (match parseImp d f false false q1 with
    | none => none
    | some s => if s.2.mError then some (none, s.2) else some (some (NotNode s.1), s.2)) = _
  rw [hq]
  dsimp only
  rw [eq]
  rfl

theorem parsesAs_text (d : Data) (c : Nat) (s : List Char) (hs : quote ∉ s)
    (hc : exactSingle (c : Int) = true) (hb : c < 2147483648) :
    ParsesAs d (textMatchText c s) (some (TextNode c s)) := by
  intro a b p k rest hu he hr
  have hu2 : p.unread = List.replicate k ' ' ++ ("string".toList ++
      ('(' :: (printNat c ++ (',' :: ' ' :: ((quote :: (s ++ [quote])) ++ (')' :: rest)))))) := by
    rw [hu]; simp [textMatchText]
  obtain ⟨q1, e1, u1, m1⟩ := tok_lead p k "string".toList _ _ hu2 (lex_string _ rfl)
  obtain ⟨q, hq, uq, eq⟩ := parseText_printed d q1 c s rest hs hc hb u1
  refine ⟨1, q, ?_, uq, ?_⟩
  · rw [parseImp_of_token d 0 a b p q1 _ e1 rfl (by decide)]
    show some (parseText d q1) = _
    rw [hq]
  · rw [eq, m1, he]

theorem parsesAs_value (d : Data) (c : Nat) (lc uc : Bool) (x y : Int)
    (hc : exactSingle (c : Int) = true) (hb : c < 2147483648) :
    ParsesAs d (valueIntervalText c lc uc x y)
      (some (ValueNode c (boundType lc) (boundType uc) (roundFloat ⟨x, 0⟩)
        (roundFloat ⟨y, 0⟩))) := by
  intro a b p k rest hu he hr
  have hu2 : p.unread = List.replicate k ' ' ++ ("value".toList ++
      ('(' :: (printNat c ++ (',' :: ' ' :: (lowerChar lc :: (printInt x ++
        (',' :: ' ' :: (printInt y ++ (upperChar uc :: ')' :: rest))))))))) := by
    rw [hu]; simp [valueIntervalText]
  obtain ⟨q1, e1, u1, m1⟩ := tok_lead p k "value".toList _ _ hu2 (lex_value _ rfl)
  obtain ⟨q, hq, uq, n, sq⟩ := parseValue_interval d q1 c lc uc x y rest hc hb u1
  refine ⟨1, q, ?_, uq, ?_⟩
  · rw [parseImp_of_token d 0 a b p q1 _ e1 rfl (by decide)]
    show some (parseValue d q1) = _
    rw [hq]
  · rw [sq]
    simp [Parser.step, m1, he]

theorem columnOk_spec (c : Int) (h : columnOk c = true) :
    0 ≤ c ∧ c < 2147483648 ∧ exactSingle c = true := by
  unfold columnOk at h
  rw [Bool.and_eq_true, Bool.and_eq_true, decide_eq_true_eq, decide_eq_true_eq] at h
  exact ⟨h.1.1, h.1.2, h.2⟩

theorem boundOk_spec (x : Decimal) (h : boundOk x = true) : roundFloat ⟨x.mant, 0⟩ = x := by
  unfold boundOk at h
  rw [Bool.and_eq_true, beq_iff_eq] at h
  rw [roundFloat_exact _ h.2]
  cases x
  simp only [Decimal.mk.injEq, true_and]
  exact h.1.symm

theorem boundType_isClosed (t : ValueType) : boundType t.isClosed = t := by
  cases t <;> rfl

mutual

theorem parsesAs_print (d : Data) : ∀ t : Node, wellFormed t = true →
    ParsesAs d (printNode t) (some t)
  | BooleanNode v, _ => parsesAs_bool d v
  | AndNode ns, h => by
    rw [wellFormed, Bool.and_eq_true] at h
    rw [printNode]
    refine parsesAs_nary d true (printNodes ns) ns ?_ (parsesAs_printAll d ns h.2)
    cases ns with
    | nil => exact absurd h.1 (by decide)
    | cons n ns => simp [printNodes]
  | OrNode ns, h => by
    rw [wellFormed, Bool.and_eq_true] at h
    rw [printNode]
    refine parsesAs_nary d false (printNodes ns) ns ?_ (parsesAs_printAll d ns h.2)
    cases ns with
    | nil => exact absurd h.1 (by decide)
    | cons n ns => simp [printNodes]
  | NotNode c, h => by
    rw [wellFormed] at h
    rw [printNode]
    exact parsesAs_not d (printOpt c) c (parsesAs_printOpt d c h)
  | TextNode c s, h => by
    rw [wellFormed, Bool.and_eq_true, List.all_eq_true] at h
    obtain ⟨h0, hr, hx⟩ := columnOk_spec c h.1
    rw [printNode]
    have hs : quote ∉ s := by
      intro hm
      have := h.2 quote hm
      simp at this
    have hc : ((c.toNat : Nat) : Int) = c := Int.toNat_of_nonneg h0
    have key := parsesAs_text d c.toNat s hs (by rw [hc]; exact hx) (by omega)
    rw [hc] at key
    exact key
  | ValueNode c lt ut lo up, h => by
    rw [wellFormed, Bool.and_eq_true, Bool.and_eq_true] at h
    obtain ⟨h0, hr, hx⟩ := columnOk_spec c h.1.1
    rw [printNode]
    have hc : ((c.toNat : Nat) : Int) = c := Int.toNat_of_nonneg h0
    have key := parsesAs_value d c.toNat lt.isClosed ut.isClosed lo.mant up.mant
      (by rw [hc]; exact hx) (by omega)
    rw [hc, boundType_isClosed, boundType_isClosed, boundOk_spec lo h.1.2,
      boundOk_spec up h.2] at key
    exact key

theorem parsesAs_printOpt (d : Data) : ∀ c : Option Node, wellFormedOpt c = true →
    ParsesAs d (printOpt c) c
  | none, h => by
    rw [wellFormedOpt] at h
    exact absurd h (by decide)
  | some n, h => by
    rw [wellFormedOpt] at h
    rw [printOpt]
    exact parsesAs_print d n h

theorem parsesAs_printAll (d : Data) : ∀ ns : List (Option Node), wellFormedAll ns = true →
    List.Forall₂ (CtxParses d) (printNodes ns) ns
  | [], _ => by
    rw [printNodes]
    exact List.Forall₂.nil
  | n :: ns, h => by
    rw [wellFormedAll, Bool.and_eq_true] at h
    rw [printNodes]
    exact List.Forall₂.cons (parsesAs_printOpt d n h.1).ctx (parsesAs_printAll d ns h.2)

end

/-! ## Keyword spellings and malformed quotations -/

/-- From the outcome of a successful `parse` to the state it returns. -/
theorem parse_state_of_outcome (d : Data) (p : Parser) (text : List Char) (a : Bool) (t : Node)
    (h : outcome (parse d p text a) = some (true, false, some t)) :
    ∃ q, parse d p text a = some (true, q) ∧ q.mError = false ∧
      getFilter q = Except.ok (some t) := by
  cases hp : parse d p text a with
  | none => rw [hp] at h; exact absurd h (by simp [outcome])
  | some r =>
    rw [hp] at h
    simp only [outcome, Option.map_some', Option.some.injEq, Prod.mk.injEq] at h
    obtain ⟨h1, h2, h3⟩ := h
    refine ⟨r.2, ?_, h2, ?_⟩
    · rw [← h1]
    · unfold getFilter
      rw [h2, h3]
      rfl

theorem lowerCase_of_caseSpelling (w : List Char) :
    ∀ kw : List Char, caseSpelling w kw = true →
      (∀ k ∈ kw, k.toLower = k ∧ k.toUpper.toLower = k) → lowerCase w = kw := by
  induction w with
  | nil =>
    intro kw h _
    cases kw with
    | nil => rfl
    | cons k kw => exact absurd h (by simp [caseSpelling])
  | cons c w ih =>
    intro kw h hk
    cases kw with
    | nil => exact absurd h (by simp [caseSpelling])
    | cons k kw =>
      simp only [caseSpelling, Bool.and_eq_true, Bool.or_eq_true, beq_iff_eq] at h
      have h1 := hk k (List.mem_cons_self _ _)
      have h2 := ih kw h.2 (fun x hx => hk x (List.mem_cons_of_mem _ hx))
      show c.toLower :: lowerCase w = k :: kw
      rw [h2]
      rcases h.1 with e | e
      · rw [e, h1.1]
      · rw [e, h1.2]

theorem identStart_of_caseSpelling (w : List Char) :
    ∀ kw : List Char, caseSpelling w kw = true →
      (∀ k ∈ kw, isIdentStart k = true ∧ isIdentStart k.toUpper = true) →
      ∀ c ∈ w, isIdentStart c = true := by
  induction w with
  | nil => intro _ _ _ c hc; cases hc
  | cons a w ih =>
    intro kw h hk c hc
    cases kw with
    | nil => exact absurd h (by simp [caseSpelling])
    | cons k kw =>
      simp only [caseSpelling, Bool.and_eq_true, Bool.or_eq_true, beq_iff_eq] at h
      have h1 := hk k (List.mem_cons_self _ _)
      rcases List.mem_cons.1 hc with e | hm
      · rcases h.1 with e2 | e2
        · rw [e, e2]; exact h1.1
        · rw [e, e2]; exact h1.2
      · exact ih kw h.2 (fun x hx => hk x (List.mem_cons_of_mem _ hx)) c hm

/-- A case spelling of a keyword is read as that keyword's token. -/
theorem lex_caseSpelling (w kw rest : List Char) (ty : TokenType) (h : caseSpelling w kw = true)
    (hne : kw ≠ [])
    (hk : ∀ k ∈ kw, (k.toLower = k ∧ k.toUpper.toLower = k) ∧
      (isIdentStart k = true ∧ isIdentStart k.toUpper = true))
    (hty : checkKeywordsLoop kw sKeywords 0 = some ty) (hr : delimited rest = true) :
    lex (w ++ rest) = (Token.ofType ty, w.length, false) := by
  have hl := lowerCase_of_caseSpelling w kw h (fun k hx => (hk k hx).1)
  have hw : w ≠ [] := by
    intro e
    rw [e] at hl
    exact hne hl.symm
  rw [lex_word w rest hw hr (identStart_of_caseSpelling w kw h (fun k hx => (hk k hx).2))]
  have e : checkKeywords (Token.ofString w) = Token.ofType ty := by
    unfold checkKeywords
    show (match checkKeywordsLoop (lowerCase w) sKeywords 0 with
      | some type => Token.ofType type
      | none => Token.ofString w) = _
    rw [hl, hty]
  rw [e]

/-- A text whose first token is invalid is rejected by `parse`, with or without
shortcuts. -/
theorem parse_of_invalid_first (d : Data) (p : Parser) (text : List Char) (a : Bool)
    (h : (getNextToken (Parser.start text)).1.mType = Type_None) :
    outcome (parse d p text a) = some (false, true, none) := by
  have hb : (getNextToken (Parser.start text)).1.toBool = false := by
    simp [Token.toBool, h]
  have hm := getNextToken_mError (Parser.start text)
  rw [hb] at hm
  have hf := ((Frame.refl (Parser.start text)).tok).1
  cases a
  · have e : parseImp d 1 true true (Parser.start text) =
        some (none, (getNextToken (Parser.start text)).2) := by
      rw [parseImp]
      dsimp only
      have c : ¬ ((getNextToken (Parser.start text)).1.toBool = true) := by rw [hb]; decide
      rw [if_neg c]
    exact parse_fails_outcome d p text 1 none _ e (by rw [hm]; rfl)
  · unfold parse
    rw [parseDepth_unfold_true]
    dsimp only
    have c1 : ¬ ((getNextToken (Parser.start text)).1.eq (Token.ofType Type_OneShot) = true) := by
      rw [Token.eq_oneShot, h]; decide
    have c2 : ¬ (((getNextToken (Parser.start text)).1.mType == Type_String) = true) := by
      rw [h]; decide
    rw [if_neg c1, if_neg c2]
    show some (false, true, (getNextToken (Parser.start text)).2.mFilter) = _
    rw [hf]
    rfl

/-- Inside a quotation every character other than the quote is accumulated. -/
theorem getStringLoop_inquote (s : List Char) :
    ∀ acc : List Char, acc.head? = some quote → quote ∉ s →
      getStringLoop s acc = (acc ++ s, s.length) := by
  induction s with
  | nil => intro acc _ _; simp [getStringLoop]
  | cons c s ih =>
    intro acc ha hs
    have hne : acc ≠ [] := by
      intro e; rw [e] at ha; exact absurd ha (by simp)
    have hc : c ≠ quote := fun e => hs (by rw [e]; simp)
    have hs2 : quote ∉ s := fun e => hs (List.mem_cons_of_mem _ e)
    unfold getStringLoop
    have c1 : (c.isAlpha || c == ':' || c == '_' || (!acc.isEmpty && c.isDigit) ||
        c == quote || (!acc.isEmpty && acc.head? == some quote)) = true := by
      cases acc with
      | nil => exact absurd rfl hne
      | cons a as => simp [ha]
    have c2 : ¬ ((c == quote && decide ((acc ++ [c]).length > 1)) = true) := by simp [hc]
    have ha2 : (acc ++ [c]).head? = some quote := by
      cases acc with
      | nil => exact absurd rfl hne
      | cons a as => simpa using ha
    rw [if_pos c1, if_neg c2, ih (acc ++ [c]) ha2 hs2]
    simp

theorem stringTokenOf_error (acc : List Char) (h : (stringTokenOf acc).2 = true) :
    stringTokenOf acc = (Token.ofType Type_None, true) := by
  unfold stringTokenOf at h ⊢
  by_cases c0 : (!acc.isEmpty) = true
  · rw [if_pos c0] at h ⊢
    by_cases c1 : (acc.head? == some quote &&
        (acc.getLast? != some quote || decide (acc.length < 2))) = true
    · rw [if_pos c1]
    · rw [if_neg c1] at h ⊢
      by_cases c2 : (acc.head? != some quote && acc.getLast? == some quote) = true
      · rw [if_pos c2]
      · rw [if_neg c2] at h
        by_cases c3 : (acc.head? == some quote) = true
        · rw [if_pos c3] at h; exact absurd h (by simp)
        · rw [if_neg c3] at h; exact absurd h (by simp)
  · rw [if_neg c0] at h; exact absurd h (by simp)

/-- A quotation that is not closed before the end of the input is an invalid
token. -/
theorem lex_unterminated (s : List Char) (hs : quote ∉ s) :
    lex (quote :: s) = (Token.ofType Type_None, s.length + 1, true) := by
  rw [lex_unfold, skipSpaces_cons_ne quote _ (by decide), List.drop_zero]
  show (_, _, _) = (_, _, _)
  rw [lexHead, dispatch_quote, lexString_eq]
  have hl : getStringLoop (quote :: s) [] = (quote :: s, s.length + 1) := by
    rw [getStringLoop]
    have c1 : (quote.isAlpha || quote == ':' || quote == '_' ||
        (!([] : List Char).isEmpty && quote.isDigit) || quote == quote ||
        (!([] : List Char).isEmpty && ([] : List Char).head? == some quote)) = true := by decide
    have c2 : ¬ ((quote == quote && decide ((([] : List Char) ++ [quote]).length > 1)) = true) := by
      decide
    rw [if_pos c1, if_neg c2, getStringLoop_inquote s ([] ++ [quote]) (by simp) hs]
    rfl
  rw [hl, stringTokenOf_error _ (stringTokenOf_open (quote :: s) rfl hs)]
  simp

/-- The scan of an unquoted identifier that is directly followed by a quote
takes the quote into the token. -/
theorem getStringLoop_ident (rest : List Char) (w : List Char) :
    ∀ acc : List Char, acc ≠ [] → acc.head? ≠ some quote →
      (∀ c ∈ w, (isIdentStart c || c.isDigit) = true) →
      getStringLoop (w ++ quote :: rest) acc = (acc ++ (w ++ [quote]), w.length + 1) := by
  induction w with
  | nil =>
    intro acc hne ha _
    rw [List.nil_append]
    unfold getStringLoop
    have c1 : (quote.isAlpha || quote == ':' || quote == '_' || (!acc.isEmpty && quote.isDigit) ||
        quote == quote || (!acc.isEmpty && acc.head? == some quote)) = true := by simp
    have c2 : (quote == quote && decide ((acc ++ [quote]).length > 1)) = true := by
      cases acc with
      | nil => exact absurd rfl hne
      | cons a as => simp
    rw [if_pos c1, if_pos c2]
    rfl
  | cons c w ih =>
    intro acc hne ha hw
    have hc := hw c (List.mem_cons_self _ _)
    have hq : c ≠ quote := by
      intro e
      rw [e] at hc
      exact absurd hc (by decide)
    rw [List.cons_append]
    unfold getStringLoop
    have c1 : (c.isAlpha || c == ':' || c == '_' || (!acc.isEmpty && c.isDigit) ||
        c == quote || (!acc.isEmpty && acc.head? == some quote)) = true := by
      cases acc with
      | nil => exact absurd rfl hne
      | cons a as =>
        simp only [isIdentStart, Bool.or_eq_true] at hc
        simp only [List.isEmpty_cons, Bool.not_false, Bool.true_and, Bool.or_eq_true]
        tauto
    have c2 : ¬ ((c == quote && decide ((acc ++ [c]).length > 1)) = true) := by simp [hq]
    have ha2 : (acc ++ [c]).head? ≠ some quote := by
      cases acc with
      | nil => exact absurd rfl hne
      | cons a as => simpa using ha
    rw [if_pos c1, if_neg c2, ih (acc ++ [c]) (by simp) ha2
      (fun x hx => hw x (List.mem_cons_of_mem _ hx))]
    simp

theorem stringTokenOf_stray (c : Char) (w : List Char) (hc : c ≠ quote) :
    stringTokenOf (c :: (w ++ [quote])) = (Token.ofType Type_None, true) := by
  unfold stringTokenOf
  have e1 : (c :: (w ++ [quote])).getLast? = some quote := by
    rw [← List.cons_append, List.getLast?_append]; simp
  have c0 : (!(c :: (w ++ [quote])).isEmpty) = true := rfl
  have c1 : ¬ (((c :: (w ++ [quote])).head? == some quote &&
      ((c :: (w ++ [quote])).getLast? != some quote ||
        decide ((c :: (w ++ [quote])).length < 2))) = true) := by
    simp [hc]
  have c2 : ((c :: (w ++ [quote])).head? != some quote &&
      (c :: (w ++ [quote])).getLast? == some quote) = true := by
    rw [e1]; simp [hc]
  rw [if_pos c0, if_neg c1, if_pos c2]

/-- An unquoted identifier directly followed by a quote is an invalid token. -/
theorem lex_stray_quote (w rest : List Char) (hw : isIdentifier w = true) :
    lex (w ++ quote :: rest) = (Token.ofType Type_None, w.length + 1, true) := by
  cases w with
  | nil => exact absurd hw (by decide)
  | cons c cs =>
    simp only [isIdentifier, Bool.and_eq_true, List.all_eq_true] at hw
    have hc := hw.1
    have hq : c ≠ quote := identStart_ne hc quote (by decide)
    rw [lex_unfold, List.cons_append,
      skipSpaces_cons_ne c _ (identStart_ne hc ' ' (by decide)), List.drop_zero]
    show (_, _, _) = (_, _, _)
    rw [lexHead, dispatch_identStart c hc, lexString_eq]
    have hl : getStringLoop (c :: (cs ++ quote :: rest)) [] =
        (c :: (cs ++ [quote]), cs.length + 1 + 1) := by
      rw [getStringLoop]
      have c1 : (c.isAlpha || c == ':' || c == '_' ||
          (!([] : List Char).isEmpty && c.isDigit) || c == quote ||
          (!([] : List Char).isEmpty && ([] : List Char).head? == some quote)) = true := by
        simp only [isIdentStart, Bool.or_eq_true] at hc
        simp only [Bool.or_eq_true]
        tauto
      have c2 : ¬ ((c == quote && decide ((([] : List Char) ++ [c]).length > 1)) = true) := by
        simp
      rw [if_pos c1, if_neg c2, getStringLoop_ident rest cs ([] ++ [c]) (by simp)
        (by simpa using hq) hw.2]
      rfl
    rw [hl, stringTokenOf_stray c cs hq]
    simp

theorem getNextToken_of_lex (p : Parser) (t : Token) (n : Nat) (e : Bool)
    (h : lex p.unread = (t, n, e)) : getNextToken p = (t, p.step n e) := by
  rw [getNextToken_eq, h]

/-! ## The number scan and the run of the specification -/

theorem isDigit_digitChar (c : Char) (h : c.isDigit = true) : ∃ d, d < 10 ∧ c = digitChar d := by
  have h1 : 48 ≤ c.toNat ∧ c.toNat ≤ 57 := by
    simp only [Char.isDigit, Bool.and_eq_true, decide_eq_true_eq] at h
    exact ⟨h.1, h.2⟩
  refine ⟨c.toNat - 48, by omega, ?_⟩
  unfold digitChar
  have e : 48 + (c.toNat - 48) = c.toNat := by omega
  rw [e, Char.ofNat_toNat]

theorem dispatch_dot {α : Type} (a1 a2 a3 a4 a5 a6 a7 a8 a9 : α) :
    dispatch '.' a1 a2 a3 a4 a5 a6 a7 a8 a9 = a8 := rfl

/-- The loop of `getNumberToken` consumes exactly the run of the specification. -/
theorem getNumberLoop_run (l : List Char) :
    ∀ (acc : List Char) (dp dg : Bool),
      getNumberLoop l acc dp dg =
        (acc ++ numberRun l acc.isEmpty dp,
          (dp || (numberRun l acc.isEmpty dp).any (fun c => c == '.')),
          (dg || (numberRun l acc.isEmpty dp).any Char.isDigit),
          (numberRun l acc.isEmpty dp).length) := by
  induction l with
  | nil => intro acc dp dg; simp [getNumberLoop, numberRun]
  | cons c cs ih =>
    intro acc dp dg
    have he : (acc ++ [c]).isEmpty = false := by cases acc <;> rfl
    unfold getNumberLoop numberRun
    by_cases c1 : c.isDigit = true
    · have hd : (c == '.') = false := by
        cases hx : (c == '.')
        · rfl
        · rw [beq_iff_eq] at hx; rw [hx] at c1; exact absurd c1 (by decide)
      rw [if_pos c1, if_pos c1, ih, he]
      simp [c1, hd]
    rw [if_neg c1, if_neg c1]
    by_cases c2 : (c == '.' && !dp) = true
    · rw [if_pos c2, if_pos c2, ih, he]
      simp only [Bool.and_eq_true, beq_iff_eq] at c2
      simp [c1, c2.1]
    rw [if_neg c2, if_neg c2]
    by_cases c3 : (acc.isEmpty && c == '-') = true
    · have c3' : (c == '-' && acc.isEmpty) = true := by rw [Bool.and_comm]; exact c3
      have hd : (c == '.') = false := by
        simp only [Bool.and_eq_true, beq_iff_eq] at c3
        rw [c3.2]; rfl
      rw [if_pos c3, if_pos c3', ih, he]
      simp [c1, hd]
    · have c3' : ¬ ((c == '-' && acc.isEmpty) = true) := by rw [Bool.and_comm]; exact c3
      rw [if_neg c3, if_neg c3']
      simp

theorem lexNumber_run (l : List Char) :
    lexNumber l = ((numberRunToken (numberRun l true false)).1, (numberRun l true false).length,
      (numberRunToken (numberRun l true false)).2) := by
  rw [lexNumber_eq, getNumberLoop_run]
  simp only [List.nil_append, List.isEmpty_nil, Bool.false_or]
  unfold numberTokenOf numberRunToken
  cases (numberRun l true false).any Char.isDigit <;> rfl

theorem numberRun_initial (l : List Char) : ∀ a s, numberRun l a s <+: l := by
  induction l with
  | nil => intro a s; exact List.prefix_refl _
  | cons c cs ih =>
    intro a s
    unfold numberRun
    split_ifs
    · exact (List.prefix_cons_inj c).2 (ih _ _)
    · exact (List.prefix_cons_inj c).2 (ih _ _)
    · exact (List.prefix_cons_inj c).2 (ih _ _)
    · exact List.nil_prefix

/-- The number scan seen from `getNextToken`. -/
theorem lex_number_run (c : Char) (cs : List Char) (k : Nat)
    (hc : c.isDigit = true ∨ c = '-' ∨ c = '.') :
    lex (List.replicate k ' ' ++ c :: cs) =
      ((numberRunToken (numberRun (c :: cs) true false)).1,
        k + (numberRun (c :: cs) true false).length,
        (numberRunToken (numberRun (c :: cs) true false)).2) := by
  have hs : c ≠ ' ' := by
    rcases hc with h | h | h
    · intro e; rw [e] at h; exact absurd h (by decide)
    · rw [h]; decide
    · rw [h]; decide
  have hd : lexHead c (c :: cs) = lexNumber (c :: cs) := by
    unfold lexHead
    rcases hc with h | h | h
    · obtain ⟨n, hn, e⟩ := isDigit_digitChar c h
      rw [e, dispatch_digit n hn]
    · rw [h, dispatch_minus]
    · rw [h, dispatch_dot]
  have hl : lex (c :: cs) = lexNumber (c :: cs) := by
    rw [lex_unfold, skipSpaces_cons_ne c cs hs, List.drop_zero]
    show ((lexHead c (c :: cs)).1, 0 + (lexHead c (c :: cs)).2.1, (lexHead c (c :: cs)).2.2) = _
    rw [hd, Nat.zero_add]
  rw [lex_replicate, hl, lexNumber_run]

/-! ## How the text-match and value-match rules end -/

theorem type_eq_of_not_bne {a b : TokenType} (h : ¬ ((a != b) = true)) : a = b := by
  simpa using h

theorem type_eq_of_not_bne3 {a x y z : TokenType}
    (h : ¬ ((a != x && (a != y && a != z)) = true)) : a = x ∨ a = y ∨ a = z := by
  simp only [Bool.and_eq_true, bne_iff_ne, ne_eq, not_and, not_not] at h
  tauto

theorem tokenAt_error (p : Parser) (n : Nat) (h : (tokenAt p n).1.toBool = false) :
    (tokenAt p n).2.mError = true := by
  cases n with
  | zero =>
    have := getNextToken_mError p
    rw [show tokenAt p 0 = getNextToken p from rfl] at h ⊢
    rw [this, h]; simp
  | succ n =>
    have := getNextToken_mError (tokenAt p n).2
    rw [show tokenAt p (n + 1) = getNextToken (tokenAt p n).2 from rfl] at h ⊢
    rw [this, h]; simp

/-- The two ways in which `parseText` ends: without a node and with the error
flag set, or with the text-match node made of the column token (position 1) and
the pattern token (position 3), after the tokens `(` column `,` string `)`. -/
theorem parseText_cases (d : Data) (p : Parser) :
    ((parseText d p).1 = none ∧ (parseText d p).2.mError = true) ∨
    (parseText d p = (some (TextNode (columnIdOf d (tokenAt p 1).1) (tokenAt p 3).1.mString),
        (tokenAt p 4).2) ∧
      (tokenAt p 0).1.mType = Type_Open ∧ 0 ≤ columnIdOf d (tokenAt p 1).1 ∧
      (tokenAt p 2).1.mType = Type_Comma ∧ (tokenAt p 3).1.mType = Type_String ∧
      (tokenAt p 4).1.mType = Type_Close) := by
  have e0 : getNextToken p = tokenAt p 0 := rfl
  have e1 : getNextToken (tokenAt p 0).2 = tokenAt p 1 := rfl
  have e2 : getNextToken (tokenAt p 1).2 = tokenAt p 2 := rfl
  have e3 : getNextToken (tokenAt p 2).2 = tokenAt p 3 := rfl
  have e4 : getNextToken (tokenAt p 3).2 = tokenAt p 4 := rfl
  have t1 := tokenAt_error p 1
  unfold parseText
  rw [e0]
  by_cases c0 : ((tokenAt p 0).1.mType != Type_Open) = true
  · rw [if_pos c0]; exact Or.inl ⟨rfl, rfl⟩
  rw [if_neg c0, e1]
  by_cases c1 : (!(tokenAt p 1).1.toBool) = true
  · rw [if_pos c1]
    exact Or.inl ⟨rfl, t1 (by simpa using c1)⟩
  rw [if_neg c1]
  by_cases c2 : columnIdOf d (tokenAt p 1).1 < 0
  · rw [if_pos c2]; exact Or.inl ⟨rfl, rfl⟩
  rw [if_neg c2, e2]
  by_cases c3 : ((tokenAt p 2).1.mType != Type_Comma) = true
  · rw [if_pos c3]; exact Or.inl ⟨rfl, rfl⟩
  rw [if_neg c3, e3]
  by_cases c4 : ((tokenAt p 3).1.mType != Type_String) = true
  · rw [if_pos c4]; exact Or.inl ⟨rfl, rfl⟩
  rw [if_neg c4, e4]
  by_cases c5 : ((tokenAt p 4).1.mType != Type_Close) = true
  · rw [if_pos c5]; exact Or.inl ⟨rfl, rfl⟩
  rw [if_neg c5]
  exact Or.inr ⟨rfl, type_eq_of_not_bne c0, by omega, type_eq_of_not_bne c3,
    type_eq_of_not_bne c4, type_eq_of_not_bne c5⟩

/-- The two ways in which the interval branch of `parseValue` ends: without a
result and with the error flag set, or with the bounds read at positions 0 and
2 after the opening token, the closing token being at position 3. -/
theorem parseInterval_cases (token : Token) (p : Parser) :
    ((parseInterval token p).1 = none ∧ (parseInterval token p).2.mError = true) ∨
    (parseInterval token p =
        (some (if token.mType == Type_OpenSquare then ValueType.Type_Closed
            else ValueType.Type_Open,
          if (tokenAt p 3).1.mType == Type_CloseSquare then ValueType.Type_Closed
            else ValueType.Type_Open,
          (tokenAt p 0).1.mNumber, (tokenAt p 2).1.mNumber), (tokenAt p 3).2) ∧
      (token.mType = Type_OpenSquare ∨ token.mType = Type_CloseSquare ∨
        token.mType = Type_Open) ∧
      (tokenAt p 0).1.mType = Type_Number ∧ (tokenAt p 1).1.mType = Type_Comma ∧
      (tokenAt p 2).1.mType = Type_Number ∧
      ((tokenAt p 3).1.mType = Type_CloseSquare ∨ (tokenAt p 3).1.mType = Type_OpenSquare ∨
        (tokenAt p 3).1.mType = Type_Close)) := by
  have e0 : getNextToken p = tokenAt p 0 := rfl
  have e1 : getNextToken (tokenAt p 0).2 = tokenAt p 1 := rfl
  have e2 : getNextToken (tokenAt p 1).2 = tokenAt p 2 := rfl
  have e3 : getNextToken (tokenAt p 2).2 = tokenAt p 3 := rfl
  unfold parseInterval
  by_cases c0 : (token.mType != Type_OpenSquare &&
      (token.mType != Type_CloseSquare && token.mType != Type_Open)) = true
  · rw [if_pos c0]; exact Or.inl ⟨rfl, rfl⟩
  rw [if_neg c0, e0]
  by_cases c1 : ((tokenAt p 0).1.mType != Type_Number) = true
  · rw [if_pos c1]; exact Or.inl ⟨rfl, rfl⟩
  rw [if_neg c1, e1]
  by_cases c2 : ((tokenAt p 1).1.mType != Type_Comma) = true
  · rw [if_pos c2]; exact Or.inl ⟨rfl, rfl⟩
  rw [if_neg c2, e2]
  by_cases c3 : ((tokenAt p 2).1.mType != Type_Number) = true
  · rw [if_pos c3]; exact Or.inl ⟨rfl, rfl⟩
  rw [if_neg c3, e3]
  by_cases c4 : ((tokenAt p 3).1.mType != Type_CloseSquare &&
      ((tokenAt p 3).1.mType != Type_OpenSquare && (tokenAt p 3).1.mType != Type_Close)) = true
  · rw [if_pos c4]; exact Or.inl ⟨rfl, rfl⟩
  rw [if_neg c4]
  exact Or.inr ⟨rfl, type_eq_of_not_bne3 c0, type_eq_of_not_bne c1, type_eq_of_not_bne c2,
    type_eq_of_not_bne c3, type_eq_of_not_bne3 c4⟩

theorem tokenAt_add (p : Parser) (n k : Nat) :
    tokenAt (tokenAt p n).2 k = tokenAt p (n + k + 1) := by
  induction k with
  | zero => rfl
  | succ k ih =>
    show getNextToken (tokenAt (tokenAt p n).2 k).2 = getNextToken (tokenAt p (n + k + 1)).2
    rw [ih]

/-- The ways in which `parseValue` ends: without a node and with the error flag
set, or with a value-match node on the column of the column token (position 1),
in the single-value form (a number at position 3) or in the interval form (an
opening token at position 3, the bounds at positions 4 and 6, a closing token at
position 7). -/
theorem parseValue_cases (d : Data) (p : Parser) :
    ((parseValue d p).1 = none ∧ (parseValue d p).2.mError = true) ∨
    ((tokenAt p 0).1.mType = Type_Open ∧ 0 ≤ columnIdOf d (tokenAt p 1).1 ∧
      (tokenAt p 2).1.mType = Type_Comma ∧
      (((tokenAt p 3).1.mType = Type_Number ∧ (tokenAt p 4).1.mType = Type_Close ∧
          parseValue d p = (some (ValueNode (columnIdOf d (tokenAt p 1).1)
            ValueType.Type_Closed ValueType.Type_Closed (tokenAt p 3).1.mNumber
            (tokenAt p 3).1.mNumber), (tokenAt p 4).2)) ∨
        ((tokenAt p 3).1.mType ≠ Type_Number ∧
          ((tokenAt p 3).1.mType = Type_OpenSquare ∨ (tokenAt p 3).1.mType = Type_CloseSquare ∨
            (tokenAt p 3).1.mType = Type_Open) ∧
          (tokenAt p 4).1.mType = Type_Number ∧ (tokenAt p 5).1.mType = Type_Comma ∧
          (tokenAt p 6).1.mType = Type_Number ∧
          ((tokenAt p 7).1.mType = Type_CloseSquare ∨ (tokenAt p 7).1.mType = Type_OpenSquare ∨
            (tokenAt p 7).1.mType = Type_Close) ∧
          (tokenAt p 8).1.mType = Type_Close ∧
          parseValue d p = (some (ValueNode (columnIdOf d (tokenAt p 1).1)
            (if (tokenAt p 3).1.mType == Type_OpenSquare then ValueType.Type_Closed
              else ValueType.Type_Open)
            (if (tokenAt p 7).1.mType == Type_CloseSquare then ValueType.Type_Closed
              else ValueType.Type_Open)
            (tokenAt p 4).1.mNumber (tokenAt p 6).1.mNumber), (tokenAt p 8).2)))) := by
  have e0 : getNextToken p = tokenAt p 0 := rfl
  have e1 : getNextToken (tokenAt p 0).2 = tokenAt p 1 := rfl
  have e2 : getNextToken (tokenAt p 1).2 = tokenAt p 2 := rfl
  have e3 : getNextToken (tokenAt p 2).2 = tokenAt p 3 := rfl
  have e4 : getNextToken (tokenAt p 3).2 = tokenAt p 4 := rfl
  have e8 : getNextToken (tokenAt p 7).2 = tokenAt p 8 := rfl
  have t1 := tokenAt_error p 1
  have hi := parseInterval_cases (tokenAt p 3).1 (tokenAt p 3).2
  have a0 : tokenAt (tokenAt p 3).2 0 = tokenAt p 4 := tokenAt_add p 3 0
  have a1 : tokenAt (tokenAt p 3).2 1 = tokenAt p 5 := tokenAt_add p 3 1
  have a2 : tokenAt (tokenAt p 3).2 2 = tokenAt p 6 := tokenAt_add p 3 2
  have a3 : tokenAt (tokenAt p 3).2 3 = tokenAt p 7 := tokenAt_add p 3 3
  rw [a0, a1, a2, a3] at hi
  generalize hv : parseValue d p = v
  unfold parseValue at hv
  rw [e0] at hv
  by_cases c0 : ((tokenAt p 0).1.mType != Type_Open) = true
  · rw [if_pos c0] at hv; rw [← hv]; exact Or.inl ⟨rfl, rfl⟩
  rw [if_neg c0, e1] at hv
  by_cases c1 : (!(tokenAt p 1).1.toBool) = true
  · rw [if_pos c1] at hv
    rw [← hv]
    exact Or.inl ⟨rfl, t1 (by simpa using c1)⟩
  rw [if_neg c1] at hv
  by_cases c2 : columnIdOf d (tokenAt p 1).1 < 0
  · rw [if_pos c2] at hv; rw [← hv]; exact Or.inl ⟨rfl, rfl⟩
  rw [if_neg c2, e2] at hv
  by_cases c3 : ((tokenAt p 2).1.mType != Type_Comma) = true
  · rw [if_pos c3] at hv; rw [← hv]; exact Or.inl ⟨rfl, rfl⟩
  rw [if_neg c3, e3] at hv
  dsimp only at hv
  by_cases c4 : ((tokenAt p 3).1.mType == Type_Number) = true
  · rw [if_pos c4] at hv
    dsimp only at hv
    rw [e4] at hv
    by_cases c5 : ((tokenAt p 4).1.mType != Type_Close) = true
    · rw [if_pos c5] at hv; rw [← hv]; exact Or.inl ⟨rfl, rfl⟩
    · rw [if_neg c5] at hv
      exact Or.inr ⟨type_eq_of_not_bne c0, by omega, type_eq_of_not_bne c3, Or.inl
        ⟨by simpa using c4, type_eq_of_not_bne c5, hv.symm⟩⟩
  · rw [if_neg c4] at hv
    rcases hi with ⟨h1, h2⟩ | ⟨h1, h2, h3, h4, h5, h6⟩
    · rw [h1] at hv
      dsimp only at hv
      rw [← hv]
      dsimp only
      exact Or.inl ⟨rfl, h2⟩
    · rw [h1] at hv
      dsimp only at hv
      rw [e8] at hv
      by_cases c5 : ((tokenAt p 8).1.mType != Type_Close) = true
      · rw [if_pos c5] at hv; rw [← hv]; exact Or.inl ⟨rfl, rfl⟩
      · rw [if_neg c5] at hv
        exact Or.inr ⟨type_eq_of_not_bne c0, by omega, type_eq_of_not_bne c3, Or.inr
          ⟨by simpa using c4, h2, h3, h4, h5, h6, type_eq_of_not_bne c5, hv.symm⟩⟩

/-! ## The structural invariant of parsed trees -/

theorem validAll_append (ns : List (Option Node)) (n : Option Node) :
    validAll (ns ++ [n]) = (validAll ns && validOpt n) := by
  induction ns with
  | nil => simp [validAll]
  | cons a as ih =>
    rw [List.cons_append, validAll, validAll, ih, Bool.and_assoc]

theorem parseImp_unfold (d : Data) (f : Nat) (a b : Bool) (p : Parser) :
    parseImp d (f + 1) a b p =
      if (getNextToken p).1.toBool then
        if (switchToken p).1.toBool then parseSwitch d f a (switchToken p).1 (switchToken p).2
        else some (none, (switchToken p).2)
      else some (none, (getNextToken p).2) := by
  rw [parseImp]
  rfl

theorem switchToken_error (p : Parser) (h : (switchToken p).1.toBool = false) :
    (switchToken p).2.mError = true := by
  unfold switchToken at h ⊢
  by_cases c : (getNextToken p).1.eq (Token.ofType Type_OneShot) = true
  · rw [if_pos c] at h ⊢
    rw [getNextToken_mError, h]; simp
  · rw [if_neg c] at h ⊢
    rw [getNextToken_mError, h]; simp

/-- The switch of `parseImp` keeps the invariant, given that the nested calls
do. -/
theorem parseSwitch_inv (d : Data) (f : Nat)
    (h1 : ∀ a b p v q, parseImp d f a b p = some (v, q) → q.mError = false → okResult a v)
    (h2 : ∀ k p v q, parseNAry d f k p = some (v, q) → q.mError = false →
      ∃ t, v = some t ∧ validNode t = true)
    (a : Bool) (t : Token) (q0 : Parser) (v : Option Node) (q : Parser)
    (h : parseSwitch d f a t q0 = some (v, q)) (he : q.mError = false) : okResult a v := by
  unfold parseSwitch at h
  cases ht : t.mType <;> rw [ht] at h <;> dsimp only at h
  all_goals try
    (simp only [Option.some.injEq, Prod.mk.injEq] at h
     obtain ⟨_, hq⟩ := h
     rw [← hq] at he
     have he2 : true = false := he
     exact Bool.noConfusion he2)
  · -- end of stream
    simp only [Option.some.injEq, Prod.mk.injEq] at h
    obtain ⟨hv, hq⟩ := h
    rw [← hv]
    cases a
    · rw [← hq] at he
      have he2 : true = false := he
      exact Bool.noConfusion he2
    · rfl
  · simp only [Option.some.injEq, Prod.mk.injEq] at h
    rw [← h.1]; rfl
  · simp only [Option.some.injEq, Prod.mk.injEq] at h
    rw [← h.1]; rfl
  · obtain ⟨n, hn, hv⟩ := h2 t q0 v q h he
    rw [hn]; exact hv
  · obtain ⟨n, hn, hv⟩ := h2 t q0 v q h he
    rw [hn]; exact hv
  · cases hs : parseImp d f false false q0 with
    | none => rw [hs] at h; exact absurd h (by simp)
    | some s =>
      rw [hs] at h
      dsimp only at h
      by_cases c : s.2.mError = true
      · rw [if_pos c] at h
        simp only [Option.some.injEq, Prod.mk.injEq] at h
        rw [← h.2, c] at he
        exact absurd he (by decide)
      · rw [if_neg c] at h
        simp only [Option.some.injEq, Prod.mk.injEq] at h
        have hk := h1 false false q0 s.1 s.2 hs (by simpa using c)
        rw [← h.1]
        cases hs1 : s.1 with
        | none =>
          rw [hs1] at hk
          have hk2 : false = true := hk
          exact Bool.noConfusion hk2
        | some n => rw [hs1] at hk; exact hk
  · simp only [Option.some.injEq] at h
    rcases parseText_cases d q0 with ⟨_, h4⟩ | ⟨h3, _, h5, _⟩
    · rw [h] at h4; rw [he] at h4; exact absurd h4 (by decide)
    · rw [h3] at h
      simp only [Prod.mk.injEq] at h
      rw [← h.1]
      show validNode _ = true
      rw [validNode]
      exact decide_eq_true h5
  · simp only [Option.some.injEq] at h
    rcases parseValue_cases d q0 with ⟨_, h4⟩ | ⟨_, h5, _, ⟨_, _, h3⟩ | ⟨_, _, _, _, _, _, _, h3⟩⟩
    · rw [h] at h4; rw [he] at h4; exact absurd h4 (by decide)
    · rw [h3] at h
      simp only [Prod.mk.injEq] at h
      rw [← h.1]
      show validNode _ = true
      rw [validNode]
      exact decide_eq_true h5
    · rw [h3] at h
      simp only [Prod.mk.injEq] at h
      rw [← h.1]
      show validNode _ = true
      rw [validNode]
      exact decide_eq_true h5

/-- The invariant of the three mutually recursive parsing functions: when they
return with the error flag clear, `parseImp` has a valid tree (or no node, if an
empty expression is allowed), `parseNAry` has a valid tree and the loop of
`parseNAry` a non-empty list of valid children. -/
theorem parseImp_inv (d : Data) (fuel : Nat) :
    (∀ a b p v q, parseImp d fuel a b p = some (v, q) → q.mError = false → okResult a v) ∧
    (∀ k p v q, parseNAry d fuel k p = some (v, q) → q.mError = false →
      ∃ t, v = some t ∧ validNode t = true) ∧
    (∀ ns p r q, parseNAryLoop d fuel ns p = some (r, q) → q.mError = false →
      validAll ns = true → ∃ l, r = some l ∧ validAll l = true ∧ l ≠ []) := by
  induction fuel with
  | zero =>
    refine ⟨?_, ?_, ?_⟩
    · intro a b p v q h; rw [parseImp] at h; exact absurd h (by simp)
    · intro k p v q h; rw [parseNAry] at h; exact absurd h (by simp)
    · intro ns p r q h; rw [parseNAryLoop] at h; exact absurd h (by simp)
  | succ n ih =>
    obtain ⟨ih1, ih2, ih3⟩ := ih
    refine ⟨?_, ?_, ?_⟩
    · intro a b p v q h he
      rw [parseImp_unfold] at h
      by_cases c1 : (getNextToken p).1.toBool = true
      · rw [if_pos c1] at h
        by_cases c2 : (switchToken p).1.toBool = true
        · rw [if_pos c2] at h
          exact parseSwitch_inv d n ih1 ih2 a _ _ v q h he
        · rw [if_neg c2] at h
          simp only [Option.some.injEq, Prod.mk.injEq] at h
          have := switchToken_error p (by simpa using c2)
          rw [h.2, he] at this
          exact absurd this (by decide)
      · rw [if_neg c1] at h
        simp only [Option.some.injEq, Prod.mk.injEq] at h
        have hm := getNextToken_mError p
        rw [h.2, he] at hm
        simp only [Bool.not_eq_true] at c1
        rw [c1] at hm
        simp at hm
    · intro k p v q h he
      rw [parseNAry] at h
      by_cases c1 : ((getNextToken p).1.mType != Type_Open) = true
      · rw [if_pos c1] at h
        simp only [Option.some.injEq, Prod.mk.injEq] at h
        rw [← h.2] at he
        have he2 : true = false := he
        exact Bool.noConfusion he2
      rw [if_neg c1] at h
      cases hl : parseNAryLoop d n [] (getNextToken p).2 with
      | none => rw [hl] at h; exact absurd h (by simp)
      | some s =>
        obtain ⟨r, q1⟩ := s
        rw [hl] at h
        cases r with
        | none =>
          dsimp only at h
          simp only [Option.some.injEq, Prod.mk.injEq] at h
          rw [h.2] at hl
          obtain ⟨l, hl2, _⟩ := ih3 [] _ none q hl he rfl
          exact absurd hl2 (by simp)
        | some nodes =>
          dsimp only at h
          obtain ⟨l, hl2, hv, hne⟩ : ∃ l, some nodes = some l ∧ validAll l = true ∧ l ≠ [] := by
            by_cases c2 : nodes.isEmpty = true
            · rw [if_pos c2] at h
              simp only [Option.some.injEq, Prod.mk.injEq] at h
              rw [← h.2] at he
              have he2 : true = false := he
              exact Bool.noConfusion he2
            · rw [if_neg c2] at h
              have hq : q1.mError = false := by
                cases hk : k.mType <;> rw [hk] at h <;> dsimp only at h <;>
                  simp only [Option.some.injEq, Prod.mk.injEq] at h <;>
                  first
                    | (rw [← h.2] at he; have he2 : true = false := he; exact Bool.noConfusion he2)
                    | (rw [h.2]; exact he)
              exact ih3 [] _ (some nodes) q1 hl hq rfl
          simp only [Option.some.injEq] at hl2
          subst hl2
          have c2 : ¬ (nodes.isEmpty = true) := by
            cases nodes with
            | nil => exact absurd rfl hne
            | cons _ _ => simp
          rw [if_neg c2] at h
          have hvn : (!nodes.isEmpty && validAll nodes) = true := by
            simp only [Bool.not_eq_true] at c2
            rw [c2, hv]; rfl
          cases hk : k.mType <;> rw [hk] at h <;> dsimp only at h <;>
            simp only [Option.some.injEq, Prod.mk.injEq] at h
          all_goals try
            (rw [← h.2] at he
             have he2 : true = false := he
             exact Bool.noConfusion he2)
          · refine ⟨_, h.1.symm, ?_⟩
            rw [validNode]; exact hvn
          · refine ⟨_, h.1.symm, ?_⟩
            rw [validNode]; exact hvn
    · intro ns p r q h he hns
      rw [parseNAryLoop] at h
      cases hs : parseImp d n false false p with
      | none => rw [hs] at h; exact absurd h (by simp)
      | some s =>
        rw [hs] at h
        dsimp only at h
        by_cases c1 : s.2.mError = true
        · rw [if_pos c1] at h
          simp only [Option.some.injEq, Prod.mk.injEq] at h
          rw [← h.2, c1] at he
          exact absurd he (by decide)
        rw [if_neg c1] at h
        have hk := ih1 false false p s.1 s.2 hs (by simpa using c1)
        have hvs : validOpt s.1 = true := by
          cases hs1 : s.1 with
          | none =>
            rw [hs1] at hk
            have hk2 : false = true := hk
            exact Bool.noConfusion hk2
          | some t => rw [hs1] at hk; exact hk
        have hall : validAll (ns ++ [s.1]) = true := by
          rw [validAll_append, hns, hvs]; rfl
        by_cases c2 : (!(getNextToken s.2).1.toBool ||
            ((getNextToken s.2).1.mType != Type_Close &&
              (getNextToken s.2).1.mType != Type_Comma)) = true
        · rw [if_pos c2] at h
          simp only [Option.some.injEq, Prod.mk.injEq] at h
          rw [← h.2] at he
          have he2 : true = false := he
          exact Bool.noConfusion he2
        rw [if_neg c2] at h
        by_cases c3 : ((getNextToken s.2).1.mType == Type_Close) = true
        · rw [if_pos c3] at h
          simp only [Option.some.injEq, Prod.mk.injEq] at h
          exact ⟨_, h.1.symm, hall, by simp⟩
        · rw [if_neg c3] at h
          exact ih3 _ _ r q h he hall

theorem parseFinish_valid (d : Data) (f : Nat) (b : Bool) (p0 : Parser)
    (s : Option Node × Parser) (q : Parser)
    (hs : parseImp d f true b p0 = some s) (h : parseFinish s = (true, q)) :
    q.mError = false ∧ ∃ t, q.mFilter = some t ∧ validNode t = true := by
  unfold parseFinish at h
  by_cases c1 : s.2.mError = true
  · rw [if_pos c1] at h
    simp only [Prod.mk.injEq] at h
    exact absurd h.1 (by decide)
  rw [if_neg c1] at h
  dsimp only at h
  by_cases c2 : (getNextToken s.2).1.ne (Token.ofType Type_EOS) = true
  · rw [if_pos c2] at h
    simp only [Prod.mk.injEq] at h
    exact absurd h.1 (by decide)
  rw [if_neg c2] at h
  have hk := (parseImp_inv d f).1 true b p0 s.1 s.2 hs (by simpa using c1)
  have hm := getNextToken_mError s.2
  rw [Token.ne_eos] at c2
  have he : (getNextToken s.2).2.mError = false := by
    rw [hm]
    simp only [Bool.not_eq_true] at c1
    simp only [Bool.not_eq_true, Bool.not_eq_false] at c2
    rw [c1, c2]; rfl
  cases hs1 : s.1 with
  | none =>
    rw [hs1] at h
    simp only [Prod.mk.injEq, true_and] at h
    rw [← h]
    exact ⟨he, _, rfl, rfl⟩
  | some t =>
    rw [hs1] at h hk
    simp only [Prod.mk.injEq, true_and] at h
    rw [← h]
    exact ⟨he, _, rfl, hk⟩

theorem parseDepth_false_valid (d : Data) (k : Nat) (p : Parser) (filter : List Char)
    (q : Parser) (h : parseDepth d (k + 1) p filter false = some (true, q)) :
    q.mError = false ∧ ∃ t, q.mFilter = some t ∧ validNode t = true := by
  rw [parseDepth_unfold_false] at h
  cases hs : parseImp d (parseBudget filter) true true (Parser.start filter) with
  | none => rw [hs] at h; exact absurd h (by simp)
  | some s =>
    rw [hs] at h
    simp only [Option.map_some', Option.some.injEq] at h
    exact parseFinish_valid d _ true _ s q hs h

/-- A tree held after a successful `parse` satisfies the structural
invariant. -/
theorem parse_valid (d : Data) (p : Parser) (filter : List Char) (allowPredefined : Bool)
    (q : Parser) (h : parse d p filter allowPredefined = some (true, q)) :
    q.mError = false ∧ ∃ t, q.mFilter = some t ∧ validNode t = true := by
  unfold parse at h
  cases allowPredefined
  · exact parseDepth_false_valid d 1 p filter q h
  · rw [parseDepth_unfold_true] at h
    dsimp only at h
    by_cases c1 : (getNextToken (Parser.start filter)).1.eq (Token.ofType Type_OneShot) = true
    · rw [if_pos c1] at h
      cases hs : parseImp d (parseBudget filter) true
          ((getNextToken (Parser.start filter)).1.ne (Token.ofType Type_OneShot))
          (getNextToken (Parser.start filter)).2 with
      | none => rw [hs] at h; exact absurd h (by simp)
      | some s =>
        rw [hs] at h
        simp only [Option.map_some', Option.some.injEq] at h
        exact parseFinish_valid d _ _ _ s q hs h
    rw [if_neg c1] at h
    by_cases c2 : ((getNextToken (Parser.start filter)).1.mType == Type_String) = true
    · rw [if_pos c2] at h
      by_cases c3 : (getNextToken (getNextToken (Parser.start filter)).2).1.ne
          (Token.ofType Type_EOS) = true
      · rw [if_pos c3] at h
        simp only [Option.some.injEq, Prod.mk.injEq] at h
        exact absurd h.1 (by decide)
      rw [if_neg c3] at h
      by_cases c4 : (d.searchId (getNextToken (Parser.start filter)).1.mString == -1) = true
      · rw [if_pos c4] at h
        simp only [Option.some.injEq, Prod.mk.injEq] at h
        exact absurd h.1 (by decide)
      rw [if_neg c4] at h
      by_cases c5 : (d.getRecord (d.searchId (getNextToken (Parser.start filter)).1.mString)).isDeleted
          = true
      · rw [if_pos c5] at h
        simp only [Option.some.injEq, Prod.mk.injEq] at h
        exact absurd h.1 (by decide)
      rw [if_neg c5] at h
      exact parseDepth_false_valid d 0 _ _ q h
    · rw [if_neg c2] at h
      simp only [Option.some.injEq, Prod.mk.injEq] at h
      exact absurd h.1 (by decide)

/-! ## The text-match and value-match rules on texts with any column -/

theorem getStringLoop_identifier (rest : List Char) (hr : delimited rest = true) (w : List Char) :
    ∀ acc : List Char, acc ≠ [] → acc.head? ≠ some quote →
      (∀ c ∈ w, (isIdentStart c || c.isDigit) = true) →
      getStringLoop (w ++ rest) acc = (acc ++ w, w.length) := by
  induction w with
  | nil =>
    intro acc _ ha _
    rw [List.nil_append, getStringLoop_stop rest acc hr ha, List.append_nil]; rfl
  | cons c w ih =>
    intro acc hne ha hw
    have hc := hw c (List.mem_cons_self _ _)
    have hq : c ≠ quote := by
      intro e
      rw [e] at hc
      exact absurd hc (by decide)
    rw [List.cons_append]
    unfold getStringLoop
    have c1 : (c.isAlpha || c == ':' || c == '_' || (!acc.isEmpty && c.isDigit) ||
        c == quote || (!acc.isEmpty && acc.head? == some quote)) = true := by
      cases acc with
      | nil => exact absurd rfl hne
      | cons a as =>
        simp only [isIdentStart, Bool.or_eq_true] at hc
        simp only [List.isEmpty_cons, Bool.not_false, Bool.true_and, Bool.or_eq_true]
        tauto
    have c2 : ¬ ((c == quote && decide ((acc ++ [c]).length > 1)) = true) := by simp [hq]
    have ha2 : (acc ++ [c]).head? ≠ some quote := by
      cases acc with
      | nil => exact absurd rfl hne
      | cons a as => simpa using ha
    rw [if_pos c1, if_neg c2, ih (acc ++ [c]) (by simp) ha2
      (fun x hx => hw x (List.mem_cons_of_mem _ hx))]
    simp

theorem stringTokenOf_plain (w : List Char) (hne : w ≠ []) (hq : quote ∉ w) :
    stringTokenOf w = (checkKeywords (Token.ofString w), false) := by
  unfold stringTokenOf
  have h1 : (!w.isEmpty) = true := by
    cases w with
    | nil => exact absurd rfl hne
    | cons _ _ => rfl
  have hh : ¬ (w.head? = some quote) := by
    intro h
    exact hq (List.mem_of_mem_head? h)
  have hl : ¬ (w.getLast? = some quote) := by
    intro h
    exact hq (List.mem_of_getLast?_eq_some h)
  have n2 : ¬ ((w.head? == some quote && (w.getLast? != some quote || decide (w.length < 2))) = true) := by
    simp [hh]
  have n3 : ¬ ((w.head? != some quote && w.getLast? == some quote) = true) := by
    simp [hl]
  have n4 : ¬ ((w.head? == some quote) = true) := by simp [hh]
  rw [if_pos h1, if_neg n2, if_neg n3, if_neg n4]

/-- An unquoted identifier before a delimiter is read as a keyword token or as
the plain string token of its text. -/
theorem lex_identifier (w rest : List Char) (hw : isIdentifier w = true)
    (hr : delimited rest = true) :
    lex (w ++ rest) = (checkKeywords (Token.ofString w), w.length, false) := by
  cases w with
  | nil => exact absurd hw (by decide)
  | cons c cs =>
    simp only [isIdentifier, Bool.and_eq_true, List.all_eq_true] at hw
    have hc := hw.1
    have hq : c ≠ quote := identStart_ne hc quote (by decide)
    have hnq : quote ∉ c :: cs := by
      intro hm
      rcases List.mem_cons.1 hm with e | hm
      · exact hq e.symm
      · have := hw.2 quote hm
        exact absurd this (by decide)
    rw [lex_unfold, List.cons_append,
      skipSpaces_cons_ne c _ (identStart_ne hc ' ' (by decide)), List.drop_zero]
    show (_, _, _) = (_, _, _)
    rw [lexHead, dispatch_identStart c hc, lexString_eq]
    have hl : getStringLoop (c :: (cs ++ rest)) [] = (c :: cs, cs.length + 1) := by
      rw [getStringLoop]
      have c1 : (c.isAlpha || c == ':' || c == '_' ||
          (!([] : List Char).isEmpty && c.isDigit) || c == quote ||
          (!([] : List Char).isEmpty && ([] : List Char).head? == some quote)) = true := by
        simp only [isIdentStart, Bool.or_eq_true] at hc
        simp only [Bool.or_eq_true]
        tauto
      have c2 : ¬ ((c == quote && decide ((([] : List Char) ++ [c]).length > 1)) = true) := by
        simp
      rw [if_pos c1, if_neg c2, getStringLoop_identifier rest hr cs ([] ++ [c]) (by simp)
        (by simpa using hq) hw.2]
      rfl
    rw [hl, stringTokenOf_plain (c :: cs) (by simp) hnq]
    simp

theorem toBool_of_lex {l : List Char} {t : Token} {n : Nat} (h : lex l = (t, n, false)) :
    t.toBool = true := by
  have := lex_err l
  rw [h] at this
  simpa using this.symm

/-- The text-match rule on `(ct, pt)` for a column text `ct` read as the token
`tokc` and a pattern text `pt` read as the string token of `s`. -/
theorem parseText_texts (d : Data) (p : Parser) (ct pt : List Char) (tokc : Token)
    (s rest : List Char)
    (hc : lex (ct ++ (',' :: ' ' :: (pt ++ (')' :: rest)))) = (tokc, ct.length, false))
    (hp : lex (pt ++ (')' :: rest)) = (Token.ofString s, pt.length, false))
    (hu : p.unread = '(' :: (ct ++ (',' :: ' ' :: (pt ++ (')' :: rest)))))
    (he : p.mError = false) :
    (columnIdOf d tokc < 0 → (parseText d p).1 = none ∧ (parseText d p).2.mError = true) ∧
    (0 ≤ columnIdOf d tokc → ∃ q, parseText d p = (some (TextNode (columnIdOf d tokc) s), q) ∧
      q.unread = rest ∧ q.mError = false) := by
  generalize hv : parseText d p = v
  unfold parseText at hv
  obtain ⟨q1, e1, u1, m1⟩ := tok_lead p 0 ['('] _ _ hu (lex_open _)
  rw [e1] at hv
  dsimp only at hv
  have c1 : ¬ (((Token.ofType Type_Open).mType != Type_Open) = true) := by decide
  rw [if_neg c1] at hv
  obtain ⟨q2, e2, u2, m2⟩ := tok_lead q1 0 ct _ _ u1 hc
  rw [e2] at hv
  dsimp only at hv
  have c2 : ¬ ((!tokc.toBool) = true) := by rw [toBool_of_lex hc]; decide
  rw [if_neg c2] at hv
  constructor
  · intro hneg
    rw [if_pos hneg] at hv
    rw [← hv]
    exact ⟨rfl, rfl⟩
  · intro hpos
    have c3 : ¬ (columnIdOf d tokc < 0) := by omega
    rw [if_neg c3] at hv
    obtain ⟨q3, e3, u3, m3⟩ := tok_lead q2 0 [','] _ _ u2 (lex_comma _)
    rw [e3] at hv
    dsimp only at hv
    have c4 : ¬ (((Token.ofType Type_Comma).mType != Type_Comma) = true) := by decide
    rw [if_neg c4] at hv
    obtain ⟨q4, e4, u4, m4⟩ := tok_lead q3 1 pt (')' :: rest) _ u3 hp
    rw [e4] at hv
    dsimp only at hv
    have c5 : ¬ (((Token.ofString s).mType != Type_String) = true) := by
      simp [Token.ofString]
    rw [if_neg c5] at hv
    obtain ⟨q5, e5, u5, m5⟩ := tok_lead q4 0 [')'] _ _ u4 (lex_close _)
    rw [e5] at hv
    dsimp only at hv
    have c6 : ¬ (((Token.ofType Type_Close).mType != Type_Close) = true) := by decide
    rw [if_neg c6] at hv
    refine ⟨q5, hv.symm, u5, ?_⟩
    rw [m5, m4, m3, m2, m1, he]

/-- The value-match rule on `(ct, a)` for a column text `ct` read as the token
`tokc` and an integer `a`. -/
theorem parseValue_texts (d : Data) (p : Parser) (ct : List Char) (tokc : Token) (a : Int)
    (rest : List Char)
    (hc : lex (ct ++ (',' :: ' ' :: (printInt a ++ (')' :: rest)))) = (tokc, ct.length, false))
    (hu : p.unread = '(' :: (ct ++ (',' :: ' ' :: (printInt a ++ (')' :: rest)))))
    (he : p.mError = false) :
    (columnIdOf d tokc < 0 → (parseValue d p).1 = none ∧ (parseValue d p).2.mError = true) ∧
    (0 ≤ columnIdOf d tokc → ∃ q, parseValue d p = (some (ValueNode (columnIdOf d tokc)
        ValueType.Type_Closed ValueType.Type_Closed (roundFloat ⟨a, 0⟩) (roundFloat ⟨a, 0⟩)), q) ∧
      q.unread = rest ∧ q.mError = false) := by
  generalize hv : parseValue d p = v
  unfold parseValue at hv
  obtain ⟨q1, e1, u1, m1⟩ := tok_lead p 0 ['('] _ _ hu (lex_open _)
  rw [e1] at hv
  dsimp only at hv
  have c1 : ¬ (((Token.ofType Type_Open).mType != Type_Open) = true) := by decide
  rw [if_neg c1] at hv
  obtain ⟨q2, e2, u2, m2⟩ := tok_lead q1 0 ct _ _ u1 hc
  rw [e2] at hv
  dsimp only at hv
  have c2 : ¬ ((!tokc.toBool) = true) := by rw [toBool_of_lex hc]; decide
  rw [if_neg c2] at hv
  constructor
  · intro hneg
    rw [if_pos hneg] at hv
    rw [← hv]
    exact ⟨rfl, rfl⟩
  · intro hpos
    have c3 : ¬ (columnIdOf d tokc < 0) := by omega
    rw [if_neg c3] at hv
    obtain ⟨q3, e3, u3, m3⟩ := tok_lead q2 0 [','] _ _ u2 (lex_comma _)
    rw [e3] at hv
    dsimp only at hv
    have c4 : ¬ (((Token.ofType Type_Comma).mType != Type_Comma) = true) := by decide
    rw [if_neg c4] at hv
    obtain ⟨q4, e4, u4, m4⟩ := tok_lead q3 1 (printInt a) (')' :: rest) _ u3
      (lex_printInt a _ rfl)
    rw [e4] at hv
    dsimp only at hv
    have c5 : ∀ x : Decimal, ((Token.ofNumber x).mType == Type_Number) = true :=
      fun x => by simp [Token.ofNumber]
    rw [if_pos (c5 _)] at hv
    dsimp only at hv
    obtain ⟨q5, e5, u5, m5⟩ := tok_lead q4 0 [')'] _ _ u4 (lex_close _)
    rw [e5] at hv
    dsimp only at hv
    have c6 : ¬ (((Token.ofType Type_Close).mType != Type_Close) = true) := by decide
    rw [if_neg c6] at hv
    refine ⟨q5, hv.symm, u5, ?_⟩
    rw [m5, m4, m3, m2, m1, he]

/-- The outcome of parsing `string(ct, pt)` with shortcuts disabled, for a
column text `ct` read as the token `tokc` and a pattern text `pt` read as the
string token of `s`. -/
theorem parse_text_rule (d : Data) (p : Parser) (ct pt : List Char) (tokc : Token)
    (s : List Char)
    (hc : lex (ct ++ (',' :: ' ' :: (pt ++ [')']))) = (tokc, ct.length, false))
    (hp : lex (pt ++ [')']) = (Token.ofString s, pt.length, false)) :
    outcome (parse d p (textRuleText ct pt) false) =
      if columnIdOf d tokc < 0 then some (false, true, none)
      else some (true, false, some (TextNode (columnIdOf d tokc) s)) := by
  obtain ⟨q1, e1, u1, m1⟩ := tok_lead (Parser.start (textRuleText ct pt)) 0 "string".toList
    ('(' :: (ct ++ (',' :: ' ' :: (pt ++ [')'])))) _ rfl (lex_string _ rfl)
  have h := parseImp_of_token d 0 true true _ q1 _ e1 rfl (by decide)
  change _ = some (parseText d q1) at h
  obtain ⟨hneg, hpos⟩ := parseText_texts d q1 ct pt tokc s [] hc hp u1 m1
  by_cases c : columnIdOf d tokc < 0
  · rw [if_pos c]
    exact parse_fails_outcome d p _ 1 _ _ h (hneg c).2
  · rw [if_neg c]
    obtain ⟨q, hq, uq, eq⟩ := hpos (by omega)
    rw [hq] at h
    exact parse_of_parseImp d p _ 1 _ q h eq (getNextToken_end q uq)

/-- The outcome of parsing `value(ct, a)` with shortcuts disabled, for a column
text `ct` read as the token `tokc` and an integer `a`. -/
theorem parse_value_rule (d : Data) (p : Parser) (ct : List Char) (tokc : Token) (a : Int)
    (hc : lex (ct ++ (',' :: ' ' :: (printInt a ++ [')']))) = (tokc, ct.length, false)) :
    outcome (parse d p (valueRuleText ct (printInt a)) false) =
      if columnIdOf d tokc < 0 then some (false, true, none)
      else some (true, false, some (ValueNode (columnIdOf d tokc) ValueType.Type_Closed
        ValueType.Type_Closed (roundFloat ⟨a, 0⟩) (roundFloat ⟨a, 0⟩))) := by
  obtain ⟨q1, e1, u1, m1⟩ := tok_lead (Parser.start (valueRuleText ct (printInt a))) 0
    "value".toList ('(' :: (ct ++ (',' :: ' ' :: (printInt a ++ [')'])))) _ rfl (lex_value _ rfl)
  have h := parseImp_of_token d 0 true true _ q1 _ e1 rfl (by decide)
  change _ = some (parseValue d q1) at h
  obtain ⟨hneg, hpos⟩ := parseValue_texts d q1 ct tokc a [] hc u1 m1
  by_cases c : columnIdOf d tokc < 0
  · rw [if_pos c]
    exact parse_fails_outcome d p _ 1 _ _ h (hneg c).2
  · rw [if_neg c]
    obtain ⟨q, hq, uq, eq⟩ := hpos (by omega)
    rw [hq] at h
    exact parse_of_parseImp d p _ 1 _ q h eq (getNextToken_end q uq)

theorem lex_quoted_text (s rest : List Char) (hs : quote ∉ s) :
    lex (quoted s ++ rest) = (Token.ofString s, (quoted s).length, false) :=
  lex_quoted s rest hs
/-! ## The keyword table -/

theorem matchesKeyword_iff (w k : List Char) :
    matchesKeyword w k ↔ entryMatches k (lowerCase w) = true := by
  unfold matchesKeyword entryMatches
  have hl : (lowerCase w).length = w.length := by simp [lowerCase]
  simp only [Bool.or_eq_true, Bool.and_eq_true, beq_iff_eq, hl]
  constructor
  · rintro (h | ⟨h1, h2⟩)
    · exact Or.inl h.symm
    · exact Or.inr ⟨h1, h2.symm⟩
  · rintro (h | ⟨h1, h2⟩)
    · exact Or.inl h.symm
    · exact Or.inr ⟨h1, h2.symm⟩

theorem entryMatches_head (k s : List Char) (h : entryMatches k s = true) :
    k.head? = s.head? := by
  unfold entryMatches at h
  simp only [Bool.or_eq_true, Bool.and_eq_true, beq_iff_eq] at h
  rcases h with h | ⟨_, h⟩
  · rw [h]
  · exact h

/-- The loop of `checkKeywords` returns the type of the first matching entry. -/
theorem checkKeywordsLoop_first (s : List Char) :
    ∀ (ks : List (List Char)) (i j : Nat) (k : List Char), ks[j]? = some k →
      entryMatches k s = true →
      (∀ j2 k2, j2 < j → ks[j2]? = some k2 → entryMatches k2 s = false) →
      checkKeywordsLoop s ks i = some (TokenType.ofCode (i + j + 10)) := by
  intro ks
  induction ks with
  | nil => intro i j k h; simp at h
  | cons a ks ih =>
    intro i j k hj hm hfirst
    unfold checkKeywordsLoop
    cases j with
    | zero =>
      simp only [List.getElem?_cons_zero, Option.some.injEq] at hj
      subst hj
      have c : (a == s || (s.length == 1 && a.head? == s.head?)) = true := hm
      rw [if_pos c]
      rfl
    | succ j =>
      have h0 := hfirst 0 a (Nat.succ_pos j) (by simp)
      have c : ¬ ((a == s || (s.length == 1 && a.head? == s.head?)) = true) := by
        have e : (a == s || (s.length == 1 && a.head? == s.head?)) = false := h0
        rw [e]; decide
      rw [if_neg c]
      simp only [List.getElem?_cons_succ] at hj
      rw [ih (i + 1) j k hj hm (fun j2 k2 h2 hk2 => hfirst (j2 + 1) k2 (by omega) (by simpa using hk2))]
      congr 2
      omega

/-- When the loop of `checkKeywords` returns a type, an entry matched. -/
theorem checkKeywordsLoop_match (s : List Char) :
    ∀ (ks : List (List Char)) (i : Nat) (ty : TokenType), checkKeywordsLoop s ks i = some ty →
      ∃ j k, ks[j]? = some k ∧ entryMatches k s = true ∧ ty = TokenType.ofCode (i + j + 10) := by
  intro ks
  induction ks with
  | nil => intro i ty h; simp [checkKeywordsLoop] at h
  | cons a ks ih =>
    intro i ty h
    unfold checkKeywordsLoop at h
    by_cases c : (a == s || (s.length == 1 && a.head? == s.head?)) = true
    · rw [if_pos c] at h
      simp only [Option.some.injEq] at h
      exact ⟨0, a, by simp, c, h.symm⟩
    · rw [if_neg c] at h
      obtain ⟨j, k, hj, hm, e⟩ := ih (i + 1) ty h
      refine ⟨j + 1, k, by simpa using hj, hm, ?_⟩
      rw [e]; congr 1; omega

/-- When no entry matches, the loop of `checkKeywords` returns nothing. -/
theorem checkKeywordsLoop_none (s : List Char) :
    ∀ (ks : List (List Char)) (i : Nat), (∀ k ∈ ks, entryMatches k s = false) →
      checkKeywordsLoop s ks i = none := by
  intro ks
  induction ks with
  | nil => intro i _; rfl
  | cons a ks ih =>
    intro i h
    unfold checkKeywordsLoop
    have c : ¬ ((a == s || (s.length == 1 && a.head? == s.head?)) = true) := by
      have e : (a == s || (s.length == 1 && a.head? == s.head?)) = false :=
        h a (List.mem_cons_self _ _)
      rw [e]; decide
    rw [if_neg c]
    exact ih (i + 1) (fun k hk => h k (List.mem_cons_of_mem _ hk))

theorem keywordWords_lt (i : Nat) (k : List Char) (h : keywordWords[i]? = some k) : i < 7 := by
  by_contra hc
  have : keywordWords.length ≤ i := by simp [keywordWords]; omega
  rw [List.getElem?_eq_none this] at h
  exact absurd h (by simp)

/-- The table entries have different first characters. -/
theorem keywordWords_head (i j : Nat) (k1 k2 : List Char) (h1 : keywordWords[i]? = some k1)
    (h2 : keywordWords[j]? = some k2) (h : k1.head? = k2.head?) : i = j := by
  have hi := keywordWords_lt i k1 h1
  have hj := keywordWords_lt j k2 h2
  interval_cases i <;> interval_cases j <;>
    simp only [keywordWords, List.getElem?_cons_zero, List.getElem?_cons_succ,
      Option.some.injEq] at h1 h2 <;>
    subst h1 <;> subst h2 <;> first | rfl | exact absurd h (by decide)

theorem keywordTypes_code (i : Nat) (ty : TokenType) (hi : i < 7)
    (h : keywordTypes[i]? = some ty) : ty = TokenType.ofCode (i + 10) ∧ ty.isKeyword = true := by
  interval_cases i <;>
    simp only [keywordTypes, List.getElem?_cons_zero, List.getElem?_cons_succ,
      Option.some.injEq] at h <;>
    subst h <;> exact ⟨rfl, rfl⟩

theorem ofCode_keyword_inj (i j : Nat) (hi : i < 7) (hj : j < 7)
    (h : TokenType.ofCode (i + 10) = TokenType.ofCode (j + 10)) : i = j := by
  interval_cases i <;> interval_cases j <;> first | rfl | exact absurd h (by decide)

/-! ## Termination and the cursor -/

theorem inBounds_of_frame {p0 q : Parser} (h : Frame p0 q) (h0 : inBounds p0) : inBounds q := by
  obtain ⟨_, h2, _, _, h5, _⟩ := h
  unfold inBounds at h0 ⊢
  rw [h2]
  exact h5 h0

theorem inBounds_tok {q : Parser} (h : inBounds q) : inBounds (getNextToken q).2 :=
  inBounds_of_frame (Frame.refl q).tok h

theorem parseFinish_bounds (s : Option Node × Parser) (h : inBounds s.2) :
    inBounds (parseFinish s).2 := by
  unfold parseFinish
  by_cases c1 : s.2.mError = true
  · rw [if_pos c1]; exact h
  rw [if_neg c1]
  dsimp only
  have ht := inBounds_tok h
  by_cases c2 : (getNextToken s.2).1.ne (Token.ofType Type_EOS) = true
  · rw [if_pos c2]; exact ht
  rw [if_neg c2]
  cases s.1 with
  | none => exact ht
  | some n => exact ht

theorem parseDepth_false_bounds (d : Data) (k : Nat) (p : Parser) (filter : List Char)
    (r : Bool × Parser) (h : parseDepth d (k + 1) p filter false = some r) : inBounds r.2 := by
  rw [parseDepth_unfold_false] at h
  cases hs : parseImp d (parseBudget filter) true true (Parser.start filter) with
  | none => rw [hs] at h; exact absurd h (by simp)
  | some s =>
    rw [hs] at h
    simp only [Option.map_some', Option.some.injEq] at h
    rw [← h]
    apply parseFinish_bounds
    exact inBounds_of_frame (parseImp_frame d _ _ _ _ _ hs) (Nat.zero_le _)

/-- After `parse` the cursor is within the input. -/
theorem parse_bounds (d : Data) (p : Parser) (filter : List Char) (allowPredefined : Bool)
    (r : Bool × Parser) (h : parse d p filter allowPredefined = some r) : inBounds r.2 := by
  unfold parse at h
  cases allowPredefined
  · exact parseDepth_false_bounds d 1 p filter r h
  · rw [parseDepth_unfold_true] at h
    dsimp only at h
    have h1 : inBounds (getNextToken (Parser.start filter)).2 :=
      inBounds_tok (Nat.zero_le _)
    have h2 := inBounds_tok h1
    by_cases c1 : (getNextToken (Parser.start filter)).1.eq (Token.ofType Type_OneShot) = true
    · rw [if_pos c1] at h
      cases hs : parseImp d (parseBudget filter) true
          ((getNextToken (Parser.start filter)).1.ne (Token.ofType Type_OneShot))
          (getNextToken (Parser.start filter)).2 with
      | none => rw [hs] at h; exact absurd h (by simp)
      | some s =>
        rw [hs] at h
        simp only [Option.map_some', Option.some.injEq] at h
        rw [← h]
        apply parseFinish_bounds
        exact inBounds_of_frame (parseImp_frame d _ _ _ _ _ hs) h1
    rw [if_neg c1] at h
    by_cases c2 : ((getNextToken (Parser.start filter)).1.mType == Type_String) = true
    · rw [if_pos c2] at h
      by_cases c3 : (getNextToken (getNextToken (Parser.start filter)).2).1.ne
          (Token.ofType Type_EOS) = true
      · rw [if_pos c3] at h
        simp only [Option.some.injEq] at h
        rw [← h]; exact h2
      rw [if_neg c3] at h
      by_cases c4 : (d.searchId (getNextToken (Parser.start filter)).1.mString == -1) = true
      · rw [if_pos c4] at h
        simp only [Option.some.injEq] at h
        rw [← h]; exact h2
      rw [if_neg c4] at h
      by_cases c5 : (d.getRecord (d.searchId (getNextToken (Parser.start filter)).1.mString)).isDeleted
          = true
      · rw [if_pos c5] at h
        simp only [Option.some.injEq] at h
        rw [← h]; exact h2
      rw [if_neg c5] at h
      exact parseDepth_false_bounds d 0 _ _ r h
    · rw [if_neg c2] at h
      simp only [Option.some.injEq] at h
      rw [← h]; exact h1

/-- The nesting bound of `parse` is never reached: a larger bound gives the
same result. -/
theorem parseDepth_stable (d : Data) (k : Nat) (p : Parser) (filter : List Char)
    (allowPredefined : Bool) :
    parseDepth d (k + 2) p filter allowPredefined = parse d p filter allowPredefined := by
  unfold parse
  cases allowPredefined
  · rw [parseDepth_unfold_false, parseDepth_unfold_false]
  · rw [parseDepth_unfold_true, parseDepth_unfold_true]
    simp only [parseDepth_unfold_false]

theorem parse_total (d : Data) (p : Parser) (filter : List Char) (allowPredefined : Bool) :
    ∃ r, parse d p filter allowPredefined = some r := by
  unfold parse
  cases allowPredefined
  · obtain ⟨r, hr, _⟩ := parseDepth_false_consistent d 1 p filter
    exact ⟨r, hr⟩
  · obtain ⟨r, hr, _⟩ := parseDepth_true_consistent d 0 p filter
    exact ⟨r, hr⟩

/-- A text whose first token is a plain string token is rejected when it is
parsed as an expression. -/
theorem parse_string_first_fails (d : Data) (p : Parser) (text : List Char)
    (h : (getNextToken (Parser.start text)).1.mType = Type_String) :
    outcome (parse d p text false) = some (false, true, none) := by
  have hb : (getNextToken (Parser.start text)).1.toBool = true := by
    simp [Token.toBool, h]
  have ho : (getNextToken (Parser.start text)).1.mType ≠ Type_OneShot := by
    rw [h]; decide
  have e := parseImp_of_token d 0 true true (Parser.start text)
    (getNextToken (Parser.start text)).2 (getNextToken (Parser.start text)).1 rfl hb ho
  have e2 : parseSwitch d 0 true (getNextToken (Parser.start text)).1
      (getNextToken (Parser.start text)).2 =
      some (none, (getNextToken (Parser.start text)).2.error) := by
    unfold parseSwitch
    rw [h]
  rw [e2] at e
  exact parse_fails_outcome d p text 1 none _ e rfl

/-- The named-filter path of `parse`: when the first token is a plain string
token, the next token is valid, and the collection has a record under that id
that is not deleted, `parse` is `parse` of the stored text with shortcuts
disabled. -/
theorem parse_named_reenters (d : Data) (p : Parser) (input : List Char)
    (h1 : (getNextToken (Parser.start input)).1.mType = Type_String)
    (h2 : (getNextToken (getNextToken (Parser.start input)).2).1.toBool = true)
    (h3 : d.searchId (getNextToken (Parser.start input)).1.mString ≠ -1)
    (h4 : (d.getRecord (d.searchId (getNextToken (Parser.start input)).1.mString)).isDeleted
      = false) :
    parse d p input true =
      parse d p (d.getRecord (d.searchId (getNextToken (Parser.start input)).1.mString)).mFilter
        false := by
  unfold parse
  rw [parseDepth_unfold_true]
  dsimp only
  have c1 : ¬ ((getNextToken (Parser.start input)).1.eq (Token.ofType Type_OneShot) = true) := by
    rw [Token.eq_oneShot, h1]; decide
  have c2 : ((getNextToken (Parser.start input)).1.mType == Type_String) = true := by
    rw [h1]; rfl
  have c3 : ¬ ((getNextToken (getNextToken (Parser.start input)).2).1.ne
      (Token.ofType Type_EOS) = true) := by
    rw [Token.ne_eos, h2]; decide
  have c4 : ¬ ((d.searchId (getNextToken (Parser.start input)).1.mString == -1) = true) := by
    simpa using h3
  have c5 : ¬ ((d.getRecord (d.searchId (getNextToken (Parser.start input)).1.mString)).isDeleted
      = true) := by
    rw [h4]; decide
  rw [if_neg c1, if_pos c2, if_neg c3, if_neg c4, if_neg c5, parseDepth_unfold_false,
    parseDepth_unfold_false]

/-- Claim C1 (the code departs from it).  `parse` does not require the whole
input to be consumed: the test `getNextToken()!=Token (Token::Type_EOS)` compares
truth values (see `Token.ne`), so it only rejects an invalid token.  With
shortcuts disabled `true false` and `true )` are accepted as the constant-true
filter, and with shortcuts allowed `myFilter true` is resolved through the stored
filter `myFilter`. -/
theorem parse_accepts_trailing_tokens (d : Data) (p : Parser) :
    parse d p "true false".toList false =
      some (true, ⟨some (BooleanNode true), "true false".toList, 10, false⟩) ∧
    parse d p "true )".toList false =
      some (true, ⟨some (BooleanNode true), "true )".toList, 6, false⟩) ∧
    parse sampleData p "myFilter true".toList true =
      some (true, ⟨some (BooleanNode true), "true".toList, 4, false⟩) :=
  ⟨rfl, rfl, rfl⟩

/-- Claim C2.  Whatever state the parser is in before the call (fresh, after a
successful or after a failed parse), `parse` returns, and on return the three
indicators agree: it returned true, the error flag is clear and a tree is held,
or it returned false, the error flag is set and no tree is held (in particular
no partial or stale tree).  Hence `getFilter` raises the logic error exactly
after a parse that returned false, and otherwise returns a non-null root. -/
theorem parse_indicators_agree (d : Data) (p : Parser) (filter : List Char)
    (allowPredefined : Bool) :
    ∃ r, parse d p filter allowPredefined = some r ∧
      (r.1 = true ↔ r.2.mError = false) ∧
      (r.2.mError = false ↔ ∃ node, r.2.mFilter = some node) ∧
      (r.1 = false → r.2.mFilter = none ∧ getFilter r.2 = Except.error "No filter available") ∧
      (r.1 = true → ∃ node, getFilter r.2 = Except.ok (some node)) := by
  have h : ∃ r, parse d p filter allowPredefined = some r ∧ Consistent r := by
    unfold parse
    cases allowPredefined
    · exact parseDepth_false_consistent d 1 p filter
    · exact parseDepth_true_consistent d 0 p filter
  obtain ⟨r, hr, hc⟩ := h
  refine ⟨r, hr, ?_⟩
  unfold getFilter
  rcases hc with ⟨h1, h2, n, h3⟩ | ⟨h1, h2, h3⟩
  · rw [h1, h2, h3]
    simp
  · rw [h1, h2, h3]
    simp

/-- Claim C3.  Print-then-parse round trip: for every well-formed expression
tree `t` (AND and OR with at least one child, no null child, column ids that are
non-negative values of `int`, text patterns without a double quote, integer
bounds, every column id and bound being exact in single precision), parsing the
text of `t` in the grammar's syntax with shortcuts disabled succeeds with the
error flag clear, and `getFilter` then returns a tree equal to `t`. -/
theorem parse_print_roundtrip (d : Data) (p : Parser) (t : Node) (h : wellFormed t = true) :
    ∃ q, parse d p (printNode t) false = some (true, q) ∧ q.mError = false ∧
      getFilter q = Except.ok (some t) := by
  obtain ⟨f, q, hq, uq, eq⟩ := parsesAs_print d t h true true (Parser.start (printNode t)) 0 []
    (by simp [start_unread]) rfl rfl
  have ho := parse_of_parseImp d p (printNode t) f _ q hq eq (getNextToken_end q uq)
  cases hp : parse d p (printNode t) false with
  | none => rw [hp] at ho; exact absurd ho (by simp [outcome])
  | some r =>
    rw [hp] at ho
    simp only [outcome, Option.map_some', Option.some.injEq, Prod.mk.injEq, Option.getD_some] at ho
    obtain ⟨h1, h2, h3⟩ := ho
    refine ⟨r.2, ?_, h2, ?_⟩
    · rw [← h1]
    · unfold getFilter
      rw [h2, h3]
      rfl

/-- Witness for `parse_print_roundtrip`: a tree that uses every node variant,
printed as `and(string(3, "ab c"), not value(2, [-4, 12)), or(false, true))`. -/
theorem parse_print_roundtrip_witness :
    printNode (AndNode [some (TextNode 3 ['a', 'b', ' ', 'c']),
        some (NotNode (some (ValueNode 2 ValueType.Type_Closed ValueType.Type_Open
          ⟨-4, 0⟩ ⟨12, 0⟩))),
        some (OrNode [some (BooleanNode false), some (BooleanNode true)])]) =
      "and(string(3, \"ab c\"), not value(2, [-4, 12)), or(false, true))".toList ∧
    ∃ q, parse sampleData Parser.new
        (printNode (AndNode [some (TextNode 3 ['a', 'b', ' ', 'c']),
          some (NotNode (some (ValueNode 2 ValueType.Type_Closed ValueType.Type_Open
            ⟨-4, 0⟩ ⟨12, 0⟩))),
          some (OrNode [some (BooleanNode false), some (BooleanNode true)])])) false =
        some (true, q) ∧ q.mError = false ∧
      getFilter q = Except.ok (some (AndNode [some (TextNode 3 ['a', 'b', ' ', 'c']),
        some (NotNode (some (ValueNode 2 ValueType.Type_Closed ValueType.Type_Open
          ⟨-4, 0⟩ ⟨12, 0⟩))),
        some (OrNode [some (BooleanNode false), some (BooleanNode true)])])) :=
  ⟨by decide, parse_print_roundtrip sampleData Parser.new _ (by decide)⟩

/-- Claim C4.  Named-filter shortcut: when, with shortcuts allowed, the first
token of the input is the plain string token `id` and the next token is
end-of-stream, `parse` fails (returns false with the error flag set and no tree)
if the collection has no record under `id` or the record is deleted, and
otherwise is exactly `parse` of the stored filter text with shortcuts
disallowed. -/
theorem parse_named_filter (d : Data) (p : Parser) (input id : List Char)
    (h1 : (getNextToken (Parser.start input)).1 = Token.ofString id)
    (h2 : (getNextToken (getNextToken (Parser.start input)).2).1.mType = Type_EOS) :
    ((d.searchId id = -1 ∨ (d.getRecord (d.searchId id)).isDeleted = true) →
      ∃ q, parse d p input true = some (false, q) ∧ q.mError = true ∧ q.mFilter = none) ∧
    (¬ (d.searchId id = -1 ∨ (d.getRecord (d.searchId id)).isDeleted = true) →
      parse d p input true = parse d p (d.getRecord (d.searchId id)).mFilter false) := by
  have hf := ((Frame.refl (Parser.start input)).tok).tok
  unfold parse
  rw [parseDepth_unfold_true]
  generalize getNextToken (Parser.start input) = r at h1 h2 hf ⊢
  dsimp only
  have c1 : ¬ (r.1.eq (Token.ofType Type_OneShot) = true) := by
    rw [Token.eq_oneShot, h1]; simp [Token.ofString]
  have c2 : (r.1.mType == Type_String) = true := by rw [h1]; rfl
  rw [if_neg c1, if_pos c2]
  generalize getNextToken r.2 = e at h2 hf ⊢
  have c3 : ¬ (e.1.ne (Token.ofType Type_EOS) = true) := by
    rw [Token.ne_eos, Token.toBool, h2]; decide
  rw [if_neg c3, h1]
  show _ ∧ _
  have hid : (Token.ofString id).mString = id := rfl
  rw [hid]
  constructor
  · intro h
    rcases h with h | h
    · have c4 : (d.searchId id == -1) = true := by rw [h]; rfl
      rw [if_pos c4]
      exact ⟨_, rfl, rfl, hf.1⟩
    · by_cases c4 : (d.searchId id == -1) = true
      · rw [if_pos c4]
        exact ⟨_, rfl, rfl, hf.1⟩
      · rw [if_neg c4, if_pos h]
        exact ⟨_, rfl, rfl, hf.1⟩
  · intro h
    have c4 : ¬ ((d.searchId id == -1) = true) := by
      intro hc
      exact h (Or.inl (by simpa using hc))
    have c5 : ¬ ((d.getRecord (d.searchId id)).isDeleted = true) := fun hc => h (Or.inr hc)
    rw [if_neg c4, if_neg c5, parseDepth_unfold_false, parseDepth_unfold_false]

/-- Witness for `parse_named_filter`: the input `myFilter`, with the
non-deleted stored filter `myFilter` whose text is `true`, parses to the same
result as `true` parsed directly, the constant-true node. -/
theorem parse_named_filter_witness :
    parse sampleData Parser.new "myFilter".toList true =
      parse sampleData Parser.new "true".toList false ∧
    outcome (parse sampleData Parser.new "myFilter".toList true) =
      some (true, false, some (BooleanNode true)) :=
  ⟨(parse_named_filter sampleData Parser.new "myFilter".toList "myFilter".toList rfl rfl).2
      (by decide), rfl⟩

/-- Claim C5.  A leading one-shot marker forces an expression parse: for every
text `e` (whether or not it contains a token), parsing `!e` with shortcuts
allowed has the same outcome (returned flag, error flag and tree) as parsing `e`
with shortcuts disallowed.  In particular `!myFilter` fails whatever the
named-filter collection holds, and `!true` yields the constant-true node. -/
theorem parse_oneShot_forces_expression (d : Data) (p1 p2 : Parser) (e : List Char) :
    outcome (parse d p1 ('!' :: e) true) = outcome (parse d p2 e false) ∧
    (∃ q, parse d p1 "!myFilter".toList true = some (false, q) ∧ q.mError = true) ∧
    (∃ q, parse d p1 "!true".toList true = some (true, q) ∧
      q.mFilter = some (BooleanNode true)) := by
  refine ⟨?_, ⟨_, rfl, rfl⟩, ⟨_, rfl, rfl⟩⟩
  unfold parse
  rw [parseDepth_unfold_true, parseDepth_unfold_false, getNextToken_oneShot]
  dsimp only
  have c0 : (Token.ofType Type_OneShot).eq (Token.ofType Type_OneShot) = true := rfl
  rw [if_pos c0]
  have hs : SameRest ⟨none, '!' :: e, 1, false⟩ (Parser.start e) := ⟨rfl, rfl, rfl⟩
  obtain ⟨v, s, t, e1, e2, hst⟩ := parseImp_sameRest d (parseBudget ('!' :: e)) (parseBudget e)
    true ((Token.ofType Type_OneShot).ne (Token.ofType Type_OneShot)) true _ _ hs
    (by simp [Parser.unread, parseBudget]; omega) (parseBudget_start e)
  rw [e1, e2]
  obtain ⟨h1, h2, h3⟩ := parseFinish_sameRest v s t hst
  simp only [outcome, Option.map_some', h1, h2, h3]

/-- Claim C6.  With shortcuts allowed, an input whose first token is neither the
one-shot marker nor a plain string token is a parse error: `parse` returns false
with the error flag set and no tree. -/
theorem parse_shortcut_rejects (d : Data) (p : Parser) (input : List Char)
    (h1 : (getNextToken (Parser.start input)).1.mType ≠ Type_OneShot)
    (h2 : (getNextToken (Parser.start input)).1.mType ≠ Type_String) :
    ∃ q, parse d p input true = some (false, q) ∧ q.mError = true ∧ q.mFilter = none := by
  have hf := (Frame.refl (Parser.start input)).tok
  unfold parse
  rw [parseDepth_unfold_true]
  generalize getNextToken (Parser.start input) = r at h1 h2 hf ⊢
  dsimp only
  have c1 : ¬ (r.1.eq (Token.ofType Type_OneShot) = true) := by
    rw [Token.eq_oneShot]; exact h1
  have c2 : ¬ ((r.1.mType == Type_String) = true) := by simpa using h2
  rw [if_neg c1, if_neg c2]
  exact ⟨_, rfl, rfl, hf.1⟩

/-- Witness for `parse_shortcut_rejects`: the empty input, a lexical error, a
number, punctuation, and the keyword-led texts `true`, `and(true, false)` and
`t` are all rejected when shortcuts are allowed. -/
theorem parse_shortcut_rejects_witness :
    (∃ q, parse sampleData Parser.new [] true = some (false, q) ∧ q.mError = true ∧
      q.mFilter = none) ∧
    (∃ q, parse sampleData Parser.new "#".toList true = some (false, q) ∧ q.mError = true ∧
      q.mFilter = none) ∧
    (∃ q, parse sampleData Parser.new "5".toList true = some (false, q) ∧ q.mError = true ∧
      q.mFilter = none) ∧
    (∃ q, parse sampleData Parser.new "(".toList true = some (false, q) ∧ q.mError = true ∧
      q.mFilter = none) ∧
    (∃ q, parse sampleData Parser.new "true".toList true = some (false, q) ∧ q.mError = true ∧
      q.mFilter = none) ∧
    (∃ q, parse sampleData Parser.new "and(true, false)".toList true = some (false, q) ∧
      q.mError = true ∧ q.mFilter = none) ∧
    (∃ q, parse sampleData Parser.new "t".toList true = some (false, q) ∧ q.mError = true ∧
      q.mFilter = none) :=
  ⟨parse_shortcut_rejects _ _ _ (by decide) (by decide),
   parse_shortcut_rejects _ _ _ (by decide) (by decide),
   parse_shortcut_rejects _ _ _ (by decide) (by decide),
   parse_shortcut_rejects _ _ _ (by decide) (by decide),
   parse_shortcut_rejects _ _ _ (by decide) (by decide),
   parse_shortcut_rejects _ _ _ (by decide) (by decide),
   parse_shortcut_rejects _ _ _ (by decide) (by decide)⟩

/-- Claim C7 as the code has it.  With shortcuts allowed, the one-shot marker
followed by nothing or only by spaces is accepted: `parse` returns true with the
error flag clear and holds the constant-true node (the call of `parseImp` in
`parse` always allows an empty expression). -/
theorem parse_oneShot_empty (d : Data) (p : Parser) (n : Nat) :
    parse d p ('!' :: List.replicate n ' ') true =
      some (true, ⟨some (BooleanNode true), '!' :: List.replicate n ' ', n + 1, false⟩) := by
  unfold parse
  rw [parseDepth_unfold_true, getNextToken_oneShot]
  dsimp only
  have c0 : (Token.ofType Type_OneShot).eq (Token.ofType Type_OneShot) = true := rfl
  rw [if_pos c0]
  have hb : parseBudget ('!' :: List.replicate n ' ') = (2 * n + 3) + 1 := by
    simp [parseBudget]; omega
  rw [hb, parseImp]
  have h1 : getNextToken ⟨none, '!' :: List.replicate n ' ', 1, false⟩ =
      (Token.ofType Type_EOS, ⟨none, '!' :: List.replicate n ' ', 1 + n, false⟩) :=
    getNextToken_spaces _ n rfl
  rw [h1]
  dsimp only
  have c1 : (Token.ofType Type_EOS).toBool = true := rfl
  have c2 : ¬ ((Token.ofType Type_EOS).eq (Token.ofType Type_OneShot) = true) := by decide
  rw [if_pos c1, if_neg c2]
  dsimp only
  rw [if_pos c1]
  show Option.map parseFinish (some (none, _)) = _
  rw [Option.map_some']
  unfold parseFinish
  dsimp only
  have h2 : getNextToken ⟨none, '!' :: List.replicate n ' ', 1 + n, false⟩ =
      (Token.ofType Type_EOS, ⟨none, '!' :: List.replicate n ' ', 1 + n + 0, false⟩) :=
    getNextToken_spaces _ 0 (by simp [Parser.unread]; omega)
  simp only [Bool.not_true, Bool.false_eq_true, if_false, h2]
  have c3 : ¬ ((Token.ofType Type_EOS).ne (Token.ofType Type_EOS) = true) := by decide
  rw [if_neg c3]
  simp [Nat.add_comm]

/-- Claim C7 fails on the code: with shortcuts allowed the input `!` is accepted,
`parse` returns true with the error flag clear and the constant-true node. -/
theorem parse_oneShot_alone_accepted :
    parse sampleData Parser.new "!".toList true =
      some (true, ⟨some (BooleanNode true), "!".toList, 1, false⟩) :=
  rfl

/-- Claim C8.  For the keyword `and` or `or` and every non-empty sequence of
texts `e1..en` that each parse on their own (consuming exactly their own text)
to trees `t1..tn`, parsing `k(e1, ..., en)` with shortcuts disabled succeeds
and yields the AND node (for `and`) or OR node (for `or`) whose children are
exactly `t1, ..., tn` in this order; this includes a single operand. -/
theorem parse_nary_children (d : Data) (p : Parser) (isAnd : Bool) (es : List (List Char))
    (ts : List Node) (hne : es ≠ []) (h : List.Forall₂ (SubParses d) es ts) :
    outcome (parse d p (naryText isAnd es) false) =
      some (true, false, some (naryNode isAnd (ts.map some))) := by
  obtain ⟨q1, h1, u1, m1⟩ := parseImp_keyword d true true isAnd
    (Parser.start (naryText isAnd es)) 0 ('(' :: (joinTexts es ++ [')'])) rfl rfl
  obtain ⟨f, q, hq, uq, eq⟩ := nary_ctx d (keywordToken isAnd) es (ts.map some) q1 [] hne
    (ctx_of_subs d es ts h) u1 m1 (by cases isAnd <;> simp [keywordToken, Token.ofType])
  have hv := parse_of_parseImp d p (naryText isAnd es) (f + 1) _ q ((h1 f).trans hq) eq
    (getNextToken_end q uq)
  rw [hv]
  cases isAnd <;> rfl

/-- Witness for `parse_nary_children`: `and(true, not false)` and the
single-operand `or(false)`. -/
theorem parse_nary_children_witness :
    outcome (parse sampleData Parser.new "and(true, not false)".toList false) =
      some (true, false,
        some (AndNode [some (BooleanNode true), some (NotNode (some (BooleanNode false)))])) ∧
    outcome (parse sampleData Parser.new "or(false)".toList false) =
      some (true, false, some (OrNode [some (BooleanNode false)])) :=
  ⟨parse_nary_children sampleData Parser.new true ["true".toList, "not false".toList]
      [BooleanNode true, NotNode (some (BooleanNode false))] (by simp)
      (List.Forall₂.cons ⟨1, ⟨none, "true".toList, 4, false⟩, rfl, rfl, rfl⟩
        (List.Forall₂.cons ⟨2, ⟨none, "not false".toList, 9, false⟩, rfl, rfl, rfl⟩
          List.Forall₂.nil)),
   parse_nary_children sampleData Parser.new false ["false".toList] [BooleanNode false] (by simp)
      (List.Forall₂.cons ⟨1, ⟨none, "false".toList, 5, false⟩, rfl, rfl, rfl⟩ List.Forall₂.nil)⟩

/-- Claim C9.  A missing operand is an error: for the keyword `and` or `or`,
the texts `k()` and `k(e,)` (for `e` that parses on its own) fail, every text
in which the keyword is not followed by the token `(` fails, and every text in
which `not` is followed by end-of-stream, by `)` or by `(` fails, each with the
error flag set and no tree; whereas `not true` succeeds and yields the NOT node
over the constant-true node. -/
theorem parse_missing_operand (d : Data) (p : Parser) :
    (∀ isAnd, outcome (parse d p (naryText isAnd []) false) = some (false, true, none)) ∧
    (∀ isAnd e t, SubParses d e t →
      outcome (parse d p (keywordText isAnd ++ ('(' :: (e ++ ",)".toList))) false) =
        some (false, true, none)) ∧
    (∀ text,
      ((getNextToken (Parser.start text)).1.mType = Type_Keyword_And ∨
        (getNextToken (Parser.start text)).1.mType = Type_Keyword_Or) →
      (getNextToken (getNextToken (Parser.start text)).2).1.mType ≠ Type_Open →
      outcome (parse d p text false) = some (false, true, none)) ∧
    (∀ text, (getNextToken (Parser.start text)).1.mType = Type_Keyword_Not →
      ((getNextToken (getNextToken (Parser.start text)).2).1.mType = Type_EOS ∨
        (getNextToken (getNextToken (Parser.start text)).2).1.mType = Type_Close ∨
        (getNextToken (getNextToken (Parser.start text)).2).1.mType = Type_Open) →
      outcome (parse d p text false) = some (false, true, none)) ∧
    outcome (parse d p "not true".toList false) =
      some (true, false, some (NotNode (some (BooleanNode true)))) := by
  refine ⟨?_, ?_, ?_, ?_, rfl⟩
  · intro isAnd
    obtain ⟨q1, h1, u1, m1⟩ := parseImp_keyword d true true isAnd
      (Parser.start (naryText isAnd [])) 0 ('(' :: ')' :: []) rfl rfl
    obtain ⟨f, q, hq, eq⟩ := nary_fail d (keywordToken isAnd) q1 (')' :: []) u1
      (fun q2 u2 _ => ⟨2, loop_fail_close d 0 0 [] q2 [] u2⟩)
    exact parse_fails_outcome d p _ (f + 1 + 1) none q ((h1 (f + 1)).trans hq) eq
  · intro isAnd e t he
    obtain ⟨q1, h1, u1, m1⟩ := parseImp_keyword d true true isAnd
      (Parser.start (keywordText isAnd ++ ('(' :: (e ++ ",)".toList)))) 0
      ('(' :: (e ++ ",)".toList)) rfl rfl
    obtain ⟨f, q, hq, eq⟩ := nary_fail d (keywordToken isAnd) q1 (e ++ ",)".toList) u1
      (fun q2 u2 m2 => loop_fail_comma d e (some t) (ctx_of_sub d e t he) [] q2 [] u2
        (m2.trans m1))
    exact parse_fails_outcome d p _ (f + 1 + 1) none q ((h1 (f + 1)).trans hq) eq
  · intro text hk hn
    exact parse_fails_outcome d p text 2 none _
      (parseImp_nary_not_open d 0 true true _ _ _ rfl hk hn) rfl
  · intro text hk hn
    exact parse_fails_outcome d p text 2 none _
      (parseImp_not_fail d 0 true true _ _ _ rfl hk hn) rfl

/-- Witness for `parse_missing_operand`: the texts `and(true,)`, `or true`,
`and`, `not`, `not )` and `not (true)` are rejected. -/
theorem parse_missing_operand_witness :
    outcome (parse sampleData Parser.new "and(true,)".toList false) = some (false, true, none) ∧
    outcome (parse sampleData Parser.new "or true".toList false) = some (false, true, none) ∧
    outcome (parse sampleData Parser.new "and".toList false) = some (false, true, none) ∧
    outcome (parse sampleData Parser.new "not".toList false) = some (false, true, none) ∧
    outcome (parse sampleData Parser.new "not )".toList false) = some (false, true, none) ∧
    outcome (parse sampleData Parser.new "not (true)".toList false) = some (false, true, none) :=
  ⟨(parse_missing_operand sampleData Parser.new).2.1 true "true".toList (BooleanNode true)
      ⟨1, ⟨none, "true".toList, 4, false⟩, rfl, rfl, rfl⟩,
   (parse_missing_operand sampleData Parser.new).2.2.1 "or true".toList (by decide) (by decide),
   (parse_missing_operand sampleData Parser.new).2.2.1 "and".toList (by decide) (by decide),
   (parse_missing_operand sampleData Parser.new).2.2.2.1 "not".toList (by decide) (by decide),
   (parse_missing_operand sampleData Parser.new).2.2.2.1 "not )".toList (by decide) (by decide),
   (parse_missing_operand sampleData Parser.new).2.2.2.1 "not (true)".toList (by decide)
     (by decide)⟩

/-- Claim C10.  Value-match forms, for every column `c` that is a value of `int`
and integers `a`, `b`, all three exact in single precision, and for both
classifications of each bound: with shortcuts disabled `value(c, a)` yields the
value-match node on column `c` with lower = upper = `a` and both bounds closed,
and `value(c, L a, b R)` yields the value-match node on column `c` with lower
`a`, upper `b`, the lower bound closed exactly for `L` = `[` and the upper bound
closed exactly for `R` = `]`, independently of each other; `a` and `b` need not
be ordered.  The provisos are needed: the bound `16777217` is stored as
`16777216`, and the columns `2147483648` and `4294967296`, which single
precision holds exactly but `int` does not, are rejected. -/
theorem parse_value_forms (d : Data) (p : Parser) (c : Nat) (a b : Int) (lc uc : Bool)
    (hr : c < 2147483648) (hc : exactSingle (c : Int) = true)
    (ha : exactSingle a = true) (hb : exactSingle b = true) :
    outcome (parse d p (valueSingleText c a) false) =
      some (true, false, some (ValueNode c ValueType.Type_Closed ValueType.Type_Closed
        (Decimal.ofInt a) (Decimal.ofInt a))) ∧
    outcome (parse d p (valueIntervalText c lc uc a b) false) =
      some (true, false, some (ValueNode c (boundType lc) (boundType uc)
        (Decimal.ofInt a) (Decimal.ofInt b))) ∧
    outcome (parse d p "value(0, 16777217)".toList false) =
      some (true, false, some (ValueNode 0 ValueType.Type_Closed ValueType.Type_Closed
        (Decimal.ofInt 16777216) (Decimal.ofInt 16777216))) ∧
    outcome (parse d p "value(2147483648, 1)".toList false) = some (false, true, none) ∧
    outcome (parse d p "value(4294967296, 1)".toList false) = some (false, true, none) := by
  refine ⟨?_, ?_, rfl, rfl, rfl⟩
  · obtain ⟨q1, e1, u1, s1⟩ := tok_step (Parser.start (valueSingleText c a)) "value".toList
      ('(' :: (printNat c ++ (',' :: ' ' :: (printInt a ++ (')' :: []))))) _ rfl (lex_value _ rfl)
    obtain ⟨q2, e2, u2, n, s2⟩ := parseValue_single d q1 c a [] hc hr u1
    have h := parseImp_of_token d 0 true true _ q1 _ e1 rfl (by decide)
    change _ = some (parseValue d q1) at h
    rw [e2, roundFloat_exact a ha] at h
    have he : q2.mError = false := by rw [s2, s1]; rfl
    exact parse_of_parseImp d p _ 1 _ q2 h he (getNextToken_end q2 u2)
  · obtain ⟨q1, e1, u1, s1⟩ := tok_step (Parser.start (valueIntervalText c lc uc a b))
      "value".toList ('(' :: (printNat c ++ (',' :: ' ' :: (lowerChar lc :: (printInt a ++
      (',' :: ' ' :: (printInt b ++ (upperChar uc :: ')' :: [])))))))) _ rfl (lex_value _ rfl)
    obtain ⟨q2, e2, u2, n, s2⟩ := parseValue_interval d q1 c lc uc a b [] hc hr u1
    have h := parseImp_of_token d 0 true true _ q1 _ e1 rfl (by decide)
    change _ = some (parseValue d q1) at h
    rw [e2, roundFloat_exact a ha, roundFloat_exact b hb] at h
    have he : q2.mError = false := by rw [s2, s1]; rfl
    exact parse_of_parseImp d p _ 1 _ q2 h he (getNextToken_end q2 u2)

/-- Witness for `parse_value_forms`: column `2147483520`, the largest `int` that
single precision holds, with the bounds `33554432` and `-16777216` in this
order, the lower bound open and the upper bound closed. -/
theorem parse_value_forms_witness :
    (2147483520 < 2147483648 ∧ exactSingle ((2147483520 : Nat) : Int) = true ∧
      exactSingle 33554432 = true ∧ exactSingle (-16777216) = true) ∧
    valueSingleText 2147483520 33554432 = "value(2147483520, 33554432)".toList ∧
    valueIntervalText 2147483520 false true 33554432 (-16777216) =
      "value(2147483520, (33554432, -16777216])".toList ∧
    outcome (parse sampleData Parser.new (valueSingleText 2147483520 33554432) false) =
      some (true, false, some (ValueNode ((2147483520 : Nat) : Int) ValueType.Type_Closed
        ValueType.Type_Closed (Decimal.ofInt 33554432) (Decimal.ofInt 33554432))) ∧
    outcome (parse sampleData Parser.new
        (valueIntervalText 2147483520 false true 33554432 (-16777216)) false) =
      some (true, false, some (ValueNode ((2147483520 : Nat) : Int) (boundType false)
        (boundType true) (Decimal.ofInt 33554432) (Decimal.ofInt (-16777216)))) :=
  ⟨⟨by decide, by decide, by decide, by decide⟩, by decide, by decide,
    (parse_value_forms sampleData Parser.new 2147483520 33554432 (-16777216) false true
      (by decide) (by decide) (by decide) (by decide)).1,
    (parse_value_forms sampleData Parser.new 2147483520 33554432 (-16777216) false true
      (by decide) (by decide) (by decide) (by decide)).2.1⟩
/-- Claim C11.  Column resolution in `string(col, "p")` and `value(col, ...)`.
A node returned by the text-match or the value-match rule has the column id
computed from the column token, and that id is not negative.  For a number
token, an integer `n` that is not negative is the id exactly when the number
equals `n` and `n` is a value of `int` (below `2 ^ 31`); for a string token the
id is the value of the column-name resolver.  So `string("name", "s")` and
`value("name", a)` fail exactly when the resolver returns a negative id for
`name`, and otherwise give the node with the resolved id, and `string(c, "s")`
and `value(c, a)` give the node with column id `c` for every `c` below `2 ^ 31`
that is exact in single precision.  `string(1.5, "x")`, `string(-1, "x")`,
`value(1.5, 3)`, `value(-1, 3)`, `string(2147483648, "x")` and
`value(4294967296, 1)` fail; `string(0, "abc")` is the text-match node with
column id 0 and pattern `abc`, `string(2.0, "x")` has column id 2, and the
number of the token being a `float`, `string(0.99999999, "x")` has column id 1
and `string(16777217, "x")` has column id 16777216. -/
theorem parse_column_resolution (d : Data) (p : Parser) :
    (∀ q v q2, parseText d q = (some v, q2) →
      0 ≤ columnIdOf d (tokenAt q 1).1 ∧ ∃ s, v = TextNode (columnIdOf d (tokenAt q 1).1) s) ∧
    (∀ q v q2, parseValue d q = (some v, q2) →
      0 ≤ columnIdOf d (tokenAt q 1).1 ∧
      ∃ lt ut lo up, v = ValueNode (columnIdOf d (tokenAt q 1).1) lt ut lo up) ∧
    (∀ t : Token, t.mType = Type_Number → ∀ n : Int, 0 ≤ n →
      (columnIdOf d t = n ↔ (n < 2147483648 ∧ t.mNumber.mant = n * 10 ^ t.mNumber.scale))) ∧
    (∀ t : Token, t.mType = Type_String → columnIdOf d t = d.getId t.mString) ∧
    (∀ name s, quote ∉ name → quote ∉ s →
      outcome (parse d p (textRuleText (quoted name) (quoted s)) false) =
        if d.getId name < 0 then some (false, true, none)
        else some (true, false, some (TextNode (d.getId name) s))) ∧
    (∀ name a, quote ∉ name →
      outcome (parse d p (valueRuleText (quoted name) (printInt a)) false) =
        if d.getId name < 0 then some (false, true, none)
        else some (true, false, some (ValueNode (d.getId name) ValueType.Type_Closed
          ValueType.Type_Closed (roundFloat (Decimal.ofInt a)) (roundFloat (Decimal.ofInt a))))) ∧
    (∀ (c : Nat) (s : List Char), c < 2147483648 → exactSingle (c : Int) = true → quote ∉ s →
      outcome (parse d p (textRuleText (printNat c) (quoted s)) false) =
        some (true, false, some (TextNode c s))) ∧
    (∀ (c : Nat) (a : Int), c < 2147483648 → exactSingle (c : Int) = true →
      outcome (parse d p (valueRuleText (printNat c) (printInt a)) false) =
        some (true, false, some (ValueNode c ValueType.Type_Closed ValueType.Type_Closed
          (roundFloat (Decimal.ofInt a)) (roundFloat (Decimal.ofInt a))))) ∧
    outcome (parse d p "string(1.5, \"x\")".toList false) = some (false, true, none) ∧
    outcome (parse d p "string(-1, \"x\")".toList false) = some (false, true, none) ∧
    outcome (parse d p "value(1.5, 3)".toList false) = some (false, true, none) ∧
    outcome (parse d p "value(-1, 3)".toList false) = some (false, true, none) ∧
    outcome (parse d p "string(0, \"abc\")".toList false) =
      some (true, false, some (TextNode 0 "abc".toList)) ∧
    outcome (parse d p "string(2.0, \"x\")".toList false) =
      some (true, false, some (TextNode 2 "x".toList)) ∧
    outcome (parse d p "string(0.99999999, \"x\")".toList false) =
      some (true, false, some (TextNode 1 "x".toList)) ∧
    outcome (parse d p "string(16777217, \"x\")".toList false) =
      some (true, false, some (TextNode 16777216 "x".toList)) ∧
    outcome (parse d p "string(2147483648, \"x\")".toList false) = some (false, true, none) ∧
    outcome (parse d p "value(4294967296, 1)".toList false) = some (false, true, none) := by
  refine ⟨?_, ?_, ?_, columnIdOf_string d, ?_, ?_, ?_, ?_, rfl, rfl, rfl, rfl, rfl, rfl, rfl,
    rfl, rfl, rfl⟩
  · intro q v q2 h
    rcases parseText_cases d q with ⟨h1, _⟩ | ⟨h1, _, h2, _⟩
    · rw [h] at h1; exact absurd h1 (by simp)
    · rw [h1] at h
      simp only [Prod.mk.injEq, Option.some.injEq] at h
      exact ⟨h2, _, h.1.symm⟩
  · intro q v q2 h
    rcases parseValue_cases d q with ⟨h1, _⟩ | ⟨_, h2, _, ⟨_, _, h1⟩ | ⟨_, _, _, _, _, _, _, h1⟩⟩
    · rw [h] at h1; exact absurd h1 (by simp)
    · rw [h1] at h
      simp only [Prod.mk.injEq, Option.some.injEq] at h
      exact ⟨h2, _, _, _, _, h.1.symm⟩
    · rw [h1] at h
      simp only [Prod.mk.injEq, Option.some.injEq] at h
      exact ⟨h2, _, _, _, _, h.1.symm⟩
  · intro t ht n hn
    rw [columnIdOf_number d t ht, ← column_cast t.mNumber n hn]
    cases hi : t.mNumber.isInt
    · simp only [Bool.false_eq_true, if_false, false_and, iff_false]
      omega
    · simp only [if_true, true_and]
  · intro name s hn hs
    exact parse_text_rule d p (quoted name) (quoted s) (Token.ofString name) s
      (lex_quoted_text name _ hn) (lex_quoted_text s _ hs)
  · intro name a hn
    exact parse_value_rule d p (quoted name) (Token.ofString name) a (lex_quoted_text name _ hn)
  · intro c s hr hc hs
    have h := parse_text_rule d p (printNat c) (quoted s) _ s (lex_printNat_exact c _ rfl hc)
      (lex_quoted_text s _ hs)
    rw [columnIdOf_nat d c hr, if_neg (by omega)] at h
    exact h
  · intro c a hr hc
    have h := parse_value_rule d p (printNat c) _ a (lex_printNat_exact c _ rfl hc)
    rw [columnIdOf_nat d c hr, if_neg (by omega)] at h
    exact h

/-- Witness for `parse_column_resolution`: with a column table that knows
`Flags` as column 7, `string("Flags", "x")` and `value("Flags", -3)` resolve to
column 7 and `string("Nope", "x")` fails; `string(2147483520, "x")` has the
largest column id that both `int` and single precision hold; and a number
token whose number is `200 / 10 ^ 2` has the column id 2. -/
theorem parse_column_resolution_witness :
    outcome (parse (Data.ofLists [("Flags".toList, 7)] []) Parser.new
      (textRuleText (quoted "Flags".toList) (quoted "x".toList)) false) =
      some (true, false, some (TextNode 7 "x".toList)) ∧
    outcome (parse (Data.ofLists [("Flags".toList, 7)] []) Parser.new
      (valueRuleText (quoted "Flags".toList) (printInt (-3))) false) =
      some (true, false, some (ValueNode 7 ValueType.Type_Closed ValueType.Type_Closed
        ⟨-3, 0⟩ ⟨-3, 0⟩)) ∧
    outcome (parse (Data.ofLists [("Flags".toList, 7)] []) Parser.new
      (textRuleText (quoted "Nope".toList) (quoted "x".toList)) false) =
      some (false, true, none) ∧
    outcome (parse (Data.ofLists [("Flags".toList, 7)] []) Parser.new
      (textRuleText (printNat 2147483520) (quoted "x".toList)) false) =
      some (true, false, some (TextNode ((2147483520 : Nat) : Int) "x".toList)) ∧
    columnIdOf (Data.ofLists [("Flags".toList, 7)] []) (Token.ofNumber ⟨200, 2⟩) = 2 :=
  ⟨(parse_column_resolution (Data.ofLists [("Flags".toList, 7)] []) Parser.new).2.2.2.2.1
      "Flags".toList "x".toList (by decide) (by decide),
   (parse_column_resolution (Data.ofLists [("Flags".toList, 7)] []) Parser.new).2.2.2.2.2.1
      "Flags".toList (-3) (by decide),
   (parse_column_resolution (Data.ofLists [("Flags".toList, 7)] []) Parser.new).2.2.2.2.1
      "Nope".toList "x".toList (by decide) (by decide),
   (parse_column_resolution (Data.ofLists [("Flags".toList, 7)] []) Parser.new).2.2.2.2.2.2.1
      2147483520 "x".toList (by decide) (by decide) (by decide),
   ((parse_column_resolution (Data.ofLists [("Flags".toList, 7)] []) Parser.new).2.2.1
      (Token.ofNumber ⟨200, 2⟩) rfl 2 (by decide)).mpr ⟨by decide, by decide⟩⟩
/-- Claim C12.  For every `n`, parsing the text of `n` spaces (the empty text
for `n = 0`) with shortcuts disabled succeeds with the error flag clear, and
`getFilter` returns the boolean-constant node with value true; this is the
outcome of parsing the literal `true`. -/
theorem parse_spaces_true (d : Data) (p : Parser) (n : Nat) :
    (∃ q, parse d p (List.replicate n ' ') false = some (true, q) ∧ q.mError = false ∧
      getFilter q = Except.ok (some (BooleanNode true))) ∧
    outcome (parse d p (List.replicate n ' ') false) =
      outcome (parse d p "true".toList false) := by
  have h1 : getNextToken (Parser.start (List.replicate n ' ')) =
      (Token.ofType Type_EOS, (Parser.start (List.replicate n ' ')).step n false) :=
    getNextToken_spaces _ n rfl
  have h2 := parseImp_of_token d 0 true true _ _ _ h1 rfl (by decide)
  have h3 : parseSwitch d 0 true (Token.ofType Type_EOS)
      ((Parser.start (List.replicate n ' ')).step n false) =
      some (none, (Parser.start (List.replicate n ' ')).step n false) := rfl
  rw [h3] at h2
  have hu : ((Parser.start (List.replicate n ' ')).step n false).unread = [] := by
    rw [unread_step, start_unread]
    simp
  have ho := parse_of_parseImp d p _ 1 none _ h2 rfl (getNextToken_end _ hu)
  exact ⟨parse_state_of_outcome d p _ false _ ho, ho⟩

/-- Claim C13.  For every upper/lower-case spelling `w` of the word `true`,
parsing `w` with shortcuts disabled succeeds and yields the boolean-constant
node with value true, and for every such spelling of `false` the
boolean-constant node with value false. -/
theorem parse_boolean_spelling (d : Data) (p : Parser) (w : List Char) :
    (caseSpelling w "true".toList = true →
      outcome (parse d p w false) = some (true, false, some (BooleanNode true))) ∧
    (caseSpelling w "false".toList = true →
      outcome (parse d p w false) = some (true, false, some (BooleanNode false))) := by
  constructor
  · intro h
    have hl := lex_caseSpelling w "true".toList [] Type_Keyword_True h (by decide) (by decide)
      rfl rfl
    obtain ⟨q, e1, u1, m1⟩ := tok_lead (Parser.start w) 0 w [] _ (by simp [start_unread]) hl
    have h2 := parseImp_of_token d 0 true true _ _ _ e1 rfl (by decide)
    exact parse_of_parseImp d p w 1 (some (BooleanNode true)) q h2 m1 (getNextToken_end q u1)
  · intro h
    have hl := lex_caseSpelling w "false".toList [] Type_Keyword_False h (by decide) (by decide)
      rfl rfl
    obtain ⟨q, e1, u1, m1⟩ := tok_lead (Parser.start w) 0 w [] _ (by simp [start_unread]) hl
    have h2 := parseImp_of_token d 0 true true _ _ _ e1 rfl (by decide)
    exact parse_of_parseImp d p w 1 (some (BooleanNode false)) q h2 m1 (getNextToken_end q u1)

/-- Witness for `parse_boolean_spelling`: the spellings `TRUE`, `True`, `tRuE`,
`FALSE` and `False`. -/
theorem parse_boolean_spelling_witness :
    outcome (parse sampleData Parser.new "TRUE".toList false) =
      some (true, false, some (BooleanNode true)) ∧
    outcome (parse sampleData Parser.new "True".toList false) =
      some (true, false, some (BooleanNode true)) ∧
    outcome (parse sampleData Parser.new "tRuE".toList false) =
      some (true, false, some (BooleanNode true)) ∧
    outcome (parse sampleData Parser.new "FALSE".toList false) =
      some (true, false, some (BooleanNode false)) ∧
    outcome (parse sampleData Parser.new "False".toList false) =
      some (true, false, some (BooleanNode false)) :=
  ⟨(parse_boolean_spelling sampleData Parser.new "TRUE".toList).1 (by decide),
   (parse_boolean_spelling sampleData Parser.new "True".toList).1 (by decide),
   (parse_boolean_spelling sampleData Parser.new "tRuE".toList).1 (by decide),
   (parse_boolean_spelling sampleData Parser.new "FALSE".toList).2 (by decide),
   (parse_boolean_spelling sampleData Parser.new "False".toList).2 (by decide)⟩

/-- Claim C14.  Every tree held after a successful `parse` is well formed: every
AND and OR node has at least one child, no child pointer anywhere in the tree is
null (so every NOT node has its one child), and every text-match and
value-match node has a column id that is not negative; `getFilter` returns that
tree.  A nested call of `parseImp` (one that does not allow an empty
expression) returns null only when the error flag is set. -/
theorem parse_tree_valid (d : Data) :
    (∀ p filter allowPredefined q, parse d p filter allowPredefined = some (true, q) →
      ∃ t, q.mFilter = some t ∧ getFilter q = Except.ok (some t) ∧ validNode t = true) ∧
    (∀ fuel b p q, parseImp d fuel false b p = some (none, q) → q.mError = true) := by
  constructor
  · intro p filter allowPredefined q h
    obtain ⟨he, t, ht, hv⟩ := parse_valid d p filter allowPredefined q h
    refine ⟨t, ht, ?_, hv⟩
    unfold getFilter
    rw [he, ht]
    rfl
  · intro fuel b p q h
    cases he : q.mError with
    | true => rfl
    | false =>
      have hk := (parseImp_inv d fuel).1 false b p none q h he
      have hk2 : false = true := hk
      exact Bool.noConfusion hk2

/-- Witness for `parse_tree_valid`: the tree of
`and(not value(2, 5), string(1, "x"))`, and the nested call of `parseImp` on
the empty text. -/
theorem parse_tree_valid_witness :
    (∃ t, some (AndNode [some (NotNode (some (ValueNode 2 ValueType.Type_Closed
          ValueType.Type_Closed ⟨5, 0⟩ ⟨5, 0⟩))), some (TextNode 1 ['x'])]) = some t ∧
      getFilter ⟨some (AndNode [some (NotNode (some (ValueNode 2 ValueType.Type_Closed
          ValueType.Type_Closed ⟨5, 0⟩ ⟨5, 0⟩))), some (TextNode 1 ['x'])]),
        "and(not value(2, 5), string(1, \"x\"))".toList, 37, false⟩ = Except.ok (some t) ∧
      validNode t = true) ∧
    (Parser.start []).error.mError = true :=
  ⟨(parse_tree_valid sampleData).1 Parser.new "and(not value(2, 5), string(1, \"x\"))".toList
      false _ rfl,
   (parse_tree_valid sampleData).2 1 false (Parser.start []) _ rfl⟩

/-- Claim C15 (the code departs from it).  In a nested position `parseImp`
rejects every token that is not one of the seven keywords, except that it skips
a one-shot marker wherever it stands: the test at lines 231-232 does not read
the parameter `ignoreOneShot`.  So for the token on which the switch is made
(the first token, or the token after a one-shot marker) either it is a keyword
or the nested call returns no node with the error flag set; and `not !true` and
`and(!true, false)` are accepted, as `not true` and `and(true, false)` are. -/
theorem parse_nested_oneShot_accepted (d : Data) (p : Parser) :
    (∀ f b q, (switchToken q).1.mType.isKeyword = true ∨
      ∃ q2, parseImp d (f + 1) false b q = some (none, q2) ∧ q2.mError = true) ∧
    outcome (parse d p "not !true".toList false) =
      some (true, false, some (NotNode (some (BooleanNode true)))) ∧
    outcome (parse d p "and(!true, false)".toList false) =
      some (true, false, some (AndNode [some (BooleanNode true), some (BooleanNode false)])) ∧
    outcome (parse d p "not 5".toList false) = some (false, true, none) ∧
    outcome (parse d p "not \"x\"".toList false) = some (false, true, none) ∧
    outcome (parse d p "and(], true)".toList false) = some (false, true, none) ∧
    outcome (parse d p "not !!true".toList false) = some (false, true, none) := by
  refine ⟨?_, rfl, rfl, rfl, rfl, rfl, rfl⟩
  intro f b q
  rw [parseImp_unfold]
  by_cases c1 : (getNextToken q).1.toBool = true
  · rw [if_pos c1]
    by_cases c2 : (switchToken q).1.toBool = true
    · rw [if_pos c2]
      unfold parseSwitch
      cases ht : (switchToken q).1.mType <;> dsimp only
      all_goals first
        | exact Or.inl rfl
        | exact Or.inr ⟨_, rfl, rfl⟩
    · rw [if_neg c2]
      exact Or.inr ⟨_, rfl, switchToken_error q (by simpa using c2)⟩
  · rw [if_neg c1]
    refine Or.inr ⟨_, rfl, ?_⟩
    rw [getNextToken_mError]
    simp only [Bool.not_eq_true] at c1
    rw [c1]
    simp

/-- Claim C16 as the code has it.  The interval form of a value match (the
token after the column and the comma is not a number) is accepted only when it
opens with `[`, `(` or `]` and closes with `]`, `)` or `[`; the lower bound is
closed exactly for the opener `[` and the upper bound exactly for the closer
`]`, so a `]` as opener and a `[` as closer denote open bounds.  Any other
token in the opening or closing position is an error, and so is `value(0, 1, 10)`
(no brackets). -/
theorem parse_value_interval_brackets (d : Data) (p : Parser) :
    (∀ q v q2, parseValue d q = (some v, q2) → (tokenAt q 3).1.mType ≠ Type_Number →
      ((tokenAt q 3).1.mType = Type_OpenSquare ∨ (tokenAt q 3).1.mType = Type_Open ∨
        (tokenAt q 3).1.mType = Type_CloseSquare) ∧
      ((tokenAt q 7).1.mType = Type_CloseSquare ∨ (tokenAt q 7).1.mType = Type_Close ∨
        (tokenAt q 7).1.mType = Type_OpenSquare) ∧
      ∃ c, v = ValueNode c
        (if (tokenAt q 3).1.mType == Type_OpenSquare then ValueType.Type_Closed
          else ValueType.Type_Open)
        (if (tokenAt q 7).1.mType == Type_CloseSquare then ValueType.Type_Closed
          else ValueType.Type_Open)
        (tokenAt q 4).1.mNumber (tokenAt q 6).1.mNumber) ∧
    outcome (parse d p "value(0, 1, 10)".toList false) = some (false, true, none) ∧
    outcome (parse d p "value(0, ,1,10))".toList false) = some (false, true, none) ∧
    outcome (parse d p "value(0, [1,10,)".toList false) = some (false, true, none) ∧
    outcome (parse d p "value(0, [1,10!)".toList false) = some (false, true, none) ∧
    outcome (parse d p "value(0, ]1,10[)".toList false) =
      some (true, false, some (ValueNode 0 ValueType.Type_Open ValueType.Type_Open
        ⟨1, 0⟩ ⟨10, 0⟩)) ∧
    outcome (parse d p "value(0, ]1,10])".toList false) =
      some (true, false, some (ValueNode 0 ValueType.Type_Open ValueType.Type_Closed
        ⟨1, 0⟩ ⟨10, 0⟩)) ∧
    outcome (parse d p "value(0, [1,10[)".toList false) =
      some (true, false, some (ValueNode 0 ValueType.Type_Closed ValueType.Type_Open
        ⟨1, 0⟩ ⟨10, 0⟩)) := by
  refine ⟨?_, rfl, rfl, rfl, rfl, rfl, rfl, rfl⟩
  intro q v q2 h hn
  rcases parseValue_cases d q with ⟨h1, _⟩ | ⟨_, _, _, ⟨h2, _⟩ | ⟨_, h3, _, _, _, h4, _, h1⟩⟩
  · rw [h] at h1; exact absurd h1 (by simp)
  · exact absurd h2 hn
  · rw [h1] at h
    simp only [Prod.mk.injEq, Option.some.injEq] at h
    refine ⟨?_, ?_, _, h.1.symm⟩
    · rcases h3 with h3 | h3 | h3
      · exact Or.inl h3
      · exact Or.inr (Or.inr h3)
      · exact Or.inr (Or.inl h3)
    · rcases h4 with h4 | h4 | h4
      · exact Or.inl h4
      · exact Or.inr (Or.inr h4)
      · exact Or.inr (Or.inl h4)

/-- Witness for `parse_value_interval_brackets`: the value-match rule on
`(0, ]1,10[)` returns a node, its opener is `]` and its closer is `[`. -/
theorem parse_value_interval_brackets_witness :
    ((tokenAt ⟨none, "(0, ]1,10[)".toList, 0, false⟩ 3).1.mType = Type_OpenSquare ∨
      (tokenAt ⟨none, "(0, ]1,10[)".toList, 0, false⟩ 3).1.mType = Type_Open ∨
      (tokenAt ⟨none, "(0, ]1,10[)".toList, 0, false⟩ 3).1.mType = Type_CloseSquare) ∧
    ((tokenAt ⟨none, "(0, ]1,10[)".toList, 0, false⟩ 7).1.mType = Type_CloseSquare ∨
      (tokenAt ⟨none, "(0, ]1,10[)".toList, 0, false⟩ 7).1.mType = Type_Close ∨
      (tokenAt ⟨none, "(0, ]1,10[)".toList, 0, false⟩ 7).1.mType = Type_OpenSquare) :=
  ⟨((parse_value_interval_brackets sampleData Parser.new).1
      ⟨none, "(0, ]1,10[)".toList, 0, false⟩
      (ValueNode 0 ValueType.Type_Open ValueType.Type_Open ⟨1, 0⟩ ⟨10, 0⟩)
      ⟨none, "(0, ]1,10[)".toList, 11, false⟩ rfl (by decide)).1,
   ((parse_value_interval_brackets sampleData Parser.new).1
      ⟨none, "(0, ]1,10[)".toList, 0, false⟩
      (ValueNode 0 ValueType.Type_Open ValueType.Type_Open ⟨1, 0⟩ ⟨10, 0⟩)
      ⟨none, "(0, ]1,10[)".toList, 11, false⟩ rfl (by decide)).2.1⟩

/-- Claim C16 fails on the code: `value(0, ]1,10[)`, with a `]` as opener and a
`[` as closer, is accepted as the value-match node on column 0 with the open
bounds 1 and 10. -/
theorem parse_value_reversed_brackets_accepted :
    outcome (parse sampleData Parser.new "value(0, ]1,10[)".toList false) =
      some (true, false, some (ValueNode 0 ValueType.Type_Open ValueType.Type_Open
        ⟨1, 0⟩ ⟨10, 0⟩)) :=
  rfl

/-- Claim C17 as the code has it.  The text-match rule accepts as its pattern
any plain string token: a node is returned only when the pattern token is a
string token, and its pattern is that token's text.  A quoted string
(`string(c, "s")`) and an unquoted identifier that is not a keyword
(`string(c, w)`) are both accepted, for every column number `c` that is a value
of `int` and exact in single precision; a number, a keyword (also a one-letter
abbreviation of one) or punctuation in the pattern position is rejected. -/
theorem parse_text_pattern (d : Data) (p : Parser) :
    (∀ q v q2, parseText d q = (some v, q2) →
      (tokenAt q 3).1.mType = Type_String ∧ ∃ c, v = TextNode c (tokenAt q 3).1.mString) ∧
    (∀ (c : Nat) (s : List Char), c < 2147483648 → exactSingle (c : Int) = true → quote ∉ s →
      outcome (parse d p (textRuleText (printNat c) (quoted s)) false) =
        some (true, false, some (TextNode c s))) ∧
    (∀ (c : Nat) (w : List Char), c < 2147483648 → exactSingle (c : Int) = true →
      isIdentifier w = true → checkKeywords (Token.ofString w) = Token.ofString w →
      outcome (parse d p (textRuleText (printNat c) w) false) =
        some (true, false, some (TextNode c w))) ∧
    outcome (parse d p "string(0, 5)".toList false) = some (false, true, none) ∧
    outcome (parse d p "string(0, true)".toList false) = some (false, true, none) ∧
    outcome (parse d p "string(0, t)".toList false) = some (false, true, none) ∧
    outcome (parse d p "string(0, ))".toList false) = some (false, true, none) := by
  refine ⟨?_, ?_, ?_, rfl, rfl, rfl, rfl⟩
  · intro q v q2 h
    rcases parseText_cases d q with ⟨h1, _⟩ | ⟨h1, _, _, _, h2, _⟩
    · rw [h] at h1; exact absurd h1 (by simp)
    · rw [h1] at h
      simp only [Prod.mk.injEq, Option.some.injEq] at h
      exact ⟨h2, _, h.1.symm⟩
  · intro c s hr hc hs
    have h := parse_text_rule d p (printNat c) (quoted s) _ s (lex_printNat_exact c _ rfl hc)
      (lex_quoted_text s _ hs)
    rw [columnIdOf_nat d c hr, if_neg (by omega)] at h
    exact h
  · intro c w hr hc hw hk
    have hl := lex_identifier w [')'] hw rfl
    rw [hk] at hl
    have h := parse_text_rule d p (printNat c) w _ w (lex_printNat_exact c _ rfl hc) hl
    rw [columnIdOf_nat d c hr, if_neg (by omega)] at h
    exact h

/-- Witness for `parse_text_pattern`: the quoted pattern `"abc"` and the
unquoted identifiers `abc` and `x1` are accepted. -/
theorem parse_text_pattern_witness :
    outcome (parse sampleData Parser.new "string(0, \"abc\")".toList false) =
      some (true, false, some (TextNode 0 "abc".toList)) ∧
    outcome (parse sampleData Parser.new "string(0, abc)".toList false) =
      some (true, false, some (TextNode 0 "abc".toList)) ∧
    outcome (parse sampleData Parser.new "string(12, x1)".toList false) =
      some (true, false, some (TextNode 12 "x1".toList)) :=
  ⟨(parse_text_pattern sampleData Parser.new).2.1 0 "abc".toList (by decide) (by decide)
      (by decide),
   (parse_text_pattern sampleData Parser.new).2.2.1 0 "abc".toList (by decide) (by decide)
      (by decide) (by decide),
   (parse_text_pattern sampleData Parser.new).2.2.1 12 "x1".toList (by decide) (by decide)
      (by decide) (by decide)⟩

/-- Claim C17 fails on the code: the pattern of `string(0, abc)` is an unquoted
identifier, and the text is accepted as the text-match node with column id 0
and pattern `abc`. -/
theorem parse_text_unquoted_pattern_accepted :
    outcome (parse sampleData Parser.new "string(0, abc)".toList false) =
      some (true, false, some (TextNode 0 "abc".toList)) :=
  rfl

/-- Claim C18.  For every string `s` without a double quote and every text
`rest`, `getNextToken` on an input whose unread part is `"` ++ `s` ++ `"` ++
`rest` returns the plain string token with payload `s` (its type is string, not
a keyword), leaves the error flag as it was and moves the cursor by the length
of `s` plus two, that is to the character after the first closing quote. -/
theorem getNextToken_quoted (p : Parser) (s rest : List Char) (hs : quote ∉ s)
    (hu : p.unread = quote :: (s ++ quote :: rest)) :
    getNextToken p = (Token.ofString s, p.step (s.length + 2) false) ∧
    (getNextToken p).1.mType = Type_String ∧ (getNextToken p).1.mString = s ∧
    (getNextToken p).2.mIndex = p.mIndex + s.length + 2 ∧
    (getNextToken p).2.mError = p.mError ∧ (getNextToken p).2.unread = rest := by
  have hl := lex_quoted s rest hs
  have hu2 : p.unread = (quote :: (s ++ [quote])) ++ rest := by rw [hu]; simp
  have hlen : (quote :: (s ++ [quote])).length = s.length + 2 := by simp
  rw [hlen] at hl
  have e : getNextToken p = (Token.ofString s, p.step (s.length + 2) false) := by
    rw [getNextToken_eq, hu2, hl]
  rw [e]
  refine ⟨rfl, rfl, rfl, ?_, ?_, ?_⟩
  · simp [Parser.step, Nat.add_assoc]
  · simp [Parser.step]
  · rw [unread_step, hu2, ← hlen, List.drop_left]

/-- Witness for `getNextToken_quoted`: the quoted keyword spelling `"true"`
followed by `"x"`, the empty quoted string, and a quoted string with spaces
and punctuation. -/
theorem getNextToken_quoted_witness :
    getNextToken (Parser.start [quote, 't', 'r', 'u', 'e', quote, quote, 'x', quote]) =
      (Token.ofString "true".toList,
        (Parser.start [quote, 't', 'r', 'u', 'e', quote, quote, 'x', quote]).step 6 false) ∧
    (getNextToken (Parser.start [quote, quote, ')'])).1 = Token.ofString [] ∧
    (getNextToken (Parser.start [quote, 'a', ' ', ',', '(', quote])).1.mString =
      ['a', ' ', ',', '('] :=
  ⟨(getNextToken_quoted (Parser.start [quote, 't', 'r', 'u', 'e', quote, quote, 'x', quote])
     "true".toList [quote, 'x', quote] (by decide) rfl).1,
   congrArg Prod.fst (getNextToken_quoted (Parser.start [quote, quote, ')']) [] [')']
     (by decide) rfl).1,
   (getNextToken_quoted (Parser.start [quote, 'a', ' ', ',', '(', quote]) ['a', ' ', ',', '(']
     [] (by decide) rfl).2.2.1⟩

/-- Claim C19.  Malformed quoting is a tokenizer error.  For every `s` without a
double quote, on the input `"` ++ `s` (no closing quote; `s` may be empty) the
tokenizer returns an invalid token and sets the error flag; for every unquoted
identifier `w` (a letter, `:` or `_`, then letters, `:`, `_` and digits), on the
input `w` ++ `"` it does the same.  In both cases `parse` returns false with the
error flag set and no tree, with or without shortcuts. -/
theorem parse_malformed_quoting (d : Data) (p : Parser) (allowPredefined : Bool) :
    (∀ s, quote ∉ s →
      (getNextToken (Parser.start (quote :: s))).1.mType = Type_None ∧
      (getNextToken (Parser.start (quote :: s))).2.mError = true ∧
      outcome (parse d p (quote :: s) allowPredefined) = some (false, true, none)) ∧
    (∀ w, isIdentifier w = true →
      (getNextToken (Parser.start (w ++ [quote]))).1.mType = Type_None ∧
      (getNextToken (Parser.start (w ++ [quote]))).2.mError = true ∧
      outcome (parse d p (w ++ [quote]) allowPredefined) = some (false, true, none)) := by
  constructor
  · intro s hs
    have e := getNextToken_of_lex (Parser.start (quote :: s)) _ _ _ (lex_unterminated s hs)
    have h1 : (getNextToken (Parser.start (quote :: s))).1.mType = Type_None := by rw [e]; rfl
    refine ⟨h1, ?_, parse_of_invalid_first d p _ allowPredefined h1⟩
    rw [e]; rfl
  · intro w hw
    have e := getNextToken_of_lex (Parser.start (w ++ [quote])) _ _ _ (lex_stray_quote w [] hw)
    have h1 : (getNextToken (Parser.start (w ++ [quote]))).1.mType = Type_None := by rw [e]; rfl
    refine ⟨h1, ?_, parse_of_invalid_first d p _ allowPredefined h1⟩
    rw [e]; rfl

/-- Witness for `parse_malformed_quoting`: the inputs `"abc`, a lone `"`,
`abc"` and `a1_b:"`. -/
theorem parse_malformed_quoting_witness :
    outcome (parse sampleData Parser.new [quote, 'a', 'b', 'c'] false) =
      some (false, true, none) ∧
    outcome (parse sampleData Parser.new [quote] true) = some (false, true, none) ∧
    outcome (parse sampleData Parser.new ['a', 'b', 'c', quote] false) =
      some (false, true, none) ∧
    outcome (parse sampleData Parser.new ['a', '1', '_', 'b', ':', quote] true) =
      some (false, true, none) :=
  ⟨((parse_malformed_quoting sampleData Parser.new false).1 ['a', 'b', 'c'] (by decide)).2.2,
   ((parse_malformed_quoting sampleData Parser.new true).1 [] (by decide)).2.2,
   ((parse_malformed_quoting sampleData Parser.new false).2 ['a', 'b', 'c'] (by decide)).2.2,
   ((parse_malformed_quoting sampleData Parser.new true).2 ['a', '1', '_', 'b', ':']
     (by decide)).2.2⟩

/-- Claim C20.  When the next non-space character is a digit, `-` or `.`, the
tokenizer consumes the maximal run in which digits are always accepted, `.` at
most once and `-` only as the very first character (the run is a prefix of the
text at that character); it returns a number token, with the error flag
unchanged, exactly when the run has a digit, and otherwise an invalid token with
the error flag set.  So `-5`, `3.14` and `.5` are number tokens, `-`, `.`, `-.`
and `--5` are errors, and in `1.2.3` the first token is `1.2`, ending before
the second `.`.  The payload of a number token is the text's number rounded to
single precision: `3.1400001049041748046875` for `3.14` and
`1.2000000476837158203125` for `1.2`. -/
theorem getNextToken_number_scan (p : Parser) (k : Nat) (c : Char) (cs : List Char)
    (hc : c.isDigit = true ∨ c = '-' ∨ c = '.')
    (hu : p.unread = List.replicate k ' ' ++ c :: cs) :
    (numberRun (c :: cs) true false <+: c :: cs ∧
      getNextToken p = ((numberRunToken (numberRun (c :: cs) true false)).1,
        p.step (k + (numberRun (c :: cs) true false).length)
          (numberRunToken (numberRun (c :: cs) true false)).2) ∧
      (((getNextToken p).1.mType = Type_Number ∧ (getNextToken p).2.mError = p.mError) ↔
        (numberRun (c :: cs) true false).any Char.isDigit = true) ∧
      ((numberRun (c :: cs) true false).any Char.isDigit = false →
        (getNextToken p).1.mType = Type_None ∧ (getNextToken p).2.mError = true)) ∧
    (lex "-5".toList = (Token.ofNumber ⟨-5, 0⟩, 2, false) ∧
      lex "3.14".toList = (Token.ofNumber ⟨31400001049041748046875, 22⟩, 4, false) ∧
      lex ".5".toList = (Token.ofNumber ⟨5, 1⟩, 2, false) ∧
      lex "-".toList = (Token.ofType Type_None, 1, true) ∧
      lex ".".toList = (Token.ofType Type_None, 1, true) ∧
      lex "-.".toList = (Token.ofType Type_None, 2, true) ∧
      lex "--5".toList = (Token.ofType Type_None, 1, true) ∧
      lex "1.2.3".toList = (Token.ofNumber ⟨12000000476837158203125, 22⟩, 3, false)) := by
  refine ⟨?_, by decide⟩
  have e : getNextToken p = ((numberRunToken (numberRun (c :: cs) true false)).1,
      p.step (k + (numberRun (c :: cs) true false).length)
        (numberRunToken (numberRun (c :: cs) true false)).2) := by
    rw [getNextToken_eq, hu, lex_number_run c cs k hc]
  refine ⟨numberRun_initial _ _ _, e, ?_, ?_⟩
  · rw [e]
    unfold numberRunToken
    cases h : (numberRun (c :: cs) true false).any Char.isDigit
    · simp [Token.ofType]
    · simp [Token.ofNumber, Parser.step]
  · intro h
    rw [e]
    unfold numberRunToken
    rw [h]
    simp [Token.ofType, Parser.step]

/-- Witness for `getNextToken_number_scan`: on `1.2.3` after two spaces the
token is the number 1.2 (in single precision) and the cursor has moved by five
characters, and on
`--5` the token is invalid and the error flag is set after one character. -/
theorem getNextToken_number_scan_witness :
    getNextToken (Parser.start "  1.2.3".toList) =
      (Token.ofNumber ⟨12000000476837158203125, 22⟩,
        (Parser.start "  1.2.3".toList).step 5 false) ∧
    getNextToken (Parser.start "--5".toList) =
      (Token.ofType Type_None, (Parser.start "--5".toList).step 1 true) :=
  ⟨(getNextToken_number_scan (Parser.start "  1.2.3".toList) 2 '1' ".2.3".toList
      (by decide) rfl).1.2.1,
   (getNextToken_number_scan (Parser.start "--5".toList) 0 '-' "-5".toList
      (by decide) rfl).1.2.1⟩

/-- Claim C21.  Keyword classifier.  For every text `w` and every position
`i`, `checkKeywords` on the string token of `w` returns the `i`-th keyword
token of the contiguous range true, false, and, or, not, text, value if and
only if the lower-cased `w` equals the `i`-th word of `true`, `false`, `and`,
`or`, `not`, `string`, `value`, or `w` is exactly one character long and its
lower-cased character is that word's first character; at most one position can
match; and when no word matches the result is the plain string token with
payload `w` unchanged. -/
theorem checkKeywords_classifier (w : List Char) :
    (∀ (i : Nat) (k : List Char) (ty : TokenType), keywordWords[i]? = some k →
      keywordTypes[i]? = some ty →
      (checkKeywords (Token.ofString w) = Token.ofType ty ↔ matchesKeyword w k)) ∧
    (∀ (i j : Nat) (k1 k2 : List Char), keywordWords[i]? = some k1 →
      keywordWords[j]? = some k2 → matchesKeyword w k1 → matchesKeyword w k2 → i = j) ∧
    ((∀ k ∈ keywordWords, ¬ matchesKeyword w k) →
      checkKeywords (Token.ofString w) = Token.ofString w) := by
  have huniq : ∀ (i j : Nat) (k1 k2 : List Char), keywordWords[i]? = some k1 →
      keywordWords[j]? = some k2 →
      entryMatches k1 (lowerCase w) = true → entryMatches k2 (lowerCase w) = true → i = j := by
    intro i j k1 k2 h1 h2 m1 m2
    exact keywordWords_head i j k1 k2 h1 h2
      ((entryMatches_head _ _ m1).trans (entryMatches_head _ _ m2).symm)
  have hck : checkKeywords (Token.ofString w) =
      match checkKeywordsLoop (lowerCase w) keywordWords 0 with
      | some type => Token.ofType type
      | none => Token.ofString w := rfl
  refine ⟨?_, ?_, ?_⟩
  · intro i k ty hk hty
    have hi := keywordWords_lt i k hk
    obtain ⟨hcode, hkw⟩ := keywordTypes_code i ty hi hty
    rw [matchesKeyword_iff, hck]
    constructor
    · intro h
      cases hl : checkKeywordsLoop (lowerCase w) keywordWords 0 with
      | none =>
        rw [hl] at h
        have ht : Type_String = ty := congrArg Token.mType h
        rw [← ht] at hkw
        exact absurd hkw (by decide)
      | some ty2 =>
        rw [hl] at h
        have ht : ty2 = ty := congrArg Token.mType h
        obtain ⟨j, k2, hj, hm, e⟩ := checkKeywordsLoop_match _ _ _ _ hl
        have hjl := keywordWords_lt j k2 hj
        rw [ht, hcode, Nat.zero_add] at e
        have hij := ofCode_keyword_inj i j hi hjl e
        subst hij
        rw [hk] at hj
        simp only [Option.some.injEq] at hj
        rw [hj]
        exact hm
    · intro hm
      have hfirst : ∀ (j2 : Nat) (k2 : List Char), j2 < i → keywordWords[j2]? = some k2 →
          entryMatches k2 (lowerCase w) = false := by
        intro j2 k2 hlt hk2
        cases hm2 : entryMatches k2 (lowerCase w) with
        | false => rfl
        | true =>
          have := huniq j2 i k2 k hk2 hk hm2 hm
          omega
      rw [checkKeywordsLoop_first (lowerCase w) keywordWords 0 i k hk hm hfirst, Nat.zero_add,
        ← hcode]
  · intro i j k1 k2 h1 h2 m1 m2
    exact huniq i j k1 k2 h1 h2 ((matchesKeyword_iff w k1).1 m1) ((matchesKeyword_iff w k2).1 m2)
  · intro hnone
    rw [hck, checkKeywordsLoop_none (lowerCase w) keywordWords 0]
    intro k hk
    cases hm : entryMatches k (lowerCase w) with
    | false => rfl
    | true => exact absurd ((matchesKeyword_iff w k).2 hm) (hnone k hk)

/-- Witness for `checkKeywords_classifier`: `TRUE` is the keyword true (position
0), the single letter `A` is the keyword and (position 2), and `Abc` stays the
plain string token `Abc`. -/
theorem checkKeywords_classifier_witness :
    checkKeywords (Token.ofString "TRUE".toList) = Token.ofType Type_Keyword_True ∧
    checkKeywords (Token.ofString "A".toList) = Token.ofType Type_Keyword_And ∧
    checkKeywords (Token.ofString "Abc".toList) = Token.ofString "Abc".toList :=
  ⟨((checkKeywords_classifier "TRUE".toList).1 0 "true".toList Type_Keyword_True rfl rfl).2
      (Or.inl (by decide)),
   ((checkKeywords_classifier "A".toList).1 2 "and".toList Type_Keyword_And rfl rfl).2
      (Or.inr ⟨rfl, by decide⟩),
   (checkKeywords_classifier "Abc".toList).2.2 (by
      intro k hk
      simp only [keywordWords, List.mem_cons, List.mem_singleton, List.not_mem_nil,
        or_false] at hk
      rcases hk with h | h | h | h | h | h | h <;> subst h <;>
        exact fun hm => hm.elim (fun e => absurd e (by decide)) (fun e => absurd e.1 (by decide)))⟩

/-- Claim C22.  `parse` is total: for every collaborator, prior state, filter
text and flag it returns, with the cursor within the input.  The nesting bound
of `parse` is never reached (a larger bound gives the same result: the
named-filter path re-enters `parse` once, with shortcuts disabled), and the
recursion of `parseImp` is bounded by the remaining input (twice its length
plus one is enough, and then the cursor has only moved forward within the same
input).  `getNextToken` keeps the input, never moves the cursor back or out of
the input, and moves it by at least one character for every token other than
end-of-stream or an invalid one.  When the stored text of a named filter starts
with a plain string token again (its own identifier, or the next identifier of
a cycle) it is parsed as an expression and `parse` fails. -/
theorem parse_terminates (d : Data) :
    (∀ p filter allowPredefined,
      ∃ r, parse d p filter allowPredefined = some r ∧ inBounds r.2) ∧
    (∀ k p filter allowPredefined,
      parseDepth d (k + 2) p filter allowPredefined = parse d p filter allowPredefined) ∧
    (∀ f a b p, 2 * p.unread.length + 1 ≤ f →
      ∃ r, parseImp d f a b p = some r ∧
        parseImp d (2 * p.unread.length + 1) a b p = some r ∧
        r.2.mInput = p.mInput ∧ p.mIndex ≤ r.2.mIndex ∧ (inBounds p → inBounds r.2)) ∧
    (∀ p, (getNextToken p).2.mInput = p.mInput ∧ p.mIndex ≤ (getNextToken p).2.mIndex ∧
      (inBounds p → inBounds (getNextToken p).2) ∧
      ((getNextToken p).1.mType ≠ Type_EOS → (getNextToken p).1.mType ≠ Type_None →
        p.mIndex < (getNextToken p).2.mIndex)) ∧
    (∀ p input, (getNextToken (Parser.start input)).1.mType = Type_String →
      (getNextToken (getNextToken (Parser.start input)).2).1.toBool = true →
      d.searchId (getNextToken (Parser.start input)).1.mString ≠ -1 →
      (d.getRecord (d.searchId (getNextToken (Parser.start input)).1.mString)).isDeleted
        = false →
      parse d p input true = parse d p
        (d.getRecord (d.searchId (getNextToken (Parser.start input)).1.mString)).mFilter false ∧
      ((getNextToken (Parser.start
          (d.getRecord (d.searchId (getNextToken (Parser.start input)).1.mString)).mFilter)).1.mType
          = Type_String →
        outcome (parse d p input true) = some (false, true, none))) := by
  refine ⟨?_, ?_, ?_, ?_, ?_⟩
  · intro p filter allowPredefined
    obtain ⟨r, hr⟩ := parse_total d p filter allowPredefined
    exact ⟨r, hr, parse_bounds d p filter allowPredefined r hr⟩
  · intro k p filter allowPredefined
    exact parseDepth_stable d k p filter allowPredefined
  · intro f a b p hf
    obtain ⟨r, hr⟩ := parseImp_total d f a b p hf
    have hfr := parseImp_frame d f a b p r hr
    refine ⟨r, hr, ?_, hfr.2.1, hfr.2.2.1, fun h => inBounds_of_frame hfr h⟩
    rw [← parseImp_budget d f (2 * p.unread.length + 1) a b p hf (Nat.le_refl _)]
    exact hr
  · intro p
    have hfr := (Frame.refl p).tok
    refine ⟨hfr.2.1, hfr.2.2.1, fun h => inBounds_of_frame hfr h, ?_⟩
    intro h1 h2
    rw [getNextToken_eq] at h1 h2 ⊢
    have hp := lex_pos _ h1 h2
    show p.mIndex < p.mIndex + _
    omega
  · intro p input h1 h2 h3 h4
    have e := parse_named_reenters d p input h1 h2 h3 h4
    refine ⟨e, ?_⟩
    intro h5
    rw [e]
    exact parse_string_first_fails d p _ h5

/-- Witness for `parse_terminates`: in a collection where the stored text of
`Self` is `Self` itself and the stored texts of `Ping` and `Pong` name each
other, the inputs `Self` and `Ping` are rejected; and the token `and` moves the
cursor from 0 to 3. -/
theorem parse_terminates_witness :
    outcome (parse (Data.ofLists [] [("Self".toList, ⟨false, "Self".toList⟩),
        ("Ping".toList, ⟨false, "Pong".toList⟩), ("Pong".toList, ⟨false, "Ping".toList⟩)])
      Parser.new "Self".toList true) = some (false, true, none) ∧
    outcome (parse (Data.ofLists [] [("Self".toList, ⟨false, "Self".toList⟩),
        ("Ping".toList, ⟨false, "Pong".toList⟩), ("Pong".toList, ⟨false, "Ping".toList⟩)])
      Parser.new "Ping".toList true) = some (false, true, none) ∧
    (Parser.start "and(".toList).mIndex <
      (getNextToken (Parser.start "and(".toList)).2.mIndex :=
  ⟨((parse_terminates (Data.ofLists [] [("Self".toList, ⟨false, "Self".toList⟩),
        ("Ping".toList, ⟨false, "Pong".toList⟩), ("Pong".toList, ⟨false, "Ping".toList⟩)])).2.2.2.2
      Parser.new "Self".toList rfl rfl (by decide) rfl).2 rfl,
   ((parse_terminates (Data.ofLists [] [("Self".toList, ⟨false, "Self".toList⟩),
        ("Ping".toList, ⟨false, "Pong".toList⟩), ("Pong".toList, ⟨false, "Ping".toList⟩)])).2.2.2.2
      Parser.new "Ping".toList rfl rfl (by decide) rfl).2 rfl,
   ((parse_terminates sampleData).2.2.2.1 (Parser.start "and(".toList)).2.2.2
      (by decide) (by decide)⟩


end CSMFilter
